import Mathlib

/-!
# OGLKit mesh container

A shallow embedding of `modules/geometry/src/mesh.cpp` (class `CHLib::Mesh<T>`):
the extension dispatch of `Load` and `Save`, the OBJ reader and writer, the TRI
reader, the connectivity builder, the bounding-box pass and the vertex-normal
pass; and of
`modules/io/src/image_factory.cpp` (class `OGLKit::ImageFactory`, kept in the
same namespace here): the lookup `CreateByExtension` and `Register`.

Conventions of the embedding.

* Text (paths, file contents, line buffers) is a `List Char`.
* `std::vector` is a `List`; the loops that run an `int` counter up to
  `static_cast<int>(size)` are folds over the list, i.e. container sizes are
  taken to fit the counter type.
* `int` values are integers; a conversion or subtraction that leaves the range
  of a 32-bit `int`, an access outside a container and a failed `assert` are
  reported as a `Fault` instead of a result.
* The number type `T` of the template is any linearly ordered type with `+`
  and `*`; `numeric_limits<T>::max()`, `numeric_limits<T>::lowest()` and
  `T(0.5)` are the fields of `Limits`.  Rounding and NaN are not represented.
* The header `chlib/geometry/mesh.hpp` and the vector types it includes are not
  part of the sources at hand.  What `mesh.cpp` uses from them is either a
  parameter (`Extractors`, `Printers`) or a definition marked as modelled from
  the specification.  The vector and number operations of `ComputeVertexNormal`
  are the fields of `NormalOps`.  The same holds for the header of `ImageProxy`:
  what its virtual methods return is data of the proxy.
-/

namespace CHLib

/-! ## Faults -/

/-- Ways in which a run leaves defined behaviour or aborts. -/
inductive Fault where
  /-- An `assert` did not hold (the program aborts). -/
  | assertion
  /-- An element outside a container or object was accessed. -/
  | outOfBounds
  /-- A value does not fit a 32-bit `int`. -/
  | intOverflow
  deriving DecidableEq

/-- The C `assert` macro: compiled out under `NDEBUG`, a fault otherwise when
the condition is false. -/
def cAssert (ndebug : Bool) (cond : Bool) : Except Fault Unit :=
  if ndebug || cond then .ok () else .error .assertion

/-! ## Geometric primitive types -/

/-- Two-component tuple (`TCoord`). -/
structure Vector2 (T : Type) where
  x_ : T
  y_ : T
  deriving DecidableEq

/-- Three-component tuple (`Vertex`, `Normal`, `Edge`, and `Triangle` over `int`). -/
structure Vector3 (T : Type) where
  x_ : T
  y_ : T
  z_ : T
  deriving DecidableEq

/-- A triangle: three vertex indices of type `int`. -/
abbrev Triangle := Vector3 Int

/-- Read through `&v.x_` used as an array: `ptr[e]` for `e = 0, 1, 2`. -/
def Vector3.idx {T : Type} (v : Vector3 T) (e : Nat) : T :=
  if e = 0 then v.x_ else if e = 1 then v.y_ else v.z_

/-- Write through `&v.x_` used as an array: `ptr[e] = a` for `e = 0, 1, 2`. -/
def Vector3.setIdx {T : Type} (v : Vector3 T) (e : Nat) (a : T) : Vector3 T :=
  if e = 0 then { v with x_ := a } else if e = 1 then { v with y_ := a } else { v with z_ := a }

/-- Modelled from the spec: `Vector3::operator+` of the absent vector header,
the component-wise sum. -/
def Vector3.add {T : Type} [Add T] (a b : Vector3 T) : Vector3 T :=
  ⟨a.x_ + b.x_, a.y_ + b.y_, a.z_ + b.z_⟩

/-- Modelled from the spec: `Vector3::operator*` with a scalar of the absent
vector header, the component-wise scalar multiple. -/
def Vector3.scale {T : Type} [Mul T] (a : Vector3 T) (s : T) : Vector3 T :=
  ⟨a.x_ * s, a.y_ * s, a.z_ * s⟩

/-- Modelled from the spec: `Vector3<int>::operator-=` with a scalar of the
absent vector header, used as `tri -= 1`: every index is decremented. -/
def Vector3.subScalar (a : Triangle) (s : Int) : Triangle :=
  ⟨a.x_ - s, a.y_ - s, a.z_ - s⟩

/-- Axis-aligned bounding box. -/
structure BBox (T : Type) where
  min_ : Vector3 T
  max_ : Vector3 T
  center_ : Vector3 T
  deriving DecidableEq

/-- The data members of `Mesh<T>`. -/
structure Mesh (T : Type) where
  vertex_ : List (Vector3 T)
  normal_ : List (Vector3 T)
  tex_coord_ : List (Vector2 T)
  tri_ : List Triangle
  vertex_con_ : List (List Int)
  bbox_ : BBox T
  bbox_is_computed_ : Bool
  deriving DecidableEq

/-- The constants of the number type that `mesh.cpp` uses. -/
structure Limits (T : Type) where
  /-- The value `std::numeric_limits<T>::max()`. -/
  max : T
  /-- The value `std::numeric_limits<T>::lowest()`. -/
  lowest : T
  /-- The value `T(0.5)`. -/
  half : T

/-! ## BuildConnectivity -/

/-- The statement `vertex_con_[idx].push_back(x)`. -/
def push_back_at (con : List (List Int)) (idx : Int) (x : Int) :
    Except Fault (List (List Int)) :=
  if 0 ≤ idx ∧ idx.toNat < con.length then
    .ok (con.set idx.toNat (con.getD idx.toNat [] ++ [x]))
  else
    .error .outOfBounds

/-- Body of the loop `for (int e = 0; e < 3; ++e)` of `BuildConnectivity`. -/
def connCorner (t : Triangle) (con : List (List Int)) (e : Nat) :
    Except Fault (List (List Int)) :=
  let idx_in := t.idx e
  let idx_out_1 := t.idx ((e + 1) % 3)
  let idx_out_2 := t.idx ((e + 2) % 3)
  match push_back_at con idx_in idx_out_1 with
  | .error f => .error f
  | .ok con1 => push_back_at con1 idx_in idx_out_2

/-- Body of the loop over the triangles of `BuildConnectivity`. -/
def connTri (con : List (List Int)) (t : Triangle) : Except Fault (List (List Int)) :=
  [0, 1, 2].foldlM (connCorner t) con

/-- The method `Mesh<T>::BuildConnectivity`. -/
def BuildConnectivity {T : Type} (ndebug : Bool) (m : Mesh T) : Except Fault (Mesh T) :=
  match cAssert ndebug (m.vertex_.length != 0 && m.tri_.length != 0) with
  | .error f => .error f
  | .ok _ =>
    match m.tri_.foldlM connTri (List.replicate m.vertex_.length []) with
    | .error f => .error f
    | .ok con => .ok { m with vertex_con_ := con }

/-- The neighbour entries that the corners of `t` equal to `v` contribute. -/
def cornerPairs (v : Int) (t : Triangle) : List Int :=
  [0, 1, 2].flatMap fun e =>
    if t.idx e = v then [t.idx ((e + 1) % 3), t.idx ((e + 2) % 3)] else []

/-- The neighbour list of vertex `v` as the specification words it: over the
triangles in array order and their corners in order, the other two corners of
each corner equal to `v`. -/
def connSpec (tris : List Triangle) (v : Int) : List Int :=
  tris.flatMap (cornerPairs v)

/-- Number of triangle corners equal to `v`. -/
def cornerCount (tris : List Triangle) (v : Int) : Nat :=
  (tris.map fun t => ([0, 1, 2].filter fun e => t.idx e = v).length).sum

/-! ## ComputeBoundingBox -/

/-- One vertex of the running min/max reduction (the six conditional
assignments shared by `ComputeBoundingBox` and `LoadOBJ`). -/
def bboxStep {T : Type} [LinearOrder T] (b : BBox T) (v : Vector3 T) : BBox T :=
  { b with
    min_ := ⟨if b.min_.x_ < v.x_ then b.min_.x_ else v.x_,
             if b.min_.y_ < v.y_ then b.min_.y_ else v.y_,
             if b.min_.z_ < v.z_ then b.min_.z_ else v.z_⟩
    max_ := ⟨if b.max_.x_ > v.x_ then b.max_.x_ else v.x_,
             if b.max_.y_ > v.y_ then b.max_.y_ else v.y_,
             if b.max_.z_ > v.z_ then b.max_.z_ else v.z_⟩ }

/-- The block `// Init bbox`: min starts at `max()`, max at `lowest()`. -/
def bboxInit {T : Type} (lim : Limits T) (b : BBox T) : BBox T :=
  { b with
    min_ := ⟨lim.max, lim.max, lim.max⟩
    max_ := ⟨lim.lowest, lim.lowest, lim.lowest⟩ }

/-- The assignment `bbox_.center_ = (bbox_.min_ + bbox_.max_) * T(0.5)`. -/
def bboxCenter {T : Type} [Add T] [Mul T] (lim : Limits T) (b : BBox T) : BBox T :=
  { b with center_ := (b.min_.add b.max_).scale lim.half }

/-- The method `Mesh<T>::ComputeBoundingBox`. -/
def ComputeBoundingBox {T : Type} [LinearOrder T] [Add T] [Mul T]
    (lim : Limits T) (m : Mesh T) : Mesh T :=
  let b := m.vertex_.foldl bboxStep (bboxInit lim m.bbox_)
  { m with bbox_ := bboxCenter lim b, bbox_is_computed_ := true }

/-! ## Characters and `sscanf` -/

/-- The C library predicate `isspace` in the "C" locale: space, `\t`, `\n`,
`\v`, `\f`, `\r`. -/
def isspace (c : Char) : Bool :=
  c.toNat = 32 || (9 ≤ c.toNat && c.toNat ≤ 13)

/-- The C library predicate `isdigit`. -/
def isdigit (c : Char) : Bool :=
  48 ≤ c.toNat && c.toNat ≤ 57

/-- Value of a run of decimal digits. -/
def digitsVal (ds : List Char) : Nat :=
  ds.foldl (fun n c => 10 * n + (c.toNat - 48)) 0

/-- The subject sequence of a `%d` conversion at the start of `s`: an optional
sign and the longest run of digits; `none` when no digit is there, otherwise
the value and the unread input. -/
def scanDec (s : List Char) : Option (Int × List Char) :=
  let neg := s.head? = some '-'
  let s2 := if s.head? = some '-' ∨ s.head? = some '+' then s.drop 1 else s
  let ds := s2.takeWhile isdigit
  if ds = [] then none
  else some (if neg then -(digitsVal ds : Int) else (digitsVal ds : Int), s2.dropWhile isdigit)

/-- One `%d` conversion of `sscanf`: white space is skipped, then the subject
sequence is read. -/
def scanInt (s : List Char) : Option (Int × List Char) :=
  scanDec (s.dropWhile isspace)

/-- The values assigned by `sscanf(s, "%d", &a)`; the length of the list is the
number of assignments (the return value when it is positive). -/
def sscanf_d (s : List Char) : List Int :=
  match scanInt s with
  | none => []
  | some (a, _) => [a]

/-- The values assigned by `sscanf(s, "%d/%d", &a, &b)`. -/
def sscanf_dd (s : List Char) : List Int :=
  match scanInt s with
  | none => []
  | some (a, r) =>
    match r with
    | '/' :: r1 =>
      match scanInt r1 with
      | none => [a]
      | some (b, _) => [a, b]
    | _ => [a]

/-- The values assigned by `sscanf(s, "%d/%d/%d", &a, &b, &c)`. -/
def sscanf_ddd (s : List Char) : List Int :=
  match scanInt s with
  | none => []
  | some (a, r) =>
    match r with
    | '/' :: r1 =>
      match scanInt r1 with
      | none => [a]
      | some (b, r2) =>
        match r2 with
        | '/' :: r3 =>
          match scanInt r3 with
          | none => [a, b]
          | some (c, _) => [a, b, c]
        | _ => [a, b]
    | _ => [a]

/-- Whether a value, and the value minus one, fit a 32-bit `int`. -/
def fitsInt (v : Int) : Bool :=
  decide (-2147483648 < v) && decide (v ≤ 2147483647)

/-! ## LoadTri -/

/-- The constant `LINE_SIZE` of `LoadTri`. -/
def LINE_SIZE : Nat := 1024

/-- The successive results of `fgets(buffer, size, file)` until it returns
`NULL`: each call takes characters up to and including a newline, at most
`size - 1` of them.  `cur` is what the current call has taken so far. -/
def fgetsAll (size : Nat) : List Char → List Char → List (List Char)
  | cur, [] => if cur = [] then [] else [cur]
  | cur, c :: cs =>
    if c = '\n' ∨ (cur ++ [c]).length = size - 1 then
      (cur ++ [c]) :: fgetsAll size [] cs
    else
      fgetsAll size (cur ++ [c]) cs

/-- What `strlen(buffer)` delimits: the characters before the first NUL. -/
def cstr (buffer : List Char) : List Char :=
  buffer.takeWhile fun c => c != Char.ofNat 0

/-- The statement `tri_ptr[vertex_cnt] = vertex_idx - 1; vertex_cnt++`, with
the conversion and the write checked. -/
def storeRef (tri : Triangle) (vertex_cnt : Nat) (vertex_idx : Int) :
    Except Fault (Triangle × Nat) :=
  if !fitsInt vertex_idx then .error .intOverflow
  else if 3 ≤ vertex_cnt then .error .outOfBounds
  else .ok (tri.setIdx vertex_cnt (vertex_idx - 1), vertex_cnt + 1)

/-- The reference loop `while (ok && line_ptr < end_ptr)` of `LoadTri`, one
character of the line per step.  `skipping` is set while the pointer runs over
the rest of the reference just read (`skip over what we just read`); otherwise
white space is skipped and the first other character starts a reference, which
the three `sscanf` calls are tried on in turn.  The result is the triangle, the
count `vertex_cnt` and the flag `ok`. -/
def faceLoop : Bool → List Char → Triangle → Nat → Except Fault (Triangle × Nat × Bool)
  | _, [], tri, vertex_cnt => .ok (tri, vertex_cnt, true)
  | skipping, c :: cs, tri, vertex_cnt =>
    if isspace c then faceLoop false cs tri vertex_cnt
    else if skipping then faceLoop true cs tri vertex_cnt
    else if (sscanf_d (c :: cs)).length = 1 then
      match storeRef tri vertex_cnt ((sscanf_d (c :: cs)).headD 0) with
      | .error f => .error f
      | .ok (tri1, cnt1) => faceLoop true cs tri1 cnt1
    else if (sscanf_dd (c :: cs)).length = 2 then
      match storeRef tri vertex_cnt ((sscanf_dd (c :: cs)).headD 0) with
      | .error f => .error f
      | .ok (tri1, cnt1) => faceLoop true cs tri1 cnt1
    else if (sscanf_ddd (c :: cs)).length = 3 then
      match storeRef tri vertex_cnt ((sscanf_ddd (c :: cs)).headD 0) with
      | .error f => .error f
      | .ok (tri1, cnt1) => faceLoop true cs tri1 cnt1
    else .ok (tri, vertex_cnt, false)

/-- Body of the loop over the lines of `LoadTri` for one buffer filled by
`fgets`: find the command, and for the command `f` run the reference loop,
check `vertex_cnt == 3` and push the triangle.  `tri0` is the
default-constructed `Triangle tri`.  The result is the triangle array and the
flag `ok`. -/
def triLine (ndebug : Bool) (tri0 : Triangle) (buffer : List Char) (tris : List Triangle) :
    Except Fault (List Triangle × Bool) :=
  let line := (cstr buffer).dropWhile isspace
  let cmd := line.takeWhile fun c => !isspace c
  let rest := (line.dropWhile fun c => !isspace c).drop 1
  if cmd = ['f'] then
    match faceLoop false rest tri0 0 with
    | .error f => .error f
    | .ok (tri, vertex_cnt, ok) =>
      match cAssert ndebug (vertex_cnt == 3) with
      | .error f => .error f
      | .ok _ => .ok (tris ++ [tri], ok)
  else .ok (tris, true)

/-- The loop `while (ok && fgets(...) != NULL)` of `LoadTri` over the buffers
that `fgets` delivers. -/
def triLoop (ndebug : Bool) (tri0 : Triangle) :
    List (List Char) → List Triangle → Except Fault (List Triangle × Bool)
  | [], tris => .ok (tris, true)
  | buffer :: rest, tris =>
    match triLine ndebug tri0 buffer tris with
    | .error f => .error f
    | .ok (tris1, ok) => if ok then triLoop ndebug tri0 rest tris1 else .ok (tris1, false)

/-- The method `Mesh<T>::LoadTri`.  `file` is the content of the file at the
path, `none` when `fopen` fails. -/
def LoadTri {T : Type} (ndebug : Bool) (tri0 : Triangle) (file : Option (List Char))
    (m : Mesh T) : Except Fault (Mesh T × Int) :=
  match file with
  | none => .ok (m, -1)
  | some content =>
    match triLoop ndebug tri0 (fgetsAll LINE_SIZE [] content) m.tri_ with
    | .error f => .error f
    | .ok (tris, ok) => .ok ({ m with tri_ := tris }, if ok then 0 else -1)

/-! ## LoadOBJ -/

/-- State of `str_stream` seen by an extraction: the unread characters and the
fail bit. -/
structure SStream where
  buf : List Char
  fail : Bool
  deriving DecidableEq

/-- What `LoadOBJ` takes from the absent vector header: the default-constructed
locals and the stream extraction operators, each a function of the stream state
and of the value the variable held before. -/
structure Extractors (T : Type) where
  /-- The local `Vertex vertex` as constructed. -/
  vertex0 : Vector3 T
  /-- The local `Normal normal` as constructed. -/
  normal0 : Vector3 T
  /-- The local `TCoord tcoord` as constructed. -/
  tcoord0 : Vector2 T
  /-- The local `Triangle tri` as constructed. -/
  tri0 : Triangle
  /-- The extraction `str_stream >> vertex`. -/
  readVertex : SStream → Vector3 T → Vector3 T
  /-- The extraction `str_stream >> normal`. -/
  readNormal : SStream → Vector3 T → Vector3 T
  /-- The extraction `str_stream >> tcoord`. -/
  readTCoord : SStream → Vector2 T → Vector2 T
  /-- The extraction `str_stream >> tri`. -/
  readTri : SStream → Triangle → Triangle

/-- The lines that successive `std::getline(stream, line)` calls deliver until
`stream.eof()`: the pieces between newlines.  `cur` is the line being read. -/
def getlineAll : List Char → List Char → List (List Char)
  | cur, [] => [cur]
  | cur, c :: cs => if c = '\n' then cur :: getlineAll [] cs else getlineAll (cur ++ [c]) cs

/-- The extraction `str_stream >> key` on a fresh stream holding `line`: white
space is skipped; at the end of the stream the extraction fails and `key` keeps
its value, otherwise `key` becomes the next run of non-space characters. -/
def readKey (line : List Char) (key : List Char) : List Char × SStream :=
  let s := line.dropWhile isspace
  if s = [] then (key, ⟨[], true⟩)
  else (s.takeWhile fun c => !isspace c, ⟨s.dropWhile fun c => !isspace c, false⟩)

/-- The variables of `LoadOBJ` that live across lines: the locals `key`,
`vertex`, `normal`, `tcoord`, `tri` and the mesh. -/
structure ObjState (T : Type) where
  key : List Char
  vertex : Vector3 T
  normal : Vector3 T
  tcoord : Vector2 T
  tri : Triangle
  mesh : Mesh T

/-- Body of the loop `while (!stream.eof())` of `LoadOBJ` for one line. -/
def objLine {T : Type} [LinearOrder T] (ex : Extractors T) (st : ObjState T)
    (line : List Char) : ObjState T :=
  if line = [] then st
  else
    let key := (readKey line st.key).1
    let str_stream := (readKey line st.key).2
    if key = ['v'] then
      let vertex := ex.readVertex str_stream st.vertex
      { st with
        key := key
        vertex := vertex
        mesh := { st.mesh with
          vertex_ := st.mesh.vertex_ ++ [vertex]
          bbox_ := bboxStep st.mesh.bbox_ vertex } }
    else if key = ['v', 'n'] then
      let normal := ex.readNormal str_stream st.normal
      { st with
        key := key
        normal := normal
        mesh := { st.mesh with normal_ := st.mesh.normal_ ++ [normal] } }
    else if key = ['v', 't'] then
      let tcoord := ex.readTCoord str_stream st.tcoord
      { st with
        key := key
        tcoord := tcoord
        mesh := { st.mesh with tex_coord_ := st.mesh.tex_coord_ ++ [tcoord] } }
    else if key = ['f'] then
      let tri := (ex.readTri str_stream st.tri).subScalar 1
      { st with
        key := key
        tri := tri
        mesh := { st.mesh with tri_ := st.mesh.tri_ ++ [tri] } }
    else { st with key := key }

/-- The state of `LoadOBJ` before the first line: `key` empty, the locals as
constructed, the box of the mesh initialised by the block `// Init bbox`. -/
def objInit {T : Type} (lim : Limits T) (ex : Extractors T) (m : Mesh T) : ObjState T :=
  { key := []
    vertex := ex.vertex0
    normal := ex.normal0
    tcoord := ex.tcoord0
    tri := ex.tri0
    mesh := { m with bbox_ := bboxInit lim m.bbox_ } }

/-- The method `Mesh<T>::LoadOBJ`.  `file` is the content of the file at the
path, `none` when the stream does not open. -/
def LoadOBJ {T : Type} [LinearOrder T] [Add T] [Mul T] (lim : Limits T) (ex : Extractors T)
    (file : Option (List Char)) (m : Mesh T) : Mesh T × Int :=
  match file with
  | none => (m, -1)
  | some content =>
    let st := (getlineAll [] content).foldl (objLine ex) (objInit lim ex m)
    ({ st.mesh with bbox_ := bboxCenter lim st.mesh.bbox_, bbox_is_computed_ := true }, 0)

/-- The method `Mesh<T>::LoadPLY`: not implemented, always an error. -/
def LoadPLY {T : Type} (m : Mesh T) : Mesh T × Int :=
  (m, -1)

/-! ## Load -/

/-- The enumeration `Mesh<T>::FileExt`. -/
inductive FileExt where
  | kUndef
  | kObj
  | kPly
  | kTri
  deriving DecidableEq

/-- The method `Mesh<T>::HashExt`. -/
def HashExt (ext : List Char) : FileExt :=
  if ext = ['o', 'b', 'j'] then .kObj
  else if ext = ['p', 'l', 'y'] then .kPly
  else if ext = ['t', 'r', 'i'] then .kTri
  else FileExt.kUndef

/-- The call `filename.rfind(".")`: position of the last dot, `none` for
`npos`. -/
def rfindDot (filename : List Char) : Option Nat :=
  let after := (filename.reverse.takeWhile fun c => c != '.').length
  if after = filename.length then none else some (filename.length - 1 - after)

/-- The five `clear()` calls at the start of `Load`. -/
def clearArrays {T : Type} (m : Mesh T) : Mesh T :=
  { m with vertex_ := [], normal_ := [], tex_coord_ := [], tri_ := [], vertex_con_ := [] }

/-- The `switch (file_ext)` of `Load`. -/
def loadDispatch {T : Type} [LinearOrder T] [Add T] [Mul T] (ndebug : Bool) (lim : Limits T)
    (ex : Extractors T) (file_ext : FileExt) (file : Option (List Char)) (m : Mesh T) :
    Except Fault (Mesh T × Int) :=
  match file_ext with
  | .kObj => .ok (LoadOBJ lim ex file m)
  | .kPly => .ok (LoadPLY m)
  | .kTri => LoadTri ndebug ex.tri0 file m
  | FileExt.kUndef => .ok (m, -1)

/-- The method `Mesh<T>::Load`.  `file` is the content of the file at
`filename`, `none` when it cannot be opened.  The result is the mesh afterwards
and the returned status. -/
def Load {T : Type} [LinearOrder T] [Add T] [Mul T] (ndebug : Bool) (lim : Limits T)
    (ex : Extractors T) (filename : List Char) (file : Option (List Char)) (m : Mesh T) :
    Except Fault (Mesh T × Int) :=
  match rfindDot filename with
  | none => .ok (m, -1)
  | some pos =>
    let file_ext := HashExt (filename.drop (pos + 1))
    match loadDispatch ndebug lim ex file_ext file (clearArrays m) with
    | .error f => .error f
    | .ok (m1, err) =>
      match (if err = 0 ∧ file_ext ≠ .kTri then BuildConnectivity ndebug m1 else .ok m1) with
      | .error f => .error f
      | .ok m2 =>
        .ok (if err = 0 ∧ m2.bbox_is_computed_ = false then ComputeBoundingBox lim m2 else m2, err)

/-! ## Save -/

/-- What `SaveOBJ` takes from the stream library: the text `out_stream << x`
emits for a value of the number type and for an `int`. -/
structure Printers (T : Type) where
  /-- Text of a coordinate. -/
  showT : T → List Char
  /-- Text of an index. -/
  showInt : Int → List Char

/-- The header line that `SaveOBJ` writes first. -/
def objHeader : List Char :=
  "# wavefront obj file written by LTS5 c++ library".toList

/-- The method `Mesh<T>::SaveOBJ`.  `opened` tells whether the output stream
opens and `good` what `out_stream.good()` answers at the end.  The result is
the returned status and the text written, `none` when the stream did not open. -/
def SaveOBJ {T : Type} (pr : Printers T) (opened good : Bool) (m : Mesh T) :
    Int × Option (List Char) :=
  if opened then
    let header := objHeader ++ ['\n']
    let vertex := m.vertex_.flatMap fun v =>
      ['f', ' '] ++ pr.showT v.x_ ++ [' '] ++ pr.showT v.y_ ++ [' '] ++ pr.showT v.z_ ++ ['\n']
    let normal := m.normal_.flatMap fun n =>
      ['v', 'n', ' '] ++ pr.showT n.x_ ++ [' '] ++ pr.showT n.y_ ++ [' '] ++ pr.showT n.z_ ++ ['\n']
    let tcoord := m.tex_coord_.flatMap fun tc =>
      ['v', 't', ' '] ++ pr.showT tc.x_ ++ [' '] ++ pr.showT tc.y_ ++ ['\n']
    let tri := m.tri_.flatMap fun t =>
      ['f', ' '] ++ pr.showInt t.x_ ++ [' '] ++ pr.showInt t.y_ ++ [' '] ++ pr.showInt t.z_ ++ ['\n']
    (if good then 0 else -1, some (header ++ vertex ++ normal ++ tcoord ++ tri))
  else (-1, none)

/-- The method `Mesh<T>::SavePLY`: not implemented, always an error. -/
def SavePLY {T : Type} (_m : Mesh T) : Int × Option (List Char) :=
  (-1, none)

/-- The method `Mesh<T>::Save`.  The result is the returned status and the
text written to the file, `none` when nothing is written. -/
def Save {T : Type} (pr : Printers T) (opened good : Bool) (filename : List Char)
    (m : Mesh T) : Int × Option (List Char) :=
  match rfindDot filename with
  | none => (-1, none)
  | some pos =>
    match HashExt (filename.drop (pos + 1)) with
    | .kPly => SavePLY m
    | .kObj => SaveOBJ pr opened good m
    | _ => (-1, none)

/-! ## The TRI format in the words of the specification -/

/-- White space inside a line: any `isspace` character but the newline. -/
def isgap (c : Char) : Bool :=
  isspace c && c != '\n'

/-- The characters a reference of the three forms is made of. -/
def refChar (c : Char) : Bool :=
  isdigit c || c == '-' || c == '+' || c == '/'

/-- A reference read as a whole token in one of the three forms `i`, `i/t`,
`i/t/n` of decimal integers: the vertex index `i`, or `none` when the token has
none of these forms. -/
def refForm (tok : List Char) : Option Int :=
  match scanDec tok with
  | none => none
  | some (i, r1) =>
    if r1 = [] then some i
    else
      match scanDec (r1.drop 1) with
      | none => none
      | some (_, r2) =>
        if r2 = [] then (if r1.head? = some '/' then some i else none)
        else
          match scanDec (r2.drop 1) with
          | none => none
          | some (_, r3) =>
            if r1.head? = some '/' ∧ r2.head? = some '/' ∧ r3 = [] then some i else none

/-- The white-space delimited tokens of a line; `cur` is the token being read. -/
def words : List Char → List Char → List (List Char)
  | cur, [] => if cur = [] then [] else [cur]
  | cur, c :: cs =>
    if isspace c then (if cur = [] then words [] cs else cur :: words [] cs)
    else words (cur ++ [c]) cs

/-- The reference tokens of a buffer whose first token is exactly `f`; `none`
for any other buffer. -/
def faceRefs (buffer : List Char) : Option (List (List Char)) :=
  match words [] (cstr buffer) with
  | [] => none
  | cmd :: refs => if cmd = ['f'] then some refs else none

/-- The reference loop told over tokens: every token that begins with an
integer is stored, the first one that does not ends the loop with `ok` unset. -/
def storeRefs : List (List Char) → Triangle → Nat → Except Fault (Triangle × Nat × Bool)
  | [], tri, vertex_cnt => .ok (tri, vertex_cnt, true)
  | tok :: toks, tri, vertex_cnt =>
    match scanInt tok with
    | none => .ok (tri, vertex_cnt, false)
    | some (vertex_idx, _) =>
      match storeRef tri vertex_cnt vertex_idx with
      | .error f => .error f
      | .ok (tri1, cnt1) => storeRefs toks tri1 cnt1

/-- A buffer is malformed when it is a face line one of whose references does
not begin with a decimal integer. -/
def badLine (buffer : List Char) : Bool :=
  match faceRefs buffer with
  | none => false
  | some refs => refs.any fun tok => (scanInt tok).isNone

/-- A face line: leading gap, the command `f`, and three references parted by
gaps, with an optional newline at the end. -/
def faceLine (lead ws0 r1 ws1 r2 ws2 r3 ws3 eol : List Char) : List Char :=
  lead ++ (['f'] ++ (ws0 ++ (r1 ++ (ws1 ++ (r2 ++ (ws2 ++ (r3 ++ (ws3 ++ eol))))))))

/-! ## Meshes that differ in the bounding box only -/

/-- The mesh `m` with another bounding box and flag: the same five arrays. -/
def Mesh.withBox {T : Type} (m : Mesh T) (b : BBox T) (computed : Bool) : Mesh T :=
  { m with bbox_ := b, bbox_is_computed_ := computed }

/-- The reader state `st` with another box center and flag in its mesh. -/
def ObjState.recenter {T : Type} (st : ObjState T) (c : Vector3 T) (computed : Bool) :
    ObjState T :=
  { st with
    mesh := { st.mesh with
      bbox_ := { st.mesh.bbox_ with center_ := c }
      bbox_is_computed_ := computed } }

/-! ## Lines and face lines of a TRI text -/

/-- The lines of a text: the pieces that end with a newline, and the rest after
the last newline when it is not empty.  `cur` is the line being read. -/
def linesOf : List Char → List Char → List (List Char)
  | cur, [] => if cur = [] then [] else [cur]
  | cur, c :: cs => if c = '\n' then (cur ++ [c]) :: linesOf [] cs else linesOf (cur ++ [c]) cs

/-- The first white-space delimited token of a line, empty for a blank line. -/
def firstWord (line : List Char) : List Char :=
  (line.dropWhile isspace).takeWhile fun c => !isspace c

/-- The vertex index a reference begins with, as `%d` reads it. -/
def refIdx (tok : List Char) : Int :=
  ((scanInt tok).map Prod.fst).getD 0

/-- The triangle of three references: every vertex index decremented by one. -/
def refsTriangle (refs : List (List Char)) : Triangle :=
  ⟨refIdx (refs.getD 0 []) - 1, refIdx (refs.getD 1 []) - 1, refIdx (refs.getD 2 []) - 1⟩

/-- The triangle of a face line. -/
def lineTriangle (line : List Char) : Triangle :=
  refsTriangle ((faceRefs line).getD [])

/-- The white-space delimited tokens of a line after its first one. -/
def restWords (line : List Char) : List (List Char) :=
  words [] ((line.dropWhile isspace).dropWhile fun c => !isspace c)

/-! ## ImageFactory -/

/-- What `ImageFactory` takes from the absent header of `ImageProxy`: a
registered pointer `const ImageProxy*`, given by its address and by what its two
virtual methods return.  `Create` is the pointer that the call
`proxy->Create()` returns, `none` for `nullptr`. -/
structure ImageProxy (Image : Type) where
  addr : Nat
  Extension : List Char
  Create : Option Image

/-- The method `ImageFactory::CreateByExtension`, over the proxies in the order
in which the loop `for (const auto* proxy : proxies_)` visits them.  The result
is the returned pointer (`none` for `nullptr`) and the addresses of the proxies
whose `Create()` was called. -/
def ImageFactory.CreateByExtension {Image : Type} :
    List (ImageProxy Image) → List Char → Option Image × List Nat
  | [], _ => (none, [])
  | proxy :: rest, extension =>
    if proxy.Extension = extension then (proxy.Create, [proxy.addr])
    else ImageFactory.CreateByExtension rest extension

/-- The method `ImageFactory::Register`: `find` looks the pointer up, `insert`
adds it when it is absent.  The container of `proxies_` is declared in the
absent header; `place` is the position in iteration order at which its `insert`
puts the new pointer. -/
def ImageFactory.Register {Image : Type} (place : Nat) (proxies : List (ImageProxy Image))
    (object : ImageProxy Image) : List (ImageProxy Image) :=
  if proxies.any (fun p => decide (p.addr = object.addr)) then proxies
  else proxies.take place ++ object :: proxies.drop place

/-! ## ComputeVertexNormal -/

/-- What `ComputeVertexNormal` takes from the absent vector header and from
`<cmath>`: the default-constructed normal and the operations on vectors and
numbers, each a function of its operands. -/
structure NormalOps (T : Type) where
  /-- The value `Mesh::Normal()`, also the local `Normal weighted_n` as
  constructed. -/
  normal0 : Vector3 T
  /-- The difference `B - A`. -/
  sub : Vector3 T → Vector3 T → Vector3 T
  /-- The product `AB ^ AC`. -/
  cross : Vector3 T → Vector3 T → Vector3 T
  /-- What the call `Normalize()` leaves in the vector. -/
  normalize : Vector3 T → Vector3 T
  /-- The product `AB * AC` of two vectors. -/
  dot : Vector3 T → Vector3 T → T
  /-- The function `std::acos`. -/
  acos : T → T
  /-- The product `n * angle`. -/
  scale : Vector3 T → T → Vector3 T
  /-- The value of `weighted_n` after `weighted_n += x`. -/
  addAssign : Vector3 T → Vector3 T → Vector3 T

/-- The read `v[i]` of a `std::vector` at an `int` index. -/
def vecAt {α : Type} (v : List α) (i : Int) : Except Fault α :=
  match (if 0 ≤ i then v[i.toNat]? else none) with
  | some a => .ok a
  | none => .error .outOfBounds

/-- The call `normal_.resize(n, a)`. -/
def resize {α : Type} (v : List α) (n : Nat) (a : α) : List α :=
  v.take n ++ List.replicate (n - v.length) a

/-- The loop `for (int j = 0; j < n_conn; j += 2)` of `ComputeVertexNormal` over
the entries of `conn` from `j` on, with the value of `weighted_n` so far. -/
def normalLoop {T : Type} (ops : NormalOps T) (vertex_ : List (Vector3 T)) (A : Vector3 T) :
    List Int → Vector3 T → Except Fault (Vector3 T)
  | [], weighted_n => .ok weighted_n
  | [b], _ =>
    match vecAt vertex_ b with
    | .error f => .error f
    | .ok _ => .error .outOfBounds
  | b :: c :: rest, weighted_n =>
    match vecAt vertex_ b with
    | .error f => .error f
    | .ok B =>
      match vecAt vertex_ c with
      | .error f => .error f
      | .ok C =>
        let AB := ops.sub B A
        let AC := ops.sub C A
        let n := ops.normalize (ops.cross AB AC)
        let angle := ops.acos (ops.dot (ops.normalize AB) (ops.normalize AC))
        normalLoop ops vertex_ A rest (ops.addAssign weighted_n (ops.scale n angle))

/-- Body of the loop over the vertices of `ComputeVertexNormal` for vertex `v`;
`normal_` is the normal array so far. -/
def normalAt {T : Type} (ops : NormalOps T) (m : Mesh T) (normal_ : List (Vector3 T))
    (v : Nat) : Except Fault (List (Vector3 T)) :=
  match vecAt m.vertex_con_ v with
  | .error f => .error f
  | .ok conn =>
    match vecAt m.vertex_ v with
    | .error f => .error f
    | .ok A =>
      match normalLoop ops m.vertex_ A conn ops.normal0 with
      | .error f => .error f
      | .ok weighted_n =>
        if v < normal_.length then .ok (normal_.set v (ops.normalize weighted_n))
        else .error .outOfBounds

/-- The method `Mesh<T>::ComputeVertexNormal`.  The iterations of the parallel
loop read `vertex_` and `vertex_con_` and write `normal_[v]` only; they are
taken in index order. -/
def ComputeVertexNormal {T : Type} (ndebug : Bool) (ops : NormalOps T) (m : Mesh T) :
    Except Fault (Mesh T) :=
  match cAssert ndebug (decide (m.vertex_con_.length > 0)) with
  | .error f => .error f
  | .ok _ =>
    let n_vert := m.vertex_.length
    match (List.range n_vert).foldlM (normalAt ops m) (resize m.normal_ n_vert ops.normal0) with
    | .error f => .error f
    | .ok normal_ => .ok { m with normal_ := normal_ }

/-! ## The vertex normal in the words of the specification -/

/-- Two triangles sharing the edge between vertices 1 and 2, over four
vertices with integer coordinates. -/
def quadMesh : Mesh Int :=
  { vertex_ := [⟨0, 0, 0⟩, ⟨1, 0, 0⟩, ⟨0, 1, 0⟩, ⟨1, 1, 0⟩]
    normal_ := []
    tex_coord_ := []
    tri_ := [⟨0, 1, 2⟩, ⟨1, 3, 2⟩]
    vertex_con_ := []
    bbox_ := ⟨⟨0, 0, 0⟩, ⟨0, 0, 0⟩, ⟨0, 0, 0⟩⟩
    bbox_is_computed_ := false }

/-- Extraction of up to three integers as by `in >> a >> b >> c`: a component
that cannot be read, and those after it, keep their value. -/
def readInts3 (s : SStream) (v : Vector3 Int) : Vector3 Int :=
  if s.fail then v
  else
    match scanInt s.buf with
    | none => v
    | some (a, r1) =>
      match scanInt r1 with
      | none => { v with x_ := a }
      | some (b, r2) =>
        match scanInt r2 with
        | none => { v with x_ := a, y_ := b }
        | some (c, _) => ⟨a, b, c⟩

/-- Extraction of up to two integers as by `in >> a >> b`. -/
def readInts2 (s : SStream) (v : Vector2 Int) : Vector2 Int :=
  if s.fail then v
  else
    match scanInt s.buf with
    | none => v
    | some (a, r1) =>
      match scanInt r1 with
      | none => { v with x_ := a }
      | some (b, _) => ⟨a, b⟩

/-- Extractors for meshes with integer coordinates; locals start at zero. -/
def intExtractors : Extractors Int :=
  { vertex0 := ⟨0, 0, 0⟩
    normal0 := ⟨0, 0, 0⟩
    tcoord0 := ⟨0, 0⟩
    tri0 := ⟨0, 0, 0⟩
    readVertex := readInts3
    readNormal := readInts3
    readTCoord := readInts2
    readTri := readInts3 }

/-- Limits of a sample integer number type: the values from -1000 to 1000;
`T(0.5)` converts to 0 there. -/
def intLimits : Limits Int :=
  { max := 1000, lowest := -1000, half := 0 }

/-- The empty mesh of integer coordinates, as constructed. -/
def emptyMesh : Mesh Int :=
  { vertex_ := []
    normal_ := []
    tex_coord_ := []
    tri_ := []
    vertex_con_ := []
    bbox_ := ⟨⟨0, 0, 0⟩, ⟨0, 0, 0⟩, ⟨0, 0, 0⟩⟩
    bbox_is_computed_ := false }

/-- Limits of a sample exact number type: the rationals from -1000 to 1000. -/
def ratLimits : Limits ℚ :=
  { max := 1000, lowest := -1000, half := 1 / 2 }

/-- A mesh of three vertices with rational coordinates and a stale box. -/
def ratMesh : Mesh ℚ :=
  { vertex_ := [⟨0, 2, -1⟩, ⟨3, 0, 0⟩, ⟨1, 1, 5⟩]
    normal_ := []
    tex_coord_ := []
    tri_ := [⟨0, 1, 2⟩]
    vertex_con_ := []
    bbox_ := ⟨⟨7, 7, 7⟩, ⟨7, 7, 7⟩, ⟨7, 7, 7⟩⟩
    bbox_is_computed_ := false }

/-- A mesh holding the one vertex `(3, -2, 1/2)`. -/
def pointMesh : Mesh ℚ :=
  { ratMesh with vertex_ := [⟨3, -2, 1 / 2⟩], tri_ := [] }

/-- A number type with an infinite value above every finite one, and the
limits of single precision in it. -/
def floatLimits : Limits (WithTop ℚ) :=
  { max := ((340282346638528859811704183484516925440 : ℚ) : WithTop ℚ)
    lowest := ((-340282346638528859811704183484516925440 : ℚ) : WithTop ℚ)
    half := ((1 / 2 : ℚ) : WithTop ℚ) }

/-- A mesh holding the one vertex `(+∞, 0, 0)`. -/
def infMesh : Mesh (WithTop ℚ) :=
  { vertex_ := [⟨⊤, 0, 0⟩]
    normal_ := []
    tex_coord_ := []
    tri_ := []
    vertex_con_ := []
    bbox_ := ⟨⟨0, 0, 0⟩, ⟨0, 0, 0⟩, ⟨0, 0, 0⟩⟩
    bbox_is_computed_ := false }

/-- Decimal text of an integer, as `out_stream << i` writes it. -/
def showInt (i : Int) : List Char :=
  (toString i).toList

/-- Printers for meshes with integer coordinates. -/
def intPrinters : Printers Int :=
  { showT := showInt, showInt := showInt }

/-- The text that `Save` writes for `quadMesh`. -/
def quadObjText : List Char :=
  ("# wavefront obj file written by LTS5 c++ library\n" ++
    "f 0 0 0\nf 1 0 0\nf 0 1 0\nf 1 1 0\n" ++
    "f 0 1 2\nf 1 3 2\n").toList

/-- A proxy for `jpg` whose `Create()` returns a null pointer. -/
def nullProxy : ImageProxy Nat :=
  ⟨1, "jpg".toList, none⟩

/-- Three proxies, two of them for `jpg`. -/
def someProxies : List (ImageProxy Nat) :=
  [⟨10, "png".toList, some 100⟩, ⟨20, "jpg".toList, some 200⟩, ⟨30, "jpg".toList, some 300⟩]

/-- Vector operations on integer coordinates for the examples: the exact
difference, cross and dot product, sum and scaling; `Normalize()` and
`std::acos` stand in as the identity and the constant 1. -/
def intOps : NormalOps Int :=
  { normal0 := ⟨0, 0, 0⟩
    sub := fun a b => ⟨a.x_ - b.x_, a.y_ - b.y_, a.z_ - b.z_⟩
    cross := fun a b =>
      ⟨a.y_ * b.z_ - a.z_ * b.y_, a.z_ * b.x_ - a.x_ * b.z_, a.x_ * b.y_ - a.y_ * b.x_⟩
    normalize := fun a => a
    dot := fun a b => a.x_ * b.x_ + a.y_ * b.y_ + a.z_ * b.z_
    acos := fun _ => 1
    scale := fun a s => ⟨a.x_ * s, a.y_ * s, a.z_ * s⟩
    addAssign := fun a b => ⟨a.x_ + b.x_, a.y_ + b.y_, a.z_ + b.z_⟩ }

/-- The mesh that `Load` leaves for the OBJ text of one triangle with one normal
line: `v 0 0 0`, `v 2 0 0`, `v 0 4 0`, `vn 0 0 1`, `f 1 2 3`. -/
def triangleMesh : Mesh Int :=
  { vertex_ := [⟨0, 0, 0⟩, ⟨2, 0, 0⟩, ⟨0, 4, 0⟩]
    normal_ := [⟨0, 0, 1⟩]
    tex_coord_ := []
    tri_ := [⟨0, 1, 2⟩]
    vertex_con_ := [[1, 2], [2, 0], [0, 1]]
    bbox_ := ⟨⟨0, 0, 0⟩, ⟨2, 4, 0⟩, ⟨0, 0, 0⟩⟩
    bbox_is_computed_ := true }

/-- Addition of single precision on the sample number type: a sum beyond
`max()` overflows to `+∞`. -/
def floatAdd : Add (WithTop ℚ) :=
  ⟨fun a b => if floatLimits.max < a + b then ⊤ else a + b⟩

/-- The vertex `(3e38, 0, 0)`, inside the range of single precision. -/
def bigVertex : Vector3 (WithTop ℚ) :=
  ⟨((300000000000000000000000000000000000000 : ℚ) : WithTop ℚ), ((0 : ℚ) : WithTop ℚ),
    ((0 : ℚ) : WithTop ℚ)⟩

/-- A mesh holding the one vertex `(3e38, 0, 0)`. -/
def bigMesh : Mesh (WithTop ℚ) :=
  { infMesh with vertex_ := [bigVertex] }

/-- A TRI text of one face line longer than the line buffer: `f 1 2 3`, 1100
blanks and the token `x`. -/
def longBadLine : List Char :=
  "f 1 2 3".toList ++ (List.replicate 1100 ' ' ++ ['x', '\n'])

theorem sum_length_set (con : List (List Int)) (i : Nat) (l : List Int) (h : i < con.length) :
    ((con.set i l).map List.length).sum + (con.getD i []).length
      = (con.map List.length).sum + l.length := by
  induction con generalizing i with
  | nil => simp at h
  | cons a as ih =>
    cases i with
    | zero => simp; omega
    | succ k =>
      simp only [List.length_cons, Nat.succ_lt_succ_iff] at h
      have := ih k h
      simp only [List.set_cons_succ, List.map_cons, List.sum_cons, List.getD_cons_succ]
      omega

theorem getD_set (con : List (List Int)) (i j : Nat) (l : List Int) (h : i < con.length) :
    (con.set i l).getD j [] = if i = j then l else con.getD j [] := by
  simp only [List.getD_eq_getElem?_getD, List.getElem?_set, h, if_true]
  split <;> simp

/-- A defined `push_back` keeps the number of lists, adds one entry in total
and appends to the list addressed. -/
theorem push_back_at_spec (con : List (List Int)) (idx x : Int)
    (h0 : 0 ≤ idx) (h1 : idx < con.length) :
    ∃ con1, push_back_at con idx x = .ok con1 ∧ con1.length = con.length ∧
      (con1.map List.length).sum = (con.map List.length).sum + 1 ∧
      ∀ j : Nat, con1.getD j [] = con.getD j [] ++ (if idx = j then [x] else []) := by
  have hlt : idx.toNat < con.length := by omega
  refine ⟨con.set idx.toNat (con.getD idx.toNat [] ++ [x]), ?_, ?_, ?_, ?_⟩
  · simp [push_back_at, h0, hlt]
  · simp
  · have := sum_length_set con idx.toNat (con.getD idx.toNat [] ++ [x]) hlt
    simp only [List.length_append, List.length_singleton] at this
    omega
  · intro j
    rw [getD_set _ _ _ _ hlt]
    have hj : (idx.toNat = j) ↔ (idx = (j : Int)) := by omega
    by_cases hc : idx = (j : Int)
    · have : idx.toNat = j := hj.mpr hc
      simp [hc, this]
    · have : ¬ idx.toNat = j := fun h => hc (hj.mp h)
      simp [hc, this]

theorem connCorner_spec (t : Triangle) (con : List (List Int)) (e : Nat)
    (h0 : 0 ≤ t.idx e) (h1 : t.idx e < con.length) :
    ∃ con1, connCorner t con e = .ok con1 ∧ con1.length = con.length ∧
      (con1.map List.length).sum = (con.map List.length).sum + 2 ∧
      ∀ j : Nat, con1.getD j [] = con.getD j [] ++
        (if t.idx e = j then [t.idx ((e + 1) % 3), t.idx ((e + 2) % 3)] else []) := by
  obtain ⟨c1, hc1, hl1, hs1, hg1⟩ := push_back_at_spec con (t.idx e) (t.idx ((e + 1) % 3)) h0 h1
  obtain ⟨c2, hc2, hl2, hs2, hg2⟩ :=
    push_back_at_spec c1 (t.idx e) (t.idx ((e + 2) % 3)) h0 (by rw [hl1]; exact h1)
  refine ⟨c2, ?_, ?_, ?_, ?_⟩
  · simp only [connCorner, hc1, hc2]
  · rw [hl2, hl1]
  · rw [hs2, hs1]
  · intro j
    rw [hg2, hg1]
    split <;> simp

theorem connTri_spec (t : Triangle) (con : List (List Int))
    (h : ∀ e, e < 3 → 0 ≤ t.idx e ∧ t.idx e < con.length) :
    ∃ con1, connTri con t = .ok con1 ∧ con1.length = con.length ∧
      (con1.map List.length).sum = (con.map List.length).sum + 6 ∧
      ∀ j : Nat, con1.getD j [] = con.getD j [] ++ cornerPairs j t := by
  obtain ⟨c1, hc1, hl1, hs1, hg1⟩ := connCorner_spec t con 0 (h 0 (by omega)).1 (h 0 (by omega)).2
  obtain ⟨c2, hc2, hl2, hs2, hg2⟩ :=
    connCorner_spec t c1 1 (h 1 (by omega)).1 (by rw [hl1]; exact (h 1 (by omega)).2)
  obtain ⟨c3, hc3, hl3, hs3, hg3⟩ :=
    connCorner_spec t c2 2 (h 2 (by omega)).1 (by rw [hl2, hl1]; exact (h 2 (by omega)).2)
  refine ⟨c3, ?_, ?_, ?_, ?_⟩
  · simp [connTri, List.foldlM, hc1, hc2, hc3, bind, Except.bind, pure, Except.pure]
  · rw [hl3, hl2, hl1]
  · rw [hs3, hs2, hs1]
  · intro j
    rw [hg3, hg2, hg1]
    simp [cornerPairs, List.flatMap]

theorem foldlM_connTri_spec (tris : List Triangle) (con : List (List Int))
    (h : ∀ t ∈ tris, ∀ e, e < 3 → 0 ≤ t.idx e ∧ t.idx e < con.length) :
    ∃ con1, tris.foldlM connTri con = .ok con1 ∧ con1.length = con.length ∧
      (con1.map List.length).sum = (con.map List.length).sum + 6 * tris.length ∧
      ∀ j : Nat, con1.getD j [] = con.getD j [] ++ connSpec tris j := by
  induction tris generalizing con with
  | nil => exact ⟨con, rfl, rfl, by simp, by simp [connSpec]⟩
  | cons t ts ih =>
    obtain ⟨c1, hc1, hl1, hs1, hg1⟩ := connTri_spec t con (h t (List.mem_cons_self _ _))
    obtain ⟨c2, hc2, hl2, hs2, hg2⟩ := ih c1 (by
      intro t' ht' e he
      rw [hl1]
      exact h t' (List.mem_cons_of_mem _ ht') e he)
    refine ⟨c2, ?_, ?_, ?_, ?_⟩
    · simp [List.foldlM, hc1, hc2, bind, Except.bind]
    · rw [hl2, hl1]
    · rw [hs2, hs1, List.length_cons]; ring
    · intro j
      rw [hg2, hg1]
      simp [connSpec]

theorem cornerPairs_length (v : Int) (t : Triangle) :
    (cornerPairs v t).length = 2 * ([0, 1, 2].filter fun e => t.idx e = v).length := by
  simp only [cornerPairs, List.flatMap_cons, List.flatMap_nil, List.append_nil, List.length_append,
    List.filter_cons, List.filter_nil]
  by_cases h0 : t.idx 0 = v <;> by_cases h1 : t.idx 1 = v <;> by_cases h2 : t.idx 2 = v <;>
    simp [h0, h1, h2]

theorem connSpec_length (tris : List Triangle) (v : Int) :
    (connSpec tris v).length = 2 * cornerCount tris v := by
  induction tris with
  | nil => simp [connSpec, cornerCount]
  | cons t ts ih =>
    have hc : connSpec (t :: ts) v = cornerPairs v t ++ connSpec ts v := by
      simp [connSpec]
    have hn : cornerCount (t :: ts) v
        = ([0, 1, 2].filter fun e => t.idx e = v).length + cornerCount ts v := by
      simp [cornerCount]
    rw [hc, hn, List.length_append, ih, cornerPairs_length]
    ring

theorem buildConnectivity_eq {T : Type} (ndebug : Bool) (m : Mesh T)
    (hidx : ∀ t ∈ m.tri_, ∀ e, e < 3 → 0 ≤ t.idx e ∧ t.idx e < (m.vertex_.length : Int)) :
    BuildConnectivity ndebug m =
      if ndebug || (m.vertex_.length != 0 && m.tri_.length != 0) then
        .ok { m with
          vertex_con_ := (List.range m.vertex_.length).map fun v : Nat => connSpec m.tri_ (v : Int) }
      else .error .assertion := by
  obtain ⟨con, hc, hl, -, hg⟩ :=
    foldlM_connTri_spec m.tri_ (List.replicate m.vertex_.length []) (by simpa using hidx)
  have hcon : con = (List.range m.vertex_.length).map fun v : Nat => connSpec m.tri_ (v : Int) := by
    apply List.ext_getElem
    · simpa using hl
    · intro n h1 h2
      have := hg n
      rw [List.getD_eq_getElem?_getD, List.getD_eq_getElem?_getD, List.getElem?_eq_getElem h1] at this
      simp at this
      simp [this]
  unfold BuildConnectivity cAssert
  by_cases h : (ndebug || (m.vertex_.length != 0 && m.tri_.length != 0)) = true
  · simp only [h, if_true, hc, hcon]
  · simp only [h, if_false]
    rfl


/-! ### Tokens of a line -/

theorem words_cur (s cur : List Char) (h : cur ≠ []) :
    words cur s =
      (cur ++ s.takeWhile fun c => !isspace c) :: words [] (s.dropWhile fun c => !isspace c) := by
  induction s generalizing cur with
  | nil => simp [words, h]
  | cons c cs ih =>
    by_cases hc : isspace c = true
    · simp [words, hc, h, List.takeWhile, List.dropWhile]
    · have hc' : isspace c = false := by simpa using hc
      rw [words, if_neg hc, ih (cur ++ [c]) (by simp)]
      simp [List.takeWhile, List.dropWhile, hc']

theorem words_nonspace (c : Char) (cs : List Char) (hc : isspace c = false) :
    words [] (c :: cs) =
      ((c :: cs).takeWhile fun c => !isspace c) ::
        words [] ((c :: cs).dropWhile fun c => !isspace c) := by
  rw [words, if_neg (by simp [hc]), words_cur _ _ (by simp)]
  simp [List.takeWhile, List.dropWhile, hc]

theorem words_space (c : Char) (cs : List Char) (hc : isspace c = true) :
    words [] (c :: cs) = words [] cs := by
  simp [words, hc]

theorem words_dropWhile (s : List Char) : words [] (s.dropWhile isspace) = words [] s := by
  induction s with
  | nil => rfl
  | cons c cs ih =>
    by_cases hc : isspace c = true
    · rw [List.dropWhile_cons_of_pos hc, ih, words_space c cs hc]
    · rw [List.dropWhile_cons_of_neg hc]

/-! ### `%d` looks at the token only -/

theorem takeWhile_append_of_head {p : Char → Bool} (s rest : List Char)
    (h : ∀ c, rest.head? = some c → p c = false) :
    (s ++ rest).takeWhile p = s.takeWhile p := by
  induction s with
  | nil =>
    cases rest with
    | nil => rfl
    | cons c r => simp [List.takeWhile, h c rfl]
  | cons a as ih =>
    simp only [List.cons_append, List.takeWhile_cons, ih]

theorem isdigit_not_isspace (c : Char) (h : isspace c = true) : isdigit c = false := by
  simp only [isspace, isdigit, Bool.or_eq_true, Bool.and_eq_true, decide_eq_true_eq] at *
  rcases h with h | h
  · simp [h]
  · simp only [Bool.and_eq_false_iff, decide_eq_false_iff_not]
    left; omega

theorem scanDec_append (tok rest : List Char) (htok : tok ≠ [])
    (hrest : ∀ c, rest.head? = some c → isspace c = true) :
    (scanDec (tok ++ rest)).map Prod.fst = (scanDec tok).map Prod.fst := by
  have hd : ∀ c, rest.head? = some c → isdigit c = false :=
    fun c hc => isdigit_not_isspace c (hrest c hc)
  obtain ⟨a, as, rfl⟩ := List.exists_cons_of_ne_nil htok
  simp only [scanDec, List.cons_append, List.head?_cons, List.drop_succ_cons, List.drop_zero]
  by_cases hs : (some a = some '-' ∨ some a = some '+')
  · simp only [hs, if_true, takeWhile_append_of_head as rest hd]
    split <;> simp
  · simp only [hs, if_false]
    have := takeWhile_append_of_head (a :: as) rest hd
    simp only [List.cons_append] at this
    rw [this]
    split <;> simp

theorem head_dropWhile_nonspace (s : List Char) :
    ∀ c, (s.dropWhile fun c => !isspace c).head? = some c → isspace c = true := by
  induction s with
  | nil => simp
  | cons a as ih =>
    intro c
    by_cases ha : isspace a = true
    · simp only [List.dropWhile, ha, Bool.not_true, List.head?_cons, Option.some.injEq]
      rintro rfl; exact ha
    · have ha' : isspace a = false := by simpa using ha
      simp only [List.dropWhile, ha', Bool.not_false]
      exact ih c

theorem scanInt_token (c : Char) (cs : List Char) (hc : isspace c = false) :
    (scanInt (c :: cs)).map Prod.fst =
      (scanInt ((c :: cs).takeWhile fun c => !isspace c)).map Prod.fst := by
  have hsplit := List.takeWhile_append_dropWhile (fun c => !isspace c) (c :: cs)
  have htk : (c :: cs).takeWhile (fun c => !isspace c) = c :: cs.takeWhile (fun c => !isspace c) := by
    simp [List.takeWhile, hc]
  have h1 : scanInt (c :: cs) = scanDec (c :: cs) := by
    simp [scanInt, List.dropWhile, hc]
  have h2 : scanInt ((c :: cs).takeWhile fun c => !isspace c)
      = scanDec ((c :: cs).takeWhile fun c => !isspace c) := by
    rw [htk]; simp [scanInt, List.dropWhile, hc]
  rw [h1, h2]
  conv_lhs => rw [← hsplit]
  exact scanDec_append _ _ (by rw [htk]; simp) (head_dropWhile_nonspace (c :: cs))

theorem sscanf_d_length (s : List Char) :
    (sscanf_d s).length = 1 ↔ (scanInt s).isSome = true := by
  unfold sscanf_d
  cases scanInt s with
  | none => simp
  | some p => simp

theorem sscanf_dd_nil (s : List Char) (h : scanInt s = none) : sscanf_dd s = [] := by
  simp [sscanf_dd, h]

theorem sscanf_ddd_nil (s : List Char) (h : scanInt s = none) : sscanf_ddd s = [] := by
  simp [sscanf_ddd, h]

/-- The reference loop is the token-wise loop: on a line it does what
`storeRefs` does on the tokens of the line, and while skipping what
`storeRefs` does on the tokens after the current one. -/
theorem faceLoop_eq_storeRefs (s : List Char) :
    ∀ (tri : Triangle) (cnt : Nat),
      faceLoop false s tri cnt = storeRefs (words [] s) tri cnt ∧
      faceLoop true s tri cnt = storeRefs (words [] (s.dropWhile fun c => !isspace c)) tri cnt := by
  induction s with
  | nil => intro tri cnt; exact ⟨rfl, rfl⟩
  | cons c cs ih =>
    intro tri cnt
    by_cases hc : isspace c = true
    · have e1 : ∀ b, faceLoop b (c :: cs) tri cnt = faceLoop false cs tri cnt := by
        intro b; rw [faceLoop, if_pos hc]
      have e2 : (c :: cs).dropWhile (fun c => !isspace c) = c :: cs := by
        simp [List.dropWhile, hc]
      rw [e1, e1, e2, words_space c cs hc]
      exact ⟨(ih tri cnt).1, (ih tri cnt).1⟩
    · have hc' : isspace c = false := by simpa using hc
      constructor
      · rw [words_nonspace c cs hc', storeRefs, faceLoop, if_neg hc]
        simp only [Bool.false_eq_true, if_false]
        have htok := scanInt_token c cs hc'
        have hdrop : (c :: cs).dropWhile (fun c => !isspace c)
            = cs.dropWhile (fun c => !isspace c) := by simp [List.dropWhile, hc']
        cases hfull : scanInt (c :: cs) with
        | none =>
          rw [hfull] at htok
          have htk : scanInt ((c :: cs).takeWhile fun c => !isspace c) = none := by
            simpa using htok.symm
          rw [htk]
          simp [sscanf_d, sscanf_dd_nil _ hfull, sscanf_ddd_nil _ hfull, hfull]
        | some p =>
          obtain ⟨v, r⟩ := p
          rw [hfull] at htok
          cases htk : scanInt ((c :: cs).takeWhile fun c => !isspace c) with
          | none => rw [htk] at htok; simp at htok
          | some q =>
            obtain ⟨v', r'⟩ := q
            rw [htk] at htok
            have hv : v = v' := by simpa using htok
            subst hv
            simp only [sscanf_d, hfull, List.length_singleton, if_true, List.headD_cons]
            cases storeRef tri cnt v with
            | error f => rfl
            | ok q =>
              obtain ⟨tri1, cnt1⟩ := q
              simp only
              rw [(ih tri1 cnt1).2, hdrop]
      · rw [faceLoop, if_neg hc]
        simp only [if_true]
        rw [(ih tri cnt).2]
        simp [List.dropWhile, hc']

theorem head_dropWhile_isspace (s : List Char) :
    ∀ c, (s.dropWhile isspace).head? = some c → isspace c = false := by
  induction s with
  | nil => simp
  | cons a as ih =>
    intro c
    by_cases ha : isspace a = true
    · simp only [List.dropWhile, ha]
      exact ih c
    · have ha' : isspace a = false := by simpa using ha
      simp only [List.dropWhile, ha', List.head?_cons, Option.some.injEq]
      rintro rfl; exact ha'

theorem words_drop_one (s : List Char) (h : ∀ c, s.head? = some c → isspace c = true) :
    words [] (s.drop 1) = words [] s := by
  cases s with
  | nil => rfl
  | cons c r => rw [words_space c r (h c rfl)]; rfl

/-- The line body of `LoadTri` told over tokens. -/
theorem triLine_eq (ndebug : Bool) (tri0 : Triangle) (buffer : List Char)
    (tris : List Triangle) :
    triLine ndebug tri0 buffer tris =
      match faceRefs buffer with
      | none => .ok (tris, true)
      | some refs =>
        match storeRefs refs tri0 0 with
        | .error f => .error f
        | .ok (tri, vertex_cnt, ok) =>
          match cAssert ndebug (vertex_cnt == 3) with
          | .error f => .error f
          | .ok _ => .ok (tris ++ [tri], ok) := by
  unfold triLine faceRefs
  rw [← words_dropWhile (cstr buffer)]
  cases hline : (cstr buffer).dropWhile isspace with
  | nil => simp [words]
  | cons c cs =>
    have hc : isspace c = false := head_dropWhile_isspace (cstr buffer) c (by rw [hline]; rfl)
    rw [words_nonspace c cs hc]
    simp only
    rw [(faceLoop_eq_storeRefs _ tri0 0).1,
      words_drop_one _ (head_dropWhile_nonspace (c :: cs))]
    split <;> rfl

/-! ### One line through `fgets` -/

theorem fgetsAll_line (size : Nat) (eol : List Char) (body : List Char) :
    ∀ cur : List Char, (∀ c ∈ body, c ≠ '\n') →
      (eol = [] ∨ eol = ['\n']) →
      cur.length + body.length + eol.length ≤ size - 1 →
      cur ++ body ++ eol ≠ [] →
      fgetsAll size cur (body ++ eol) = [cur ++ body ++ eol] := by
  induction body with
  | nil =>
    intro cur _ heol _ hne
    rcases heol with rfl | rfl
    · simp only [List.append_nil] at hne ⊢
      simp [fgetsAll, hne]
    · simp [fgetsAll]
  | cons c cs ih =>
    intro cur hnl heol hlen hne
    have hc : c ≠ '\n' := hnl c (List.mem_cons_self _ _)
    by_cases hfull : (cur ++ [c]).length = size - 1
    · have hcs : cs = [] := by
        simp only [List.length_append, List.length_cons, List.length_nil] at hfull hlen
        apply List.eq_nil_of_length_eq_zero; omega
      have he : eol = [] := by
        simp only [List.length_append, List.length_cons, List.length_nil] at hfull hlen
        apply List.eq_nil_of_length_eq_zero; omega
      subst hcs; subst he
      simp [fgetsAll, hfull]
    · rw [List.cons_append, fgetsAll, if_neg (by rw [not_or]; exact ⟨hc, hfull⟩)]
      rw [ih (cur ++ [c]) (fun c' h' => hnl c' (List.mem_cons_of_mem _ h')) heol
        (by simp only [List.length_append, List.length_cons, List.length_nil] at hlen ⊢; omega)
        (by simp)]
      simp

/-! ### Lines made of gaps and tokens -/

theorem words_gap (ws rest : List Char) (h : ∀ c ∈ ws, isspace c = true) :
    words [] (ws ++ rest) = words [] rest := by
  induction ws with
  | nil => rfl
  | cons c cs ih =>
    rw [List.cons_append, words_space c _ (h c (List.mem_cons_self _ _))]
    exact ih fun c' h' => h c' (List.mem_cons_of_mem _ h')

theorem takeWhile_token {p : Char → Bool} (tok rest : List Char) (h : ∀ c ∈ tok, p c = true)
    (hrest : ∀ c, rest.head? = some c → p c = false) :
    (tok ++ rest).takeWhile p = tok ∧ (tok ++ rest).dropWhile p = rest := by
  induction tok with
  | nil =>
    cases rest with
    | nil => exact ⟨rfl, rfl⟩
    | cons c r => simp [List.takeWhile, List.dropWhile, hrest c rfl]
  | cons a as ih =>
    have ha := h a (List.mem_cons_self _ _)
    have := ih fun c' h' => h c' (List.mem_cons_of_mem _ h')
    simp [List.takeWhile, List.dropWhile, ha, this.1, this.2]

theorem words_token (tok rest : List Char) (hne : tok ≠ [])
    (h : ∀ c ∈ tok, isspace c = false) (hrest : ∀ c, rest.head? = some c → isspace c = true) :
    words [] (tok ++ rest) = tok :: words [] rest := by
  obtain ⟨a, as, rfl⟩ := List.exists_cons_of_ne_nil hne
  have hsp := takeWhile_token (p := fun c => !isspace c) (a :: as) rest
    (fun c hc => by simp [h c hc]) (fun c hc => by simp [hrest c hc])
  rw [List.cons_append, words_nonspace a _ (h a (List.mem_cons_self _ _)), ← List.cons_append,
    hsp.1, hsp.2]

/-! ### References of the three forms -/

theorem refChar_spec (c : Char) (h : refChar c = true) :
    isspace c = false ∧ c ≠ Char.ofNat 0 ∧ c ≠ '\n' := by
  simp only [refChar, Bool.or_eq_true, beq_iff_eq] at h
  rcases h with ((h | h) | h) | h
  · simp only [isdigit, Bool.and_eq_true, decide_eq_true_eq] at h
    refine ⟨?_, ?_, ?_⟩
    · simp only [isspace, Bool.or_eq_false_iff, decide_eq_false_iff_not, Bool.and_eq_false_iff]
      omega
    · rintro rfl; simp at h
    · rintro rfl; simp at h
  · subst h; decide
  · subst h; decide
  · subst h; decide

theorem scanDec_some (s r : List Char) (i : Int) (h : scanDec s = some (i, r)) :
    ∃ pre, pre ≠ [] ∧ s = pre ++ r ∧ ∀ c ∈ pre, refChar c = true := by
  unfold scanDec at h
  simp only at h
  have hdig : ∀ s2 : List Char, ∀ c ∈ s2.takeWhile isdigit, refChar c = true := by
    intro s2 c hc
    have := List.mem_takeWhile_imp hc
    simp [refChar, this]
  by_cases hs : s.head? = some '-' ∨ s.head? = some '+'
  · simp only [hs, if_true] at h
    by_cases hds : (s.drop 1).takeWhile isdigit = []
    · rw [if_pos hds] at h; exact absurd h (by simp)
    · simp only [hds, if_false, Option.some.injEq, Prod.mk.injEq] at h
      obtain ⟨-, hr⟩ := h
      obtain ⟨a, as, rfl⟩ : ∃ a as, s = a :: as := by
        cases s with
        | nil => simp at hs
        | cons a as => exact ⟨a, as, rfl⟩
      simp only [List.drop_succ_cons, List.drop_zero] at hr hds
      refine ⟨a :: as.takeWhile isdigit, by simp, ?_, ?_⟩
      · rw [← hr, List.cons_append, List.takeWhile_append_dropWhile]
      · intro c hc
        rcases List.mem_cons.mp hc with rfl | hc
        · simp only [List.head?_cons, Option.some.injEq] at hs
          rcases hs with rfl | rfl <;> decide
        · exact hdig as c hc
  · simp only [hs, if_false] at h
    by_cases hds : s.takeWhile isdigit = []
    · rw [if_pos hds] at h; exact absurd h (by simp)
    · simp only [hds, if_false, Option.some.injEq, Prod.mk.injEq] at h
      obtain ⟨-, hr⟩ := h
      refine ⟨s.takeWhile isdigit, hds, ?_, hdig s⟩
      rw [← hr, List.takeWhile_append_dropWhile]

theorem refForm_spec (tok : List Char) (i : Int) (h : refForm tok = some i) :
    (∃ r, scanDec tok = some (i, r)) ∧ tok ≠ [] ∧ ∀ c ∈ tok, refChar c = true := by
  unfold refForm at h
  cases h1 : scanDec tok with
  | none => rw [h1] at h; simp at h
  | some p1 =>
    obtain ⟨i1, r1⟩ := p1
    rw [h1] at h
    simp only at h
    obtain ⟨pre1, hne1, rfl, hch1⟩ := scanDec_some tok r1 i1 h1
    by_cases hr1 : r1 = []
    · simp only [hr1, if_true, Option.some.injEq] at h
      subst h; subst hr1
      exact ⟨⟨_, rfl⟩, by simpa using hne1, by simpa using hch1⟩
    · simp only [hr1, if_false] at h
      cases h2 : scanDec (r1.drop 1) with
      | none => rw [h2] at h; simp at h
      | some p2 =>
        obtain ⟨i2, r2⟩ := p2
        rw [h2] at h
        simp only at h
        obtain ⟨pre2, -, he2, hch2⟩ := scanDec_some _ r2 i2 h2
        obtain ⟨a1, t1, rfl⟩ := List.exists_cons_of_ne_nil hr1
        simp only [List.drop_succ_cons, List.drop_zero] at he2 h2
        subst he2
        by_cases hr2 : r2 = []
        · simp only [hr2, if_true, List.head?_cons, Option.some.injEq] at h
          by_cases ha1 : a1 = '/'
          · simp only [ha1, if_true, Option.some.injEq] at h
            subst h; subst hr2; subst ha1
            refine ⟨⟨_, rfl⟩, by simp, ?_⟩
            intro c hc
            simp only [List.append_nil, List.mem_append, List.mem_cons] at hc
            rcases hc with hc | rfl | hc
            · exact hch1 c hc
            · decide
            · exact hch2 c hc
          · simp [ha1] at h
        · simp only [hr2, if_false] at h
          cases h3 : scanDec (r2.drop 1) with
          | none => rw [h3] at h; simp at h
          | some p3 =>
            obtain ⟨i3, r3⟩ := p3
            rw [h3] at h
            simp only at h
            obtain ⟨pre3, -, he3, hch3⟩ := scanDec_some _ r3 i3 h3
            obtain ⟨a2, t2, rfl⟩ := List.exists_cons_of_ne_nil hr2
            simp only [List.drop_succ_cons, List.drop_zero] at he3 h3
            subst he3
            by_cases hc3 : a1 = '/' ∧ a2 = '/' ∧ r3 = []
            · obtain ⟨rfl, rfl, rfl⟩ := hc3
              simp only [List.head?_cons, true_and, if_true, Option.some.injEq] at h
              subst h
              refine ⟨⟨_, rfl⟩, by simp, ?_⟩
              intro c hc
              simp only [List.append_nil, List.mem_append, List.mem_cons] at hc
              rcases hc with hc | rfl | hc | rfl | hc
              · exact hch1 c hc
              · decide
              · exact hch2 c hc
              · decide
              · exact hch3 c hc
            · simp only [List.head?_cons, Option.some.injEq] at h
              rw [if_neg hc3] at h
              simp at h

theorem scanInt_of_refForm (tok : List Char) (i : Int) (h : refForm tok = some i) :
    ∃ r, scanInt tok = some (i, r) := by
  obtain ⟨⟨r, hr⟩, hne, hch⟩ := refForm_spec tok i h
  obtain ⟨a, as, rfl⟩ := List.exists_cons_of_ne_nil hne
  have ha := (refChar_spec a (hch a (List.mem_cons_self _ _))).1
  exact ⟨r, by simp [scanInt, List.dropWhile, ha, hr]⟩


theorem isgap_spec (c : Char) (h : isgap c = true) :
    isspace c = true ∧ c ≠ '\n' ∧ c ≠ Char.ofNat 0 := by
  simp only [isgap, Bool.and_eq_true, bne_iff_ne, ne_eq] at h
  refine ⟨h.1, h.2, ?_⟩
  rintro rfl
  exact absurd h.1 (by decide)

theorem head_append_gap (ws rest : List Char) (hne : ws ≠ []) (h : ∀ c ∈ ws, isgap c = true) :
    ∀ c, (ws ++ rest).head? = some c → isspace c = true := by
  obtain ⟨a, as, rfl⟩ := List.exists_cons_of_ne_nil hne
  intro c hc
  simp only [List.cons_append, List.head?_cons, Option.some.injEq] at hc
  subst hc
  exact (isgap_spec a (h a (List.mem_cons_self _ _))).1

theorem storeRefs_three (r1 r2 r3 : List Char) (i1 i2 i3 : Int) (tri0 : Triangle)
    (h1 : refForm r1 = some i1) (h2 : refForm r2 = some i2) (h3 : refForm r3 = some i3)
    (hf1 : fitsInt i1 = true) (hf2 : fitsInt i2 = true) (hf3 : fitsInt i3 = true) :
    storeRefs [r1, r2, r3] tri0 0 = .ok (⟨i1 - 1, i2 - 1, i3 - 1⟩, 3, true) := by
  obtain ⟨q1, hq1⟩ := scanInt_of_refForm r1 i1 h1
  obtain ⟨q2, hq2⟩ := scanInt_of_refForm r2 i2 h2
  obtain ⟨q3, hq3⟩ := scanInt_of_refForm r3 i3 h3
  simp [storeRefs, hq1, hq2, hq3, storeRef, hf1, hf2, hf3, Vector3.setIdx]

theorem faceRefs_faceLine (lead ws0 r1 ws1 r2 ws2 r3 ws3 eol : List Char)
    (hlead : ∀ c ∈ lead, isgap c = true)
    (hws0 : ws0 ≠ [] ∧ ∀ c ∈ ws0, isgap c = true)
    (hws1 : ws1 ≠ [] ∧ ∀ c ∈ ws1, isgap c = true)
    (hws2 : ws2 ≠ [] ∧ ∀ c ∈ ws2, isgap c = true)
    (hws3 : ∀ c ∈ ws3, isgap c = true)
    (heol : eol = [] ∨ eol = ['\n'])
    (hr1 : r1 ≠ [] ∧ ∀ c ∈ r1, refChar c = true)
    (hr2 : r2 ≠ [] ∧ ∀ c ∈ r2, refChar c = true)
    (hr3 : r3 ≠ [] ∧ ∀ c ∈ r3, refChar c = true) :
    cstr (faceLine lead ws0 r1 ws1 r2 ws2 r3 ws3 eol) = faceLine lead ws0 r1 ws1 r2 ws2 r3 ws3 eol ∧
    words [] (faceLine lead ws0 r1 ws1 r2 ws2 r3 ws3 eol) = [['f'], r1, r2, r3] := by
  have hsp : ∀ ws : List Char, (∀ c ∈ ws, isgap c = true) → ∀ c ∈ ws, isspace c = true :=
    fun ws h c hc => (isgap_spec c (h c hc)).1
  have hns : ∀ r : List Char, (∀ c ∈ r, refChar c = true) → ∀ c ∈ r, isspace c = false :=
    fun r h c hc => (refChar_spec c (h c hc)).1
  have htail : ∀ c ∈ ws3 ++ eol, isspace c = true := by
    intro c hc
    rcases List.mem_append.mp hc with hc | hc
    · exact hsp ws3 hws3 c hc
    · rcases heol with rfl | rfl
      · simp at hc
      · simp only [List.mem_singleton] at hc; subst hc; decide
  have hhead3 : ∀ c, (ws3 ++ eol).head? = some c → isspace c = true := by
    intro c hc
    exact htail c (List.mem_of_mem_head? hc)
  constructor
  · unfold cstr
    rw [List.takeWhile_eq_self_iff]
    intro c hc
    simp only [faceLine, List.mem_append, List.mem_singleton] at hc
    simp only [bne_iff_ne, ne_eq, decide_eq_true_eq]
    rcases hc with hc | rfl | hc | hc | hc | hc | hc | hc | hc | hc
    · exact (isgap_spec c (hlead c hc)).2.2
    · decide
    · exact (isgap_spec c (hws0.2 c hc)).2.2
    · exact (refChar_spec c (hr1.2 c hc)).2.1
    · exact (isgap_spec c (hws1.2 c hc)).2.2
    · exact (refChar_spec c (hr2.2 c hc)).2.1
    · exact (isgap_spec c (hws2.2 c hc)).2.2
    · exact (refChar_spec c (hr3.2 c hc)).2.1
    · exact (isgap_spec c (hws3 c hc)).2.2
    · rcases heol with rfl | rfl
      · simp at hc
      · simp only [List.mem_singleton] at hc; subst hc; decide
  · unfold faceLine
    rw [words_gap lead _ (hsp lead hlead),
      words_token ['f'] _ (by simp) (by intro c hc; simp only [List.mem_singleton] at hc; subst hc; decide)
        (head_append_gap ws0 _ hws0.1 hws0.2),
      words_gap ws0 _ (hsp ws0 hws0.2),
      words_token r1 _ hr1.1 (hns r1 hr1.2) (head_append_gap ws1 _ hws1.1 hws1.2),
      words_gap ws1 _ (hsp ws1 hws1.2),
      words_token r2 _ hr2.1 (hns r2 hr2.2) (head_append_gap ws2 _ hws2.1 hws2.2),
      words_gap ws2 _ (hsp ws2 hws2.2),
      words_token r3 _ hr3.1 (hns r3 hr3.2) hhead3]
    have := words_gap (ws3 ++ eol) [] htail
    rw [List.append_nil] at this
    rw [this]
    rfl

/-! ### C1 -/

/-- C1: for a mesh with at least one vertex, a non-empty triangle array and all
triangle indices inside the vertex array, `BuildConnectivity` succeeds, the
connectivity holds one list per vertex and the lengths of the lists add up to
six times the number of triangles; the connectivity held before does not enter
the result. -/
theorem buildConnectivity_size {T : Type} (ndebug : Bool) (m : Mesh T)
    (hV : 1 ≤ m.vertex_.length) (hT : m.tri_ ≠ [])
    (hidx : ∀ t ∈ m.tri_, ∀ e, e < 3 → 0 ≤ t.idx e ∧ t.idx e < (m.vertex_.length : Int)) :
    ∃ con : List (List Int), con.length = m.vertex_.length ∧
      (con.map List.length).sum = 6 * m.tri_.length ∧
      ∀ con0 : List (List Int),
        BuildConnectivity ndebug { m with vertex_con_ := con0 } =
          .ok { m with vertex_con_ := con } := by
  obtain ⟨con, hc, hl, hs, -⟩ :=
    foldlM_connTri_spec m.tri_ (List.replicate m.vertex_.length []) (by simpa using hidx)
  refine ⟨con, by simpa using hl, by simpa using hs, ?_⟩
  intro con0
  have hv : (m.vertex_.length != 0) = true := by rw [bne_iff_ne]; omega
  have ht : (m.tri_.length != 0) = true := by simpa using hT
  simp only [BuildConnectivity, cAssert, hv, ht, Bool.and_self, Bool.or_true, if_true, hc]

/-- Witness of C1 on two triangles over four vertices. -/
theorem buildConnectivity_size_witness :
    ∃ con : List (List Int), con.length = quadMesh.vertex_.length ∧
      (con.map List.length).sum = 6 * quadMesh.tri_.length ∧
      ∀ con0 : List (List Int),
        BuildConnectivity false { quadMesh with vertex_con_ := con0 } =
          .ok { quadMesh with vertex_con_ := con } :=
  buildConnectivity_size false quadMesh (by decide) (by decide) (by decide)

/-! ### C2 -/

/-- C2: for a mesh whose triangle indices lie inside the vertex array,
`BuildConnectivity` (when its assertion holds or is compiled out) leaves for
every vertex `v` exactly the list `connSpec tri v`: over the triangles in array
order and their corners in order, the next and the next-but-one corner of every
corner equal to `v`, nothing removed or reordered; the length of that list is
twice the number of corners equal to `v`. -/
theorem buildConnectivity_lists {T : Type} (ndebug : Bool) (m : Mesh T)
    (hidx : ∀ t ∈ m.tri_, ∀ e, e < 3 → 0 ≤ t.idx e ∧ t.idx e < (m.vertex_.length : Int)) :
    BuildConnectivity ndebug m =
      (if ndebug || (m.vertex_.length != 0 && m.tri_.length != 0) then
        .ok { m with
          vertex_con_ := (List.range m.vertex_.length).map fun v : Nat => connSpec m.tri_ (v : Int) }
      else .error .assertion) ∧
    ∀ v : Int, (connSpec m.tri_ v).length = 2 * cornerCount m.tri_ v :=
  ⟨buildConnectivity_eq ndebug m hidx, fun v => connSpec_length m.tri_ v⟩

/-- Witness of C2 on two triangles sharing an edge: the lists of the shared
vertices 1 and 2 have four entries. -/
theorem buildConnectivity_lists_witness :
    BuildConnectivity false quadMesh =
      .ok { quadMesh with vertex_con_ := [[1, 2], [2, 0, 3, 2], [0, 1, 1, 3], [2, 1]] } ∧
    (connSpec quadMesh.tri_ 1).length = 4 ∧ (connSpec quadMesh.tri_ 2).length = 4 := by
  have h := buildConnectivity_lists false quadMesh (by decide)
  refine ⟨?_, by rw [h.2]; rfl, by rw [h.2]; rfl⟩
  rw [h.1]
  rfl

/-! ### C3 -/

theorem fgetsAll_faceLine (lead ws0 r1 ws1 r2 ws2 r3 ws3 eol : List Char)
    (hlead : ∀ c ∈ lead, isgap c = true)
    (hws0 : ∀ c ∈ ws0, isgap c = true)
    (hws1 : ∀ c ∈ ws1, isgap c = true)
    (hws2 : ∀ c ∈ ws2, isgap c = true)
    (hws3 : ∀ c ∈ ws3, isgap c = true)
    (heol : eol = [] ∨ eol = ['\n'])
    (hr1 : ∀ c ∈ r1, refChar c = true)
    (hr2 : ∀ c ∈ r2, refChar c = true)
    (hr3 : ∀ c ∈ r3, refChar c = true)
    (hlen : (faceLine lead ws0 r1 ws1 r2 ws2 r3 ws3 eol).length < LINE_SIZE) :
    fgetsAll LINE_SIZE [] (faceLine lead ws0 r1 ws1 r2 ws2 r3 ws3 eol) =
      [faceLine lead ws0 r1 ws1 r2 ws2 r3 ws3 eol] := by
  have hbody : faceLine lead ws0 r1 ws1 r2 ws2 r3 ws3 eol =
      faceLine lead ws0 r1 ws1 r2 ws2 r3 ws3 [] ++ eol := by
    simp [faceLine]
  have hnl : ∀ c ∈ faceLine lead ws0 r1 ws1 r2 ws2 r3 ws3 [], c ≠ '\n' := by
    intro c hc
    simp only [faceLine, List.mem_append, List.mem_singleton, List.append_nil] at hc
    rcases hc with hc | rfl | hc | hc | hc | hc | hc | hc | hc
    · exact (isgap_spec c (hlead c hc)).2.1
    · decide
    · exact (isgap_spec c (hws0 c hc)).2.1
    · exact (refChar_spec c (hr1 c hc)).2.2
    · exact (isgap_spec c (hws1 c hc)).2.1
    · exact (refChar_spec c (hr2 c hc)).2.2
    · exact (isgap_spec c (hws2 c hc)).2.1
    · exact (refChar_spec c (hr3 c hc)).2.2
    · exact (isgap_spec c (hws3 c hc)).2.1
  rw [hbody] at hlen ⊢
  have := fgetsAll_line LINE_SIZE eol _ [] hnl heol
    (by simp only [List.length_append, List.length_nil, LINE_SIZE] at hlen ⊢; omega)
    (by simp [faceLine])
  simpa using this

/-- C3 (amended): a TRI face line shorter than the 1024-byte line buffer that
holds exactly three references of the forms `i`, `i/t`, `i/t/n`, whose vertex
indices fit an `int` together with their predecessor, makes `LoadTri` append
the triangle `(i1 - 1, i2 - 1, i3 - 1)`: only the first integer of each
reference is kept, decremented by one.  This holds for the file made of that
line and for the line body run on that line after any lines before it.  The
OBJ reader pushes for every line
with key `f` the triangle that `>> tri` delivered with one subtracted from each
of its three indices. -/
theorem loadTri_face_line {T : Type} [LinearOrder T] (ndebug : Bool) (tri0 : Triangle)
    (m : Mesh T) (lead ws0 r1 ws1 r2 ws2 r3 ws3 eol : List Char) (i1 i2 i3 : Int)
    (hlead : ∀ c ∈ lead, isgap c = true)
    (hws0 : ws0 ≠ [] ∧ ∀ c ∈ ws0, isgap c = true)
    (hws1 : ws1 ≠ [] ∧ ∀ c ∈ ws1, isgap c = true)
    (hws2 : ws2 ≠ [] ∧ ∀ c ∈ ws2, isgap c = true)
    (hws3 : ∀ c ∈ ws3, isgap c = true)
    (heol : eol = [] ∨ eol = ['\n'])
    (h1 : refForm r1 = some i1) (h2 : refForm r2 = some i2) (h3 : refForm r3 = some i3)
    (hfits : fitsInt i1 = true ∧ fitsInt i2 = true ∧ fitsInt i3 = true)
    (hlen : (faceLine lead ws0 r1 ws1 r2 ws2 r3 ws3 eol).length < LINE_SIZE) :
    LoadTri ndebug tri0 (some (faceLine lead ws0 r1 ws1 r2 ws2 r3 ws3 eol)) m =
      .ok ({ m with tri_ := m.tri_ ++ [⟨i1 - 1, i2 - 1, i3 - 1⟩] }, 0) ∧
    (∀ tris : List Triangle,
      triLine ndebug tri0 (faceLine lead ws0 r1 ws1 r2 ws2 r3 ws3 eol) tris =
        .ok (tris ++ [⟨i1 - 1, i2 - 1, i3 - 1⟩], true)) ∧
    ∀ (ex : Extractors T) (st : ObjState T) (line : List Char),
      line ≠ [] → (readKey line st.key).1 = ['f'] →
      (objLine ex st line).mesh.tri_ = st.mesh.tri_ ++
        [⟨(ex.readTri (readKey line st.key).2 st.tri).x_ - 1,
          (ex.readTri (readKey line st.key).2 st.tri).y_ - 1,
          (ex.readTri (readKey line st.key).2 st.tri).z_ - 1⟩] := by
  have hc1 := refForm_spec r1 i1 h1
  have hc2 := refForm_spec r2 i2 h2
  have hc3 := refForm_spec r3 i3 h3
  have hfg := fgetsAll_faceLine lead ws0 r1 ws1 r2 ws2 r3 ws3 eol hlead hws0.2 hws1.2 hws2.2
    hws3 heol hc1.2.2 hc2.2.2 hc3.2.2 hlen
  have hw := faceRefs_faceLine lead ws0 r1 ws1 r2 ws2 r3 ws3 eol hlead hws0 hws1 hws2 hws3 heol
    hc1.2 hc2.2 hc3.2
  have hrefs : faceRefs (faceLine lead ws0 r1 ws1 r2 ws2 r3 ws3 eol) = some [r1, r2, r3] := by
    simp [faceRefs, hw.1, hw.2]
  have hline : ∀ tris : List Triangle,
      triLine ndebug tri0 (faceLine lead ws0 r1 ws1 r2 ws2 r3 ws3 eol) tris =
        .ok (tris ++ [⟨i1 - 1, i2 - 1, i3 - 1⟩], true) := by
    intro tris
    rw [triLine_eq, hrefs]
    simp only [storeRefs_three r1 r2 r3 i1 i2 i3 tri0 h1 h2 h3 hfits.1 hfits.2.1 hfits.2.2]
    simp [cAssert]
  refine ⟨?_, hline, ?_⟩
  · simp [LoadTri, hfg, triLoop, hline]
  · intro ex st line hne hkey
    simp [objLine, hne, hkey, Vector3.subScalar]

/-- Witness of C3: the line `f 1 2 3` stores the triangle `(0, 1, 2)`. -/
theorem loadTri_face_line_witness :
    LoadTri false ⟨7, 7, 7⟩ (some "f 1 2 3\n".toList) emptyMesh =
      .ok ({ emptyMesh with tri_ := [⟨0, 1, 2⟩] }, 0) :=
  (loadTri_face_line false ⟨7, 7, 7⟩ emptyMesh [] [' '] ['1'] [' '] ['2'] [' '] ['3'] [] ['\n']
    1 2 3 (by decide) (by decide) (by decide) (by decide) (by decide) (by decide)
    (by decide) (by decide) (by decide) (by decide) (by decide)).1

set_option maxRecDepth 100000 in
/-- Counterexample to C3 as stated: a face line with three references that is
longer than the line buffer is cut by `fgets` after 1023 characters, so the
command `f` is seen with no reference and the assertion fails; and a reference
whose integer does not fit an `int` is not stored as `i - 1`. -/
theorem loadTri_face_line_counterexample :
    LoadTri false ⟨0, 0, 0⟩
        (some (faceLine [] (List.replicate 1100 ' ') ['1'] [' '] ['2'] [' '] ['3'] [] ['\n']))
        emptyMesh = .error .assertion ∧
    LoadTri false ⟨0, 0, 0⟩ (some "f 4294967297 2 3\n".toList) emptyMesh =
      .error .intOverflow :=
  ⟨by rfl, by rfl⟩


/-! ### Bounding box -/

theorem foldl_min_spec {T : Type} [LinearOrder T] (l : List T) (a : T) :
    l.foldl (fun a x => if a < x then a else x) a ≤ a ∧
    (∀ x ∈ l, l.foldl (fun a x => if a < x then a else x) a ≤ x) ∧
    (l.foldl (fun a x => if a < x then a else x) a = a ∨
      l.foldl (fun a x => if a < x then a else x) a ∈ l) := by
  induction l generalizing a with
  | nil => simp
  | cons y ys ih =>
    obtain ⟨h1, h2, h3⟩ := ih (if a < y then a else y)
    simp only [List.foldl_cons, List.mem_cons, forall_eq_or_imp]
    have hle : (if a < y then a else y) ≤ a ∧ (if a < y then a else y) ≤ y := by
      split
      · next h => exact ⟨le_refl _, le_of_lt h⟩
      · next h => exact ⟨not_lt.mp h, le_refl _⟩
    refine ⟨le_trans h1 hle.1, ⟨le_trans h1 hle.2, h2⟩, ?_⟩
    rcases h3 with h3 | h3
    · rw [h3]
      split
      · exact Or.inl rfl
      · exact Or.inr (Or.inl rfl)
    · exact Or.inr (Or.inr h3)

theorem foldl_max_spec {T : Type} [LinearOrder T] (l : List T) (a : T) :
    a ≤ l.foldl (fun a x => if a > x then a else x) a ∧
    (∀ x ∈ l, x ≤ l.foldl (fun a x => if a > x then a else x) a) ∧
    (l.foldl (fun a x => if a > x then a else x) a = a ∨
      l.foldl (fun a x => if a > x then a else x) a ∈ l) := by
  induction l generalizing a with
  | nil => simp
  | cons y ys ih =>
    obtain ⟨h1, h2, h3⟩ := ih (if a > y then a else y)
    simp only [List.foldl_cons, List.mem_cons, forall_eq_or_imp]
    have hle : a ≤ (if a > y then a else y) ∧ y ≤ (if a > y then a else y) := by
      split
      · next h => exact ⟨le_refl _, le_of_lt h⟩
      · next h => exact ⟨not_lt.mp h, le_refl _⟩
    refine ⟨le_trans hle.1 h1, ⟨le_trans hle.2 h1, h2⟩, ?_⟩
    rcases h3 with h3 | h3
    · rw [h3]
      split
      · exact Or.inl rfl
      · exact Or.inr (Or.inl rfl)
    · exact Or.inr (Or.inr h3)

/-- The reduction over the vertices, one axis at a time. -/
theorem foldl_bboxStep {T : Type} [LinearOrder T] (vs : List (Vector3 T)) (b : BBox T) :
    (∀ k, (vs.foldl bboxStep b).min_.idx k =
      (vs.map fun v => v.idx k).foldl (fun a x => if a < x then a else x) (b.min_.idx k)) ∧
    (∀ k, (vs.foldl bboxStep b).max_.idx k =
      (vs.map fun v => v.idx k).foldl (fun a x => if a > x then a else x) (b.max_.idx k)) ∧
    (vs.foldl bboxStep b).center_ = b.center_ := by
  induction vs generalizing b with
  | nil => simp
  | cons v vs ih =>
    obtain ⟨h1, h2, h3⟩ := ih (bboxStep b v)
    simp only [List.foldl_cons, List.map_cons]
    refine ⟨fun k => ?_, fun k => ?_, ?_⟩
    · rw [h1 k]
      congr 1
      unfold bboxStep Vector3.idx
      split
      · rfl
      · split <;> rfl
    · rw [h2 k]
      congr 1
      unfold bboxStep Vector3.idx
      split
      · rfl
      · split <;> rfl
    · rw [h3]; rfl

theorem bbox_axis {T : Type} [LinearOrder T] (lim : Limits T) (vs : List (Vector3 T))
    (b0 : BBox T) (k : Nat) (hne : vs ≠ [])
    (hrange : ∀ v ∈ vs, lim.lowest ≤ v.idx k ∧ v.idx k ≤ lim.max) :
    (∀ v ∈ vs, (vs.foldl bboxStep (bboxInit lim b0)).min_.idx k ≤ v.idx k ∧
      v.idx k ≤ (vs.foldl bboxStep (bboxInit lim b0)).max_.idx k) ∧
    (∃ v ∈ vs, v.idx k = (vs.foldl bboxStep (bboxInit lim b0)).min_.idx k) ∧
    (∃ v ∈ vs, v.idx k = (vs.foldl bboxStep (bboxInit lim b0)).max_.idx k) := by
  obtain ⟨hmin, hmax, -⟩ := foldl_bboxStep vs (bboxInit lim b0)
  obtain ⟨v0, hv0⟩ := List.exists_mem_of_ne_nil vs hne
  have hi1 : (bboxInit lim b0).min_.idx k = lim.max := by
    unfold bboxInit Vector3.idx; split
    · rfl
    · split <;> rfl
  have hi2 : (bboxInit lim b0).max_.idx k = lim.lowest := by
    unfold bboxInit Vector3.idx; split
    · rfl
    · split <;> rfl
  obtain ⟨a1, a2, a3⟩ := foldl_min_spec (vs.map fun v => v.idx k) lim.max
  obtain ⟨b1, b2, b3⟩ := foldl_max_spec (vs.map fun v => v.idx k) lim.lowest
  rw [hmin k, hmax k, hi1, hi2]
  have hmem : ∀ v ∈ vs, v.idx k ∈ vs.map fun v => v.idx k :=
    fun v hv => List.mem_map_of_mem _ hv
  refine ⟨fun v hv => ⟨a2 _ (hmem v hv), b2 _ (hmem v hv)⟩, ?_, ?_⟩
  · rcases a3 with h | h
    · refine ⟨v0, hv0, ?_⟩
      rw [h]
      exact le_antisymm (hrange v0 hv0).2 (by rw [← h]; exact a2 _ (hmem v0 hv0))
    · obtain ⟨v, hv, hv'⟩ := List.mem_map.mp h
      exact ⟨v, hv, hv'⟩
  · rcases b3 with h | h
    · refine ⟨v0, hv0, ?_⟩
      rw [h]
      exact le_antisymm (by rw [← h]; exact b2 _ (hmem v0 hv0)) (hrange v0 hv0).1
    · obtain ⟨v, hv, hv'⟩ := List.mem_map.mp h
      exact ⟨v, hv, hv'⟩


/-! ### C4 -/

/-- C4: for a non-empty vertex array with coordinates between `lowest()` and
`max()`, `ComputeBoundingBox` leaves on every axis a minimum below and a
maximum above every vertex, each attained by some vertex; the center is
`(min + max) * T(0.5)`, the flag is set, and the box is the same for every mesh
with the same vertex array, whatever box and flag it held before. -/
theorem computeBoundingBox_spec {T : Type} [LinearOrder T] [Add T] [Mul T] (lim : Limits T)
    (m : Mesh T) (hne : m.vertex_ ≠ [])
    (hrange : ∀ v ∈ m.vertex_, ∀ k, k < 3 → lim.lowest ≤ v.idx k ∧ v.idx k ≤ lim.max) :
    (∀ k, k < 3 →
      (∀ v ∈ m.vertex_, (ComputeBoundingBox lim m).bbox_.min_.idx k ≤ v.idx k ∧
        v.idx k ≤ (ComputeBoundingBox lim m).bbox_.max_.idx k) ∧
      (∃ v ∈ m.vertex_, v.idx k = (ComputeBoundingBox lim m).bbox_.min_.idx k) ∧
      (∃ v ∈ m.vertex_, v.idx k = (ComputeBoundingBox lim m).bbox_.max_.idx k)) ∧
    (ComputeBoundingBox lim m).bbox_.center_ =
      ((ComputeBoundingBox lim m).bbox_.min_.add (ComputeBoundingBox lim m).bbox_.max_).scale
        lim.half ∧
    (ComputeBoundingBox lim m).bbox_is_computed_ = true ∧
    ∀ m2 : Mesh T, m2.vertex_ = m.vertex_ →
      (ComputeBoundingBox lim m2).bbox_ = (ComputeBoundingBox lim m).bbox_ := by
  refine ⟨fun k hk => ?_, rfl, rfl, ?_⟩
  · exact bbox_axis lim m.vertex_ m.bbox_ k hne fun v hv => hrange v hv k hk
  · intro m2 h2
    have hfold : ∀ b1 b2 : BBox T, b1.min_ = b2.min_ → b1.max_ = b2.max_ →
        ∀ vs : List (Vector3 T), (vs.foldl bboxStep b1).min_ = (vs.foldl bboxStep b2).min_ ∧
          (vs.foldl bboxStep b1).max_ = (vs.foldl bboxStep b2).max_ := by
      intro b1 b2 h1 h2 vs
      induction vs generalizing b1 b2 with
      | nil => exact ⟨h1, h2⟩
      | cons v vs ih =>
        simp only [List.foldl_cons]
        exact ih _ _ (by simp [bboxStep, h1]) (by simp [bboxStep, h2])
    have := hfold (bboxInit lim m2.bbox_) (bboxInit lim m.bbox_) rfl rfl m.vertex_
    simp only [ComputeBoundingBox, bboxCenter, h2, this.1, this.2]

/-- Witness of C4 on three vertices with rational coordinates. -/
theorem computeBoundingBox_spec_witness :
    (ComputeBoundingBox ratLimits ratMesh).bbox_ = ⟨⟨0, 0, -1⟩, ⟨3, 2, 5⟩, ⟨3 / 2, 1, 2⟩⟩ ∧
    ∀ k, k < 3 →
      (∀ v ∈ ratMesh.vertex_, (ComputeBoundingBox ratLimits ratMesh).bbox_.min_.idx k ≤ v.idx k ∧
        v.idx k ≤ (ComputeBoundingBox ratLimits ratMesh).bbox_.max_.idx k) ∧
      (∃ v ∈ ratMesh.vertex_, v.idx k = (ComputeBoundingBox ratLimits ratMesh).bbox_.min_.idx k) ∧
      (∃ v ∈ ratMesh.vertex_, v.idx k = (ComputeBoundingBox ratLimits ratMesh).bbox_.max_.idx k) :=
  ⟨by
    simp [ComputeBoundingBox, bboxInit, bboxStep, bboxCenter, ratLimits, ratMesh, Vector3.add,
      Vector3.scale]
    norm_num,
   (computeBoundingBox_spec ratLimits ratMesh (by decide) (by decide)).1⟩

/-! ### The box of a single vertex -/

theorem computeBoundingBox_one {T : Type} [LinearOrder T] [Add T] [Mul T] (lim : Limits T)
    (m : Mesh T) (p : Vector3 T) (hm : m.vertex_ = [p])
    (hrange : ∀ k, k < 3 → lim.lowest ≤ p.idx k ∧ p.idx k ≤ lim.max) :
    (ComputeBoundingBox lim m).bbox_.min_ = p ∧
    (ComputeBoundingBox lim m).bbox_.max_ = p ∧
    (ComputeBoundingBox lim m).bbox_.center_ = (p.add p).scale lim.half := by
  have h0 := hrange 0 (by omega)
  have h1 := hrange 1 (by omega)
  have h2 := hrange 2 (by omega)
  simp only [Vector3.idx, if_true, one_ne_zero, if_false, OfNat.ofNat_ne_zero,
    OfNat.ofNat_ne_one] at h0 h1 h2
  have hmin : (ComputeBoundingBox lim m).bbox_.min_ = p := by
    simp [ComputeBoundingBox, bboxCenter, bboxStep, bboxInit, hm, not_lt.mpr h0.2,
      not_lt.mpr h1.2, not_lt.mpr h2.2]
  have hmax : (ComputeBoundingBox lim m).bbox_.max_ = p := by
    simp [ComputeBoundingBox, bboxCenter, bboxStep, bboxInit, hm, not_lt.mpr h0.1,
      not_lt.mpr h1.1, not_lt.mpr h2.1]
  refine ⟨hmin, hmax, ?_⟩
  show ((ComputeBoundingBox lim m).bbox_.min_.add (ComputeBoundingBox lim m).bbox_.max_).scale
    lim.half = _
  rw [hmin, hmax]

/-- In a linearly ordered field with `T(0.5)` one half, the sum and the product
are exact and the center of the box of a single vertex is the vertex. -/
theorem computeBoundingBox_exact_center {T : Type} [LinearOrderedField T] (lim : Limits T)
    (m : Mesh T) (p : Vector3 T) (hm : m.vertex_ = [p]) (hhalf : lim.half = 2⁻¹)
    (hrange : ∀ k, k < 3 → lim.lowest ≤ p.idx k ∧ p.idx k ≤ lim.max) :
    (ComputeBoundingBox lim m).bbox_.center_ = p := by
  rw [(computeBoundingBox_one lim m p hm hrange).2.2, hhalf]
  have : ∀ a : T, (a + a) * 2⁻¹ = a := fun a => by ring
  simp [Vector3.add, Vector3.scale, this]

/-! ### C5 -/

/-- C5 (amended): for a mesh holding exactly one vertex `p` whose coordinates
lie between `lowest()` and `max()`, in every ordered number type,
`ComputeBoundingBox` yields `min = max = p` and
`center = (min + max) * T(0.5) = (p + p) * T(0.5)`.  The center is `p` exactly
when `(a + a) * T(0.5)` gives back `a` for each coordinate `a` of `p`, as it
does when the sum and the product are computed exactly. -/
theorem computeBoundingBox_single {T : Type} [LinearOrder T] [Add T] [Mul T] (lim : Limits T)
    (m : Mesh T) (p : Vector3 T) (hm : m.vertex_ = [p])
    (hrange : ∀ k, k < 3 → lim.lowest ≤ p.idx k ∧ p.idx k ≤ lim.max) :
    (ComputeBoundingBox lim m).bbox_.min_ = p ∧
    (ComputeBoundingBox lim m).bbox_.max_ = p ∧
    (ComputeBoundingBox lim m).bbox_.center_ =
      ((ComputeBoundingBox lim m).bbox_.min_.add (ComputeBoundingBox lim m).bbox_.max_).scale
        lim.half ∧
    (ComputeBoundingBox lim m).bbox_.center_ = (p.add p).scale lim.half ∧
    ((ComputeBoundingBox lim m).bbox_.center_ = p ↔
      ∀ k, k < 3 → (p.idx k + p.idx k) * lim.half = p.idx k) ∧
    (ComputeBoundingBox lim m).bbox_is_computed_ = true := by
  obtain ⟨hmin, hmax, hcen⟩ := computeBoundingBox_one lim m p hm hrange
  refine ⟨hmin, hmax, rfl, hcen, ?_, rfl⟩
  rw [hcen]
  constructor
  · intro h k hk
    have hx := congrArg Vector3.x_ h
    have hy := congrArg Vector3.y_ h
    have hz := congrArg Vector3.z_ h
    simp only [Vector3.add, Vector3.scale] at hx hy hz
    interval_cases k
    · simpa [Vector3.idx] using hx
    · simpa [Vector3.idx] using hy
    · simpa [Vector3.idx] using hz
  · intro h
    have h0 := h 0 (by omega)
    have h1 := h 1 (by omega)
    have h2 := h 2 (by omega)
    simp only [Vector3.idx, if_true, one_ne_zero, if_false, OfNat.ofNat_ne_zero,
      OfNat.ofNat_ne_one] at h0 h1 h2
    cases p
    simp only [Vector3.add, Vector3.scale] at *
    rw [h0, h1, h2]

/-- Witness of C5 (amended) on the vertex `(3, -2, 1/2)`. -/
theorem computeBoundingBox_single_witness :
    (ComputeBoundingBox ratLimits pointMesh).bbox_.min_ = ⟨3, -2, 1 / 2⟩ ∧
    (ComputeBoundingBox ratLimits pointMesh).bbox_.max_ = ⟨3, -2, 1 / 2⟩ ∧
    (ComputeBoundingBox ratLimits pointMesh).bbox_.center_ =
      (Vector3.add ⟨3, -2, 1 / 2⟩ ⟨3, -2, 1 / 2⟩).scale ratLimits.half ∧
    (ComputeBoundingBox ratLimits pointMesh).bbox_.center_ = ⟨3, -2, 1 / 2⟩ :=
  let h := computeBoundingBox_single ratLimits pointMesh ⟨3, -2, 1 / 2⟩ rfl
    (by
      intro k hk
      interval_cases k <;> norm_num [Vector3.idx, ratLimits])
  ⟨h.1, h.2.1, h.2.2.2.1, h.2.2.2.2.1.mpr (by
      intro k hk
      interval_cases k <;> norm_num [Vector3.idx, ratLimits])⟩

/-- Counterexample to C5 as stated: for the single vertex `(+∞, 0, 0)` the
minimum stays at `max()`, so `min`, `max` and the vertex are not equal; and for
the single vertex `(3e38, 0, 0)`, inside the range of single precision, the sum
`min + max` overflows and the center is not the vertex. -/
theorem computeBoundingBox_single_counterexample :
    (ComputeBoundingBox floatLimits infMesh).bbox_.min_.x_ = floatLimits.max ∧
    (ComputeBoundingBox floatLimits infMesh).bbox_.max_.x_ = ⊤ ∧
    (ComputeBoundingBox floatLimits infMesh).bbox_.min_ ≠ ⟨⊤, 0, 0⟩ ∧
    (∀ k, k < 3 → floatLimits.lowest ≤ bigVertex.idx k ∧ bigVertex.idx k ≤ floatLimits.max) ∧
    (@ComputeBoundingBox (WithTop ℚ) inferInstance floatAdd inferInstance floatLimits
      bigMesh).bbox_.min_ = bigVertex ∧
    (@ComputeBoundingBox (WithTop ℚ) inferInstance floatAdd inferInstance floatLimits
      bigMesh).bbox_.max_ = bigVertex ∧
    (@ComputeBoundingBox (WithTop ℚ) inferInstance floatAdd inferInstance floatLimits
      bigMesh).bbox_.center_.x_ = ⊤ ∧
    bigVertex.x_ ≠ ⊤ := by
  have hrange : ∀ k, k < 3 →
      floatLimits.lowest ≤ bigVertex.idx k ∧ bigVertex.idx k ≤ floatLimits.max := by
    intro k hk
    interval_cases k <;>
      simp only [Vector3.idx, bigVertex, floatLimits, WithTop.coe_le_coe, if_true, if_false,
        one_ne_zero, OfNat.ofNat_ne_zero, OfNat.ofNat_ne_one] <;> norm_num
  obtain ⟨hmin, hmax, hcen⟩ :=
    @computeBoundingBox_one (WithTop ℚ) inferInstance floatAdd inferInstance floatLimits bigMesh
      bigVertex rfl hrange
  have hadd : floatAdd.add bigVertex.x_ bigVertex.x_ = ⊤ := by
    simp only [floatAdd, bigVertex, floatLimits, ← WithTop.coe_add, WithTop.coe_lt_coe]
    norm_num
  have hmul : (⊤ : WithTop ℚ) * floatLimits.half = ⊤ := by
    rw [WithTop.top_mul]
    simp only [floatLimits]
    exact_mod_cast (by norm_num : (1 / 2 : ℚ) ≠ 0)
  refine ⟨?_, ?_, ?_, hrange, hmin, hmax, ?_, by simp [bigVertex]⟩
  · simp [ComputeBoundingBox, bboxInit, bboxStep, bboxCenter, floatLimits, infMesh]
  · simp [ComputeBoundingBox, bboxInit, bboxStep, bboxCenter, floatLimits, infMesh]
  · simp [ComputeBoundingBox, bboxInit, bboxStep, bboxCenter, floatLimits, infMesh]
  · rw [hcen]
    show floatAdd.add bigVertex.x_ bigVertex.x_ * floatLimits.half = ⊤
    rw [hadd, hmul]

/-! ### C6 -/

/-- C6 (defect of the writer): `Save` writes the four vertices of `quadMesh`
with the tag `f` and its triangles with their 0-based indices.  `LoadOBJ` reads
the text back as six faces, each index one too small, and no vertex; `Load`
then stops in `BuildConnectivity`, at the assertion or, under `NDEBUG`, at the
first access to the empty connectivity. -/
theorem save_load_obj_quad :
    Save intPrinters true true "m.obj".toList quadMesh = (0, some quadObjText) ∧
    (LoadOBJ intLimits intExtractors (some quadObjText) (clearArrays emptyMesh)).1.vertex_ = [] ∧
    (LoadOBJ intLimits intExtractors (some quadObjText) (clearArrays emptyMesh)).1.tri_ =
      [⟨-1, -1, -1⟩, ⟨0, -1, -1⟩, ⟨-1, 0, -1⟩, ⟨0, 0, -1⟩, ⟨-1, 0, 1⟩, ⟨0, 2, 1⟩] ∧
    Load false intLimits intExtractors "m.obj".toList (some quadObjText) emptyMesh =
      .error .assertion ∧
    Load true intLimits intExtractors "m.obj".toList (some quadObjText) emptyMesh =
      .error .outOfBounds :=
  ⟨by rfl, by rfl, by rfl, by rfl, by rfl⟩

/-! ### The line loop of `LoadTri` -/

theorem storeRefs_ok (refs : List (List Char)) :
    ∀ (tri : Triangle) (cnt : Nat) (tri1 : Triangle) (cnt1 : Nat) (ok : Bool),
      storeRefs refs tri cnt = .ok (tri1, cnt1, ok) →
      ok = !(refs.any fun tok => (scanInt tok).isNone) := by
  induction refs with
  | nil =>
    intro tri cnt tri1 cnt1 ok h
    simp only [storeRefs, Except.ok.injEq, Prod.mk.injEq] at h
    simp [← h.2.2]
  | cons tok toks ih =>
    intro tri cnt tri1 cnt1 ok h
    rw [storeRefs] at h
    cases hs : scanInt tok with
    | none =>
      rw [hs] at h
      simp only [Except.ok.injEq, Prod.mk.injEq] at h
      simp [← h.2.2, hs]
    | some p =>
      obtain ⟨v, r⟩ := p
      rw [hs] at h
      simp only at h
      cases hst : storeRef tri cnt v with
      | error f => rw [hst] at h; simp at h
      | ok q =>
        obtain ⟨tri2, cnt2⟩ := q
        rw [hst] at h
        simp only at h
        rw [ih tri2 cnt2 tri1 cnt1 ok h]
        simp [hs]

/-- Outcome of one buffer: the flag `ok` is unset exactly for a malformed
line, and the triangle array is kept or extended by one triangle. -/
theorem triLine_ok (ndebug : Bool) (tri0 : Triangle) (buffer : List Char)
    (tris tris1 : List Triangle) (ok : Bool)
    (h : triLine ndebug tri0 buffer tris = .ok (tris1, ok)) :
    ok = !badLine buffer ∧ (tris1 = tris ∨ ∃ t, tris1 = tris ++ [t]) ∧
      (ok = false → ∃ t, tris1 = tris ++ [t]) := by
  rw [triLine_eq] at h
  unfold badLine
  cases hf : faceRefs buffer with
  | none =>
    rw [hf] at h
    simp only [Except.ok.injEq, Prod.mk.injEq] at h
    simp [← h.1, ← h.2]
  | some refs =>
    rw [hf] at h
    simp only at h
    cases hs : storeRefs refs tri0 0 with
    | error f => rw [hs] at h; simp at h
    | ok q =>
      obtain ⟨tri, cnt, ok1⟩ := q
      rw [hs] at h
      simp only at h
      cases ha : cAssert ndebug (cnt == 3) with
      | error f => rw [ha] at h; simp at h
      | ok u =>
        rw [ha] at h
        simp only [Except.ok.injEq, Prod.mk.injEq] at h
        obtain ⟨h1, h2⟩ := h
        subst h2
        exact ⟨storeRefs_ok refs tri0 0 tri cnt ok1 hs, Or.inr ⟨tri, h1.symm⟩,
          fun _ => ⟨tri, h1.symm⟩⟩

theorem triLoop_append (ndebug : Bool) (tri0 : Triangle) (xs ys : List (List Char)) :
    ∀ tris : List Triangle,
      triLoop ndebug tri0 (xs ++ ys) tris =
        match triLoop ndebug tri0 xs tris with
        | .error f => .error f
        | .ok (tris1, ok) => if ok then triLoop ndebug tri0 ys tris1 else .ok (tris1, false) := by
  induction xs with
  | nil => intro tris; simp [triLoop]
  | cons x xs ih =>
    intro tris
    rw [List.cons_append, triLoop, triLoop]
    cases hx : triLine ndebug tri0 x tris with
    | error f => rfl
    | ok q =>
      obtain ⟨tris1, ok⟩ := q
      simp only
      cases ok with
      | true => simp only [if_true]; exact ih tris1
      | false => simp

/-- A run of the line loop that ends with `ok` set saw no malformed line. -/
theorem triLoop_ok_true (ndebug : Bool) (tri0 : Triangle) (bufs : List (List Char)) :
    ∀ tris tris1 : List Triangle, triLoop ndebug tri0 bufs tris = .ok (tris1, true) →
      ∀ b ∈ bufs, badLine b = false := by
  induction bufs with
  | nil => intro _ _ _ b hb; simp at hb
  | cons x xs ih =>
    intro tris tris1 h b hb
    rw [triLoop] at h
    cases hx : triLine ndebug tri0 x tris with
    | error f => rw [hx] at h; simp at h
    | ok q =>
      obtain ⟨tris2, ok⟩ := q
      rw [hx] at h
      simp only at h
      have hok := (triLine_ok ndebug tri0 x tris tris2 ok hx).1
      cases ok with
      | false => simp at h
      | true =>
        simp only [if_true] at h
        rcases List.mem_cons.mp hb with rfl | hb
        · simpa using hok
        · exact ih tris2 tris1 h b hb

/-- A run of the line loop that ends with `ok` unset stopped at the first
malformed line: the buffers before it were read without error, the buffers
after it do not enter the result, and the triangles read before it are kept. -/
theorem triLoop_ok_false (ndebug : Bool) (tri0 : Triangle) (bufs : List (List Char)) :
    ∀ tris tris1 : List Triangle, triLoop ndebug tri0 bufs tris = .ok (tris1, false) →
      ∃ pre buf post trisPre,
        bufs = pre ++ buf :: post ∧ badLine buf = true ∧ (∀ b ∈ pre, badLine b = false) ∧
        triLoop ndebug tri0 pre tris = .ok (trisPre, true) ∧
        (∃ t, tris1 = trisPre ++ [t]) ∧
        ∀ post2, triLoop ndebug tri0 (pre ++ buf :: post2) tris = .ok (tris1, false) := by
  induction bufs with
  | nil => intro _ _ h; simp [triLoop] at h
  | cons x xs ih =>
    intro tris tris1 h
    rw [triLoop] at h
    cases hx : triLine ndebug tri0 x tris with
    | error f => rw [hx] at h; simp at h
    | ok q =>
      obtain ⟨tris2, ok⟩ := q
      rw [hx] at h
      simp only at h
      have hok := triLine_ok ndebug tri0 x tris tris2 ok hx
      cases ok with
      | false =>
        simp only [Bool.false_eq_true, if_false, Except.ok.injEq, Prod.mk.injEq, and_true] at h
        subst h
        refine ⟨[], x, xs, tris, rfl, by simpa using hok.1, by simp, rfl, hok.2.2 rfl, ?_⟩
        intro post2
        simp [triLoop, hx]
      | true =>
        simp only [if_true] at h
        obtain ⟨pre, buf, post, trisPre, hb, hbad, hpre, hrun, ht, hind⟩ := ih tris2 tris1 h
        refine ⟨x :: pre, buf, post, trisPre, by simp [hb], hbad, ?_, ?_, ht, ?_⟩
        · intro b hb'
          rcases List.mem_cons.mp hb' with rfl | hb'
          · simpa using hok.1
          · exact hpre b hb'
        · simp [triLoop, hx, hrun]
        · intro post2
          simp [triLoop, hx, hind post2]

/-! ### `LoadTri` and `Load` on a `tri` path -/

theorem loadTri_some {T : Type} (ndebug : Bool) (tri0 : Triangle) (content : List Char)
    (m m1 : Mesh T) (err : Int) (h : LoadTri ndebug tri0 (some content) m = .ok (m1, err)) :
    ∃ tris ok, triLoop ndebug tri0 (fgetsAll LINE_SIZE [] content) m.tri_ = .ok (tris, ok) ∧
      m1 = { m with tri_ := tris } ∧ err = if ok then 0 else -1 := by
  unfold LoadTri at h
  simp only at h
  cases hl : triLoop ndebug tri0 (fgetsAll LINE_SIZE [] content) m.tri_ with
  | error f => rw [hl] at h; simp at h
  | ok q =>
    obtain ⟨tris, ok⟩ := q
    rw [hl] at h
    simp only [Except.ok.injEq, Prod.mk.injEq] at h
    exact ⟨tris, ok, rfl, h.1.symm, h.2.symm⟩

theorem load_tri_eq {T : Type} [LinearOrder T] [Add T] [Mul T] (ndebug : Bool) (lim : Limits T)
    (ex : Extractors T) (filename : List Char) (pos : Nat) (file : Option (List Char))
    (m : Mesh T) (hdot : rfindDot filename = some pos)
    (hext : HashExt (filename.drop (pos + 1)) = FileExt.kTri) :
    Load ndebug lim ex filename file m =
      match LoadTri ndebug ex.tri0 file (clearArrays m) with
      | .error f => .error f
      | .ok (m1, err) =>
        .ok (if err = 0 ∧ m1.bbox_is_computed_ = false then ComputeBoundingBox lim m1 else m1,
          err) := by
  unfold Load
  simp only [hdot, hext, loadDispatch]
  cases LoadTri ndebug ex.tri0 file (clearArrays m) with
  | error f => rfl
  | ok q => obtain ⟨m1, err⟩ := q; simp

/-! ### `Load` of a TRI file with a malformed buffer -/

/-- When one of the buffers that `fgets` fills is a malformed face line, a `Load`
of the file that returns, returns -1, and the triangles read from the buffers
before the first malformed one are the leading entries of the triangle array. -/
theorem load_tri_buffers {T : Type} [LinearOrder T] [Add T] [Mul T] (ndebug : Bool)
    (lim : Limits T) (ex : Extractors T) (filename : List Char) (pos : Nat)
    (content : List Char) (m m1 : Mesh T) (err : Int)
    (hdot : rfindDot filename = some pos)
    (hext : HashExt (filename.drop (pos + 1)) = FileExt.kTri)
    (hbad : ∃ b ∈ fgetsAll LINE_SIZE [] content, badLine b = true)
    (h : Load ndebug lim ex filename (some content) m = .ok (m1, err)) :
    err = -1 ∧
    ∃ pre buf post trisPre,
      fgetsAll LINE_SIZE [] content = pre ++ buf :: post ∧ badLine buf = true ∧
      (∀ b ∈ pre, badLine b = false) ∧
      triLoop ndebug ex.tri0 pre [] = .ok (trisPre, true) ∧
      ∃ more, m1.tri_ = trisPre ++ more := by
  rw [load_tri_eq ndebug lim ex filename pos _ m hdot hext] at h
  cases hl : LoadTri ndebug ex.tri0 (some content) (clearArrays m) with
  | error f => rw [hl] at h; simp at h
  | ok q =>
    obtain ⟨m2, err2⟩ := q
    rw [hl] at h
    simp only [Except.ok.injEq, Prod.mk.injEq] at h
    obtain ⟨hm, he⟩ := h
    subst he
    obtain ⟨tris, ok, hrun, hm2, herr⟩ := loadTri_some ndebug ex.tri0 content _ m2 err2 hl
    cases ok with
    | true =>
      obtain ⟨b, hb, hbb⟩ := hbad
      have := triLoop_ok_true ndebug ex.tri0 _ _ _ hrun b hb
      rw [hbb] at this
      exact absurd this (by simp)
    | false =>
      have herr2 : err2 = -1 := by simpa using herr
      obtain ⟨pre, buf, post, trisPre, hsplit, hbuf, hpre, hrunPre, ⟨t, ht⟩, -⟩ :=
        triLoop_ok_false ndebug ex.tri0 _ _ _ hrun
      refine ⟨herr2, pre, buf, post, trisPre, hsplit, hbuf, hpre, hrunPre, [t], ?_⟩
      rw [← hm, herr2, hm2]
      simp [ht]

/-! ### The prior bounding box and the parsers -/

theorem objLine_recenter {T : Type} [LinearOrder T] (ex : Extractors T) (st : ObjState T)
    (line : List Char) (c : Vector3 T) (f : Bool) :
    objLine ex (st.recenter c f) line = (objLine ex st line).recenter c f := by
  unfold objLine
  by_cases h0 : line = []
  · simp [h0]
  · simp only [h0, if_false]
    have hk : (st.recenter c f).key = st.key := rfl
    rw [hk]
    by_cases h1 : (readKey line st.key).1 = ['v']
    · simp only [h1, if_true]; rfl
    · simp only [h1, if_false]
      by_cases h2 : (readKey line st.key).1 = ['v', 'n']
      · simp only [h2, if_true]; rfl
      · simp only [h2, if_false]
        by_cases h3 : (readKey line st.key).1 = ['v', 't']
        · simp only [h3, if_true]; rfl
        · simp only [h3, if_false]
          by_cases h4 : (readKey line st.key).1 = ['f']
          · simp only [h4, if_true]; rfl
          · simp only [h4, if_false]; rfl

theorem foldl_objLine_recenter {T : Type} [LinearOrder T] (ex : Extractors T)
    (lines : List (List Char)) (st : ObjState T) (c : Vector3 T) (f : Bool) :
    lines.foldl (objLine ex) (st.recenter c f) = (lines.foldl (objLine ex) st).recenter c f := by
  induction lines generalizing st with
  | nil => rfl
  | cons l ls ih => simp only [List.foldl_cons, objLine_recenter, ih]

theorem loadOBJ_withBox {T : Type} [LinearOrder T] [Add T] [Mul T] (lim : Limits T)
    (ex : Extractors T) (content : List Char) (m : Mesh T) (b : BBox T) (f : Bool) :
    LoadOBJ lim ex (some content) (m.withBox b f) = LoadOBJ lim ex (some content) m := by
  unfold LoadOBJ
  simp only
  have h0 : objInit lim ex (m.withBox b f) = (objInit lim ex m).recenter b.center_ f := rfl
  rw [h0, foldl_objLine_recenter]
  rfl

theorem loadTri_withBox {T : Type} (ndebug : Bool) (tri0 : Triangle) (file : Option (List Char))
    (m : Mesh T) (b : BBox T) (f : Bool) :
    LoadTri ndebug tri0 file (m.withBox b f) =
      (LoadTri ndebug tri0 file m).map fun r => (r.1.withBox b f, r.2) := by
  unfold LoadTri
  cases file with
  | none => rfl
  | some content =>
    simp only
    have : (m.withBox b f).tri_ = m.tri_ := rfl
    rw [this]
    cases triLoop ndebug tri0 (fgetsAll LINE_SIZE [] content) m.tri_ with
    | error e => rfl
    | ok q => rfl

theorem buildConnectivity_withBox {T : Type} (ndebug : Bool) (m : Mesh T) (b : BBox T)
    (f : Bool) :
    BuildConnectivity ndebug (m.withBox b f) =
      (BuildConnectivity ndebug m).map fun r => r.withBox b f := by
  unfold BuildConnectivity
  have h1 : (m.withBox b f).vertex_ = m.vertex_ := rfl
  have h2 : (m.withBox b f).tri_ = m.tri_ := rfl
  rw [h1, h2]
  cases cAssert ndebug (m.vertex_.length != 0 && m.tri_.length != 0) with
  | error e => rfl
  | ok u =>
    simp only
    cases List.foldlM connTri (List.replicate m.vertex_.length []) m.tri_ with
    | error e => rfl
    | ok con => rfl

theorem foldl_bboxStep_center {T : Type} [LinearOrder T] (vs : List (Vector3 T)) (b : BBox T)
    (c : Vector3 T) :
    vs.foldl bboxStep { b with center_ := c } = { vs.foldl bboxStep b with center_ := c } := by
  induction vs generalizing b with
  | nil => rfl
  | cons v vs ih =>
    simp only [List.foldl_cons]
    exact ih (bboxStep b v)

theorem computeBoundingBox_withBox {T : Type} [LinearOrder T] [Add T] [Mul T] (lim : Limits T)
    (m : Mesh T) (b : BBox T) (f : Bool) :
    ComputeBoundingBox lim (m.withBox b f) = ComputeBoundingBox lim m := by
  unfold ComputeBoundingBox
  have h1 : (m.withBox b f).vertex_ = m.vertex_ := rfl
  have h2 : bboxInit lim (m.withBox b f).bbox_ = { bboxInit lim m.bbox_ with center_ := b.center_ } :=
    rfl
  simp only [h1, h2, foldl_bboxStep_center]
  rfl

theorem clearArrays_withBox {T : Type} (m1 m2 : Mesh T) :
    clearArrays m2 = (clearArrays m1).withBox m2.bbox_ m2.bbox_is_computed_ := rfl

theorem load_dot {T : Type} [LinearOrder T] [Add T] [Mul T] (ndebug : Bool) (lim : Limits T)
    (ex : Extractors T) (filename : List Char) (pos : Nat) (file : Option (List Char))
    (m : Mesh T) (hdot : rfindDot filename = some pos) :
    Load ndebug lim ex filename file m =
      match loadDispatch ndebug lim ex (HashExt (filename.drop (pos + 1))) file (clearArrays m) with
      | .error f => .error f
      | .ok (m1, err) =>
        match (if err = 0 ∧ HashExt (filename.drop (pos + 1)) ≠ FileExt.kTri then
            BuildConnectivity ndebug m1 else .ok m1) with
        | .error f => .error f
        | .ok m2 =>
          .ok (if err = 0 ∧ m2.bbox_is_computed_ = false then ComputeBoundingBox lim m2 else m2,
            err) := by
  unfold Load
  simp only [hdot]

/-- A load that does not reach a parser with an open file: the arrays are
cleared, nothing else changes and the status is -1. -/
theorem load_not_parsed {T : Type} [LinearOrder T] [Add T] [Mul T] (ndebug : Bool)
    (lim : Limits T) (ex : Extractors T) (filename : List Char) (pos : Nat)
    (file : Option (List Char)) (m : Mesh T) (hdot : rfindDot filename = some pos)
    (h : file = none ∨ HashExt (filename.drop (pos + 1)) = FileExt.kPly ∨
      HashExt (filename.drop (pos + 1)) = FileExt.kUndef) :
    Load ndebug lim ex filename file m = .ok (clearArrays m, -1) := by
  rw [load_dot ndebug lim ex filename pos file m hdot]
  rcases h with rfl | h | h
  · cases HashExt (filename.drop (pos + 1)) <;> rfl
  · rw [h]; rfl
  · rw [h]; rfl

theorem load_obj_some {T : Type} [LinearOrder T] [Add T] [Mul T] (ndebug : Bool)
    (lim : Limits T) (ex : Extractors T) (filename : List Char) (pos : Nat)
    (content : List Char) (m : Mesh T) (hdot : rfindDot filename = some pos)
    (hext : HashExt (filename.drop (pos + 1)) = FileExt.kObj) :
    Load ndebug lim ex filename (some content) m =
      (BuildConnectivity ndebug (LoadOBJ lim ex (some content) (clearArrays m)).1).map
        fun m2 => (m2, 0) := by
  rw [load_dot ndebug lim ex filename pos _ m hdot, hext]
  simp only [loadDispatch]
  have he : (LoadOBJ lim ex (some content) (clearArrays m)).2 = 0 := rfl
  have hf : (LoadOBJ lim ex (some content) (clearArrays m)).1.bbox_is_computed_ = true := rfl
  have hb : ∀ m2, BuildConnectivity ndebug (LoadOBJ lim ex (some content) (clearArrays m)).1
      = .ok m2 → m2.bbox_is_computed_ = true := by
    intro m2 h2
    unfold BuildConnectivity at h2
    split at h2
    · simp at h2
    · split at h2
      · simp at h2
      · simp only [Except.ok.injEq] at h2
        rw [← h2]; exact hf
  cases hbc : BuildConnectivity ndebug (LoadOBJ lim ex (some content) (clearArrays m)).1 with
  | error f => simp [he, hbc, Except.map]
  | ok m2 => simp [he, hbc, hb m2 hbc, Except.map]

theorem computeBoundingBox_arrays {T : Type} [LinearOrder T] [Add T] [Mul T] (lim : Limits T)
    (m : Mesh T) :
    ComputeBoundingBox lim m = m.withBox (ComputeBoundingBox lim m).bbox_ true := rfl

/-! ### C8 -/

/-- C8 (amended): for a path without a dot `Load` returns -1 and leaves the
mesh as it was.  For a path with a dot, a `Load` that returns a nonzero status
leaves the vertex, normal, texture-coordinate and connectivity arrays empty;
when the file cannot be opened, or the extension is `ply` or unsupported, it
returns -1 with the triangle array empty as well and the bounding box
untouched. -/
theorem load_failure_state {T : Type} [LinearOrder T] [Add T] [Mul T] (ndebug : Bool)
    (lim : Limits T) (ex : Extractors T) (filename : List Char) (file : Option (List Char))
    (m m1 : Mesh T) (err : Int)
    (h : Load ndebug lim ex filename file m = .ok (m1, err)) (herr : err ≠ 0) :
    (rfindDot filename = none → m1 = m ∧ err = -1) ∧
    (∀ pos, rfindDot filename = some pos →
      m1.vertex_ = [] ∧ m1.normal_ = [] ∧ m1.tex_coord_ = [] ∧ m1.vertex_con_ = [] ∧
      ((file = none ∨ HashExt (filename.drop (pos + 1)) = FileExt.kPly ∨
          HashExt (filename.drop (pos + 1)) = FileExt.kUndef) →
        m1 = clearArrays m ∧ err = -1)) := by
  constructor
  · intro hdot
    unfold Load at h
    simp only [hdot, Except.ok.injEq, Prod.mk.injEq] at h
    exact ⟨h.1.symm, h.2.symm⟩
  · intro pos hdot
    have hnp : (file = none ∨ HashExt (filename.drop (pos + 1)) = FileExt.kPly ∨
        HashExt (filename.drop (pos + 1)) = FileExt.kUndef) → m1 = clearArrays m ∧ err = -1 := by
      intro hc
      rw [load_not_parsed ndebug lim ex filename pos file m hdot hc] at h
      simp only [Except.ok.injEq, Prod.mk.injEq] at h
      exact ⟨h.1.symm, h.2.symm⟩
    have hcl : ∀ x : Mesh T, x = clearArrays m →
        x.vertex_ = [] ∧ x.normal_ = [] ∧ x.tex_coord_ = [] ∧ x.vertex_con_ = [] := by
      rintro x rfl; exact ⟨rfl, rfl, rfl, rfl⟩
    cases file with
    | none =>
      obtain ⟨a, b, c, d⟩ := hcl m1 (hnp (Or.inl rfl)).1
      exact ⟨a, b, c, d, hnp⟩
    | some content =>
      cases hext : HashExt (filename.drop (pos + 1)) with
      | kUndef =>
        obtain ⟨a, b, c, d⟩ := hcl m1 (hnp (Or.inr (Or.inr hext))).1
        exact ⟨a, b, c, d, fun _ => hnp (Or.inr (Or.inr hext))⟩
      | kPly =>
        obtain ⟨a, b, c, d⟩ := hcl m1 (hnp (Or.inr (Or.inl hext))).1
        exact ⟨a, b, c, d, fun _ => hnp (Or.inr (Or.inl hext))⟩
      | kObj =>
        rw [load_obj_some ndebug lim ex filename pos content m hdot hext] at h
        cases hb : BuildConnectivity ndebug (LoadOBJ lim ex (some content) (clearArrays m)).1 with
        | error f => rw [hb] at h; simp [Except.map] at h
        | ok m2 =>
          rw [hb] at h
          simp only [Except.map, Except.ok.injEq, Prod.mk.injEq] at h
          exact absurd h.2.symm herr
      | kTri =>
        rw [load_tri_eq ndebug lim ex filename pos _ m hdot hext] at h
        cases hl : LoadTri ndebug ex.tri0 (some content) (clearArrays m) with
        | error f => rw [hl] at h; simp at h
        | ok q =>
          obtain ⟨m2, err2⟩ := q
          rw [hl] at h
          simp only [Except.ok.injEq, Prod.mk.injEq] at h
          obtain ⟨hm, he⟩ := h
          subst he
          obtain ⟨tris, ok, -, hm2, -⟩ := loadTri_some ndebug ex.tri0 content _ m2 err2 hl
          simp only [herr, false_and, if_false] at hm
          subst hm
          subst hm2
          refine ⟨rfl, rfl, rfl, rfl, ?_⟩
          rintro (hc | hc | hc)
          · exact absurd hc (by simp)
          · exact absurd hc (by simp)
          · exact absurd hc (by simp)

/-- Witness of C8 (amended): an `obj` path whose file cannot be opened, loaded
over a mesh that holds data. -/
theorem load_failure_state_witness :
    (rfindDot "a.obj".toList = none → clearArrays quadMesh = quadMesh ∧ (-1 : Int) = -1) ∧
    (∀ pos, rfindDot "a.obj".toList = some pos →
      (clearArrays quadMesh).vertex_ = [] ∧ (clearArrays quadMesh).normal_ = [] ∧
      (clearArrays quadMesh).tex_coord_ = [] ∧ (clearArrays quadMesh).vertex_con_ = [] ∧
      (((none : Option (List Char)) = none ∨
          HashExt ("a.obj".toList.drop (pos + 1)) = FileExt.kPly ∨
          HashExt ("a.obj".toList.drop (pos + 1)) = FileExt.kUndef) →
        clearArrays quadMesh = clearArrays quadMesh ∧ (-1 : Int) = -1)) :=
  load_failure_state false intLimits intExtractors "a.obj".toList none quadMesh
    (clearArrays quadMesh) (-1) (by rfl) (by decide)

/-- Counterexample to C8 as stated: a path without extension fails and keeps
every array of the prior mesh; a `tri` file with a malformed face line fails
and leaves a triangle in the triangle array. -/
theorem load_failure_state_counterexample :
    Load false intLimits intExtractors "mesh".toList (some "v 0 0 0\n".toList) quadMesh =
      .ok (quadMesh, -1) ∧
    quadMesh.vertex_.length = 4 ∧ quadMesh.tri_.length = 2 ∧
    Load false intLimits intExtractors "b.tri".toList (some "f 4 5 6 seven\n".toList) quadMesh =
      .ok ({ clearArrays quadMesh with tri_ := [⟨3, 4, 5⟩] }, -1) :=
  ⟨by rfl, by rfl, by rfl, by rfl⟩

/-! ### C9 -/

/-- C9 (amended): for two prior mesh states and the same path and file, `Load`
returns the same status or stops with the same fault.  On success the two
meshes hold the same five arrays; they are equal altogether, bounding box and
flag included, when the extension is not `tri` or when `bbox_is_computed` was
unset in both prior states. -/
theorem load_reset {T : Type} [LinearOrder T] [Add T] [Mul T] (ndebug : Bool)
    (lim : Limits T) (ex : Extractors T) (filename : List Char) (file : Option (List Char))
    (m1 m2 : Mesh T) :
    (Load ndebug lim ex filename file m1).map Prod.snd =
      (Load ndebug lim ex filename file m2).map Prod.snd ∧
    ∀ a b e1 e2, Load ndebug lim ex filename file m1 = .ok (a, e1) →
      Load ndebug lim ex filename file m2 = .ok (b, e2) → e1 = 0 →
      (a.vertex_ = b.vertex_ ∧ a.normal_ = b.normal_ ∧ a.tex_coord_ = b.tex_coord_ ∧
        a.tri_ = b.tri_ ∧ a.vertex_con_ = b.vertex_con_) ∧
      ((∀ pos, rfindDot filename = some pos →
          HashExt (filename.drop (pos + 1)) ≠ FileExt.kTri) → a = b) ∧
      (m1.bbox_is_computed_ = false → m2.bbox_is_computed_ = false → a = b) := by
  cases hdot : rfindDot filename with
  | none =>
    have h : ∀ m : Mesh T, Load ndebug lim ex filename file m = .ok (m, -1) := by
      intro m; unfold Load; simp only [hdot]
    rw [h m1, h m2]
    refine ⟨rfl, ?_⟩
    intro a b e1 e2 ha _ he
    simp only [Except.ok.injEq, Prod.mk.injEq] at ha
    rw [← ha.2] at he
    exact absurd he (by decide)
  | some pos =>
    by_cases hnp : file = none ∨ HashExt (filename.drop (pos + 1)) = FileExt.kPly ∨
        HashExt (filename.drop (pos + 1)) = FileExt.kUndef
    · rw [load_not_parsed ndebug lim ex filename pos file m1 hdot hnp,
        load_not_parsed ndebug lim ex filename pos file m2 hdot hnp]
      refine ⟨rfl, ?_⟩
      intro a b e1 e2 ha _ he
      simp only [Except.ok.injEq, Prod.mk.injEq] at ha
      rw [← ha.2] at he
      exact absurd he (by decide)
    · obtain ⟨content, rfl⟩ : ∃ content, file = some content := by
        cases file with
        | none => exact absurd (Or.inl rfl) hnp
        | some c => exact ⟨c, rfl⟩
      cases hext : HashExt (filename.drop (pos + 1)) with
      | kUndef => exact absurd (Or.inr (Or.inr hext)) hnp
      | kPly => exact absurd (Or.inr (Or.inl hext)) hnp
      | kObj =>
        have heq : Load ndebug lim ex filename (some content) m2 =
            Load ndebug lim ex filename (some content) m1 := by
          rw [load_obj_some ndebug lim ex filename pos content m1 hdot hext,
            load_obj_some ndebug lim ex filename pos content m2 hdot hext,
            clearArrays_withBox m1 m2, loadOBJ_withBox]
        rw [heq]
        refine ⟨rfl, ?_⟩
        intro a b e1 e2 ha hb _
        rw [ha] at hb
        simp only [Except.ok.injEq, Prod.mk.injEq] at hb
        rw [hb.1]
        exact ⟨⟨rfl, rfl, rfl, rfl, rfl⟩, fun _ => rfl, fun _ _ => rfl⟩
      | kTri =>
        rw [load_tri_eq ndebug lim ex filename pos _ m1 hdot hext,
          load_tri_eq ndebug lim ex filename pos _ m2 hdot hext,
          clearArrays_withBox m1 m2, loadTri_withBox]
        cases hl : LoadTri ndebug ex.tri0 (some content) (clearArrays m1) with
        | error f => exact ⟨rfl, fun a b e1 e2 ha => by simp at ha⟩
        | ok q =>
          obtain ⟨x, err⟩ := q
          refine ⟨rfl, ?_⟩
          intro a b e1 e2 ha hb he
          simp only [Except.map, Except.ok.injEq, Prod.mk.injEq] at ha hb
          obtain ⟨ha, rfl⟩ := ha
          obtain ⟨hb, -⟩ := hb
          obtain ⟨tris, ok, -, hx, -⟩ := loadTri_some ndebug ex.tri0 content _ x err hl
          have hxf : x.bbox_is_computed_ = m1.bbox_is_computed_ := by rw [hx]; rfl
          simp only [he, true_and] at ha hb
          have hxb : (x.withBox m2.bbox_ m2.bbox_is_computed_).bbox_is_computed_
              = m2.bbox_is_computed_ := rfl
          rw [hxb] at hb
          rw [hxf] at ha
          refine ⟨?_, ?_, ?_⟩
          · rw [← ha, ← hb]
            by_cases h1 : m1.bbox_is_computed_ = false <;>
              by_cases h2 : m2.bbox_is_computed_ = false <;>
              simp only [h1, h2, if_true, if_false] <;>
              exact ⟨rfl, rfl, rfl, rfl, rfl⟩
          · intro hno
            exact absurd hext (hno pos rfl)
          · intro h1 h2
            rw [← ha, ← hb]
            simp only [h1, h2, if_true, computeBoundingBox_withBox]

/-- Witness of C9 (amended): the same `obj` file loaded over a mesh that holds
data and over the empty mesh succeeds with the same mesh, bounding box
included. -/
theorem load_reset_witness :
    Load false intLimits intExtractors "a.obj".toList
        (some "v 0 0 0\nv 2 0 0\nv 0 4 0\nf 1 2 3\n".toList) quadMesh =
      .ok ({ vertex_ := [⟨0, 0, 0⟩, ⟨2, 0, 0⟩, ⟨0, 4, 0⟩]
             normal_ := []
             tex_coord_ := []
             tri_ := [⟨0, 1, 2⟩]
             vertex_con_ := [[1, 2], [2, 0], [0, 1]]
             bbox_ := ⟨⟨0, 0, 0⟩, ⟨2, 4, 0⟩, ⟨0, 0, 0⟩⟩
             bbox_is_computed_ := true }, 0) ∧
    Load false intLimits intExtractors "a.obj".toList
        (some "v 0 0 0\nv 2 0 0\nv 0 4 0\nf 1 2 3\n".toList) emptyMesh =
      .ok ({ vertex_ := [⟨0, 0, 0⟩, ⟨2, 0, 0⟩, ⟨0, 4, 0⟩]
             normal_ := []
             tex_coord_ := []
             tri_ := [⟨0, 1, 2⟩]
             vertex_con_ := [[1, 2], [2, 0], [0, 1]]
             bbox_ := ⟨⟨0, 0, 0⟩, ⟨2, 4, 0⟩, ⟨0, 0, 0⟩⟩
             bbox_is_computed_ := true }, 0) ∧
    (Load false intLimits intExtractors "a.obj".toList
        (some "v 0 0 0\nv 2 0 0\nv 0 4 0\nf 1 2 3\n".toList) quadMesh).map Prod.snd =
      (Load false intLimits intExtractors "a.obj".toList
        (some "v 0 0 0\nv 2 0 0\nv 0 4 0\nf 1 2 3\n".toList) emptyMesh).map Prod.snd :=
  ⟨by rfl, by rfl,
    (load_reset false intLimits intExtractors "a.obj".toList
      (some "v 0 0 0\nv 2 0 0\nv 0 4 0\nf 1 2 3\n".toList) quadMesh emptyMesh).1⟩

/-- Counterexample to C9 as stated: the same `tri` file loaded with success
over two meshes whose boxes are marked as computed leaves two different
bounding boxes, each the box of the prior state. -/
theorem load_reset_counterexample :
    Load false intLimits intExtractors "a.tri".toList (some "f 1 2 3\n".toList)
        (emptyMesh.withBox ⟨⟨1, 1, 1⟩, ⟨2, 2, 2⟩, ⟨3, 3, 3⟩⟩ true) =
      .ok ({ (emptyMesh.withBox ⟨⟨1, 1, 1⟩, ⟨2, 2, 2⟩, ⟨3, 3, 3⟩⟩ true) with
        tri_ := [⟨0, 1, 2⟩] }, 0) ∧
    Load false intLimits intExtractors "a.tri".toList (some "f 1 2 3\n".toList)
        (emptyMesh.withBox ⟨⟨4, 4, 4⟩, ⟨5, 5, 5⟩, ⟨6, 6, 6⟩⟩ true) =
      .ok ({ (emptyMesh.withBox ⟨⟨4, 4, 4⟩, ⟨5, 5, 5⟩, ⟨6, 6, 6⟩⟩ true) with
        tri_ := [⟨0, 1, 2⟩] }, 0) :=
  ⟨by rfl, by rfl⟩

/-! ### The status of `LoadTri`, buffer by buffer -/

/-- The status of a `LoadTri` that returns, over the buffers that `fgets` fills:
0 exactly when no buffer is a malformed face line, -1 exactly when one is, and
then nothing after the first malformed buffer enters the result. -/
theorem loadTri_buffers {T : Type} (ndebug : Bool) (tri0 : Triangle) (content : List Char)
    (m m1 : Mesh T) (err : Int)
    (h : LoadTri ndebug tri0 (some content) m = .ok (m1, err)) :
    LoadTri ndebug tri0 none m = .ok (m, -1) ∧
    (err = 0 ∨ err = -1) ∧
    (err = 0 ↔ ∀ b ∈ fgetsAll LINE_SIZE [] content, badLine b = false) ∧
    (err = -1 ↔ ∃ b ∈ fgetsAll LINE_SIZE [] content, badLine b = true) ∧
    (err = -1 → ∃ pre buf post,
      fgetsAll LINE_SIZE [] content = pre ++ buf :: post ∧ badLine buf = true ∧
      (∀ b ∈ pre, badLine b = false) ∧
      ∀ post2, triLoop ndebug tri0 (pre ++ buf :: post2) m.tri_ = .ok (m1.tri_, false)) := by
  obtain ⟨tris, ok, hrun, hm1, herr⟩ := loadTri_some ndebug tri0 content m m1 err h
  refine ⟨rfl, ?_⟩
  cases ok with
  | true =>
    have he : err = 0 := by simpa using herr
    have hall := triLoop_ok_true ndebug tri0 _ _ _ hrun
    refine ⟨Or.inl he, ⟨fun _ => hall, fun _ => he⟩, ⟨?_, ?_⟩, ?_⟩
    · intro h1; rw [he] at h1; exact absurd h1 (by decide)
    · rintro ⟨b, hb, hbb⟩
      rw [hall b hb] at hbb
      exact absurd hbb (by simp)
    · intro h1; rw [he] at h1; exact absurd h1 (by decide)
  | false =>
    have he : err = -1 := by simpa using herr
    obtain ⟨pre, buf, post, trisPre, hsplit, hbuf, hpre, -, -, hind⟩ :=
      triLoop_ok_false ndebug tri0 _ _ _ hrun
    have hmem : buf ∈ fgetsAll LINE_SIZE [] content := by rw [hsplit]; simp
    refine ⟨Or.inr he, ⟨?_, ?_⟩, ⟨fun _ => ⟨buf, hmem, hbuf⟩, fun _ => he⟩, ?_⟩
    · intro h1; rw [he] at h1; exact absurd h1 (by decide)
    · intro hall
      rw [hall buf hmem] at hbuf
      exact absurd hbuf (by simp)
    · intro _
      refine ⟨pre, buf, post, hsplit, hbuf, hpre, ?_⟩
      intro post2
      rw [hm1]
      exact hind post2

/-! ### Lines of a text -/

theorem linesOf_head_length (cs : List Char) :
    ∀ cur : List Char, cs ≠ [] → ∃ l ∈ linesOf cur cs, cur.length + 1 ≤ l.length := by
  induction cs with
  | nil => intro cur h; exact absurd rfl h
  | cons c cs ih =>
    intro cur _
    by_cases hc : c = '\n'
    · exact ⟨cur ++ [c], by simp [linesOf, hc], by simp⟩
    · by_cases hcs : cs = []
      · subst hcs
        exact ⟨cur ++ [c], by simp [linesOf, hc], by simp⟩
      · obtain ⟨l, hl, hlen⟩ := ih (cur ++ [c]) hcs
        refine ⟨l, by simpa [linesOf, hc] using hl, ?_⟩
        simp only [List.length_append, List.length_singleton] at hlen
        omega

/-- When every line is shorter than the buffer, `fgets` delivers the lines. -/
theorem fgetsAll_eq_linesOf (size : Nat) (text : List Char) :
    ∀ cur : List Char, (∀ l ∈ linesOf cur text, l.length < size) →
      fgetsAll size cur text = linesOf cur text := by
  induction text with
  | nil => intro cur _; rfl
  | cons c cs ih =>
    intro cur h
    by_cases hc : c = '\n'
    · have h1 : linesOf cur (c :: cs) = (cur ++ [c]) :: linesOf [] cs := by simp [linesOf, hc]
      rw [h1] at h ⊢
      rw [fgetsAll, if_pos (Or.inl hc), ih [] fun l hl => h l (List.mem_cons_of_mem _ hl)]
    · have h1 : linesOf cur (c :: cs) = linesOf (cur ++ [c]) cs := by simp [linesOf, hc]
      rw [h1] at h ⊢
      by_cases hfull : (cur ++ [c]).length = size - 1
      · have hcs : cs = [] := by
          by_contra hne
          obtain ⟨l, hl, hlen⟩ := linesOf_head_length cs (cur ++ [c]) hne
          have := h l hl
          omega
        subst hcs
        rw [fgetsAll, if_pos (Or.inr hfull)]
        simp [fgetsAll, linesOf]
      · rw [fgetsAll, if_neg (by rw [not_or]; exact ⟨hc, hfull⟩)]
        exact ih (cur ++ [c]) h

/-! ### Face lines as the text shows them -/

theorem faceRefs_eq (b : List Char) :
    faceRefs b =
      if firstWord (cstr b) = ['f'] then
        some (words [] (((cstr b).dropWhile isspace).dropWhile fun c => !isspace c))
      else none := by
  unfold faceRefs firstWord
  rw [← words_dropWhile (cstr b)]
  cases hline : (cstr b).dropWhile isspace with
  | nil => simp [words]
  | cons c cs =>
    have hc : isspace c = false := head_dropWhile_isspace (cstr b) c (by rw [hline]; rfl)
    rw [words_nonspace c cs hc]

theorem firstWord_split (x : List Char) (h : firstWord x = ['f']) :
    ∃ ws r, x = ws ++ 'f' :: r ∧ (∀ c ∈ ws, isspace c = true) ∧
      (∀ c, r.head? = some c → isspace c = true) ∧
      r = (x.dropWhile isspace).dropWhile fun c => !isspace c := by
  refine ⟨x.takeWhile isspace, (x.dropWhile isspace).dropWhile fun c => !isspace c, ?_, ?_, ?_, rfl⟩
  · have h1 := List.takeWhile_append_dropWhile isspace x
    have h2 := List.takeWhile_append_dropWhile (fun c => !isspace c) (x.dropWhile isspace)
    unfold firstWord at h
    rw [h] at h2
    conv_lhs => rw [← h1, ← h2]
    rfl
  · intro c hc; exact List.mem_takeWhile_imp hc
  · exact head_dropWhile_nonspace _

theorem firstWord_join (ws r : List Char) (hws : ∀ c ∈ ws, isspace c = true)
    (hr : ∀ c, r.head? = some c → isspace c = true) :
    firstWord (ws ++ 'f' :: r) = ['f'] := by
  unfold firstWord
  have h1 := takeWhile_token (p := isspace) ws ('f' :: r) hws
    (by intro c hc; simp only [List.head?_cons, Option.some.injEq] at hc; subst hc; decide)
  rw [h1.2]
  have h2 := takeWhile_token (p := fun c => !isspace c) ['f'] r
    (by intro c hc; simp only [List.mem_singleton] at hc; subst hc; decide)
    (by intro c hc; simp [hr c hc])
  simpa using h2.1

theorem isspace_ne_nul (c : Char) (h : isspace c = true) : (c != Char.ofNat 0) = true := by
  rw [bne_iff_ne]
  rintro rfl
  exact absurd h (by decide)

theorem cstr_gap_f (ws r : List Char) (hws : ∀ c ∈ ws, isspace c = true) :
    cstr (ws ++ 'f' :: r) = ws ++ 'f' :: cstr r := by
  unfold cstr
  induction ws with
  | nil => simp [List.takeWhile]
  | cons a as ih =>
    have ha := isspace_ne_nul a (hws a (List.mem_cons_self _ _))
    simp only [List.cons_append, List.takeWhile_cons, ha, if_true]
    rw [ih fun c hc => hws c (List.mem_cons_of_mem _ hc)]

/-- A line whose first token is `f` is a face line for the parser. -/
theorem firstWord_cstr_of_firstWord (b : List Char) (h : firstWord b = ['f']) :
    firstWord (cstr b) = ['f'] := by
  obtain ⟨ws, r, hb, hws, hr, -⟩ := firstWord_split b h
  rw [hb, cstr_gap_f ws r hws]
  apply firstWord_join ws _ hws
  intro c hc
  cases r with
  | nil => simp [cstr] at hc
  | cons a as =>
    have ha := hr a rfl
    have : cstr (a :: as) = a :: cstr as := by
      simp [cstr, List.takeWhile, isspace_ne_nul a ha]
    rw [this] at hc
    simp only [List.head?_cons, Option.some.injEq] at hc
    subst hc; exact ha

/-- A face line of the parser that has a reference shows `f` as its first token
in the text as well. -/
theorem firstWord_of_faceRefs (b : List Char) (refs : List (List Char))
    (h : faceRefs b = some refs) (hne : refs ≠ []) : firstWord b = ['f'] := by
  rw [faceRefs_eq] at h
  by_cases hf : firstWord (cstr b) = ['f']
  · simp only [hf, if_true, Option.some.injEq] at h
    obtain ⟨ws, r, hb, hws, hr, hr2⟩ := firstWord_split (cstr b) hf
    rw [← hr2] at h
    have hrne : r ≠ [] := by
      rintro rfl
      rw [← h] at hne
      exact hne rfl
    obtain ⟨a, as, rfl⟩ := List.exists_cons_of_ne_nil hrne
    have hsplit : b = cstr b ++ b.dropWhile (fun c => c != Char.ofNat 0) :=
      (List.takeWhile_append_dropWhile _ b).symm
    rw [hsplit, hb]
    have : ws ++ 'f' :: a :: as ++ b.dropWhile (fun c => c != Char.ofNat 0)
        = ws ++ 'f' :: (a :: (as ++ b.dropWhile (fun c => c != Char.ofNat 0))) := by simp
    rw [this]
    apply firstWord_join ws _ hws
    intro c hc
    simp only [List.head?_cons, Option.some.injEq] at hc
    subst hc
    exact hr _ rfl
  · simp [hf] at h

theorem storeRef_ok (tri tri1 : Triangle) (cnt cnt1 : Nat) (v : Int)
    (h : storeRef tri cnt v = .ok (tri1, cnt1)) :
    cnt < 3 ∧ tri1 = tri.setIdx cnt (v - 1) ∧ cnt1 = cnt + 1 := by
  unfold storeRef at h
  split at h
  · simp at h
  · split at h
    · simp at h
    · next hlt =>
      simp only [Except.ok.injEq, Prod.mk.injEq] at h
      exact ⟨by omega, h.1.symm, h.2.symm⟩

theorem storeRefs_three_ok (r1 r2 r3 : List Char) (tri0 tri : Triangle) (cnt : Nat)
    (h : storeRefs [r1, r2, r3] tri0 0 = .ok (tri, cnt, true)) :
    tri = refsTriangle [r1, r2, r3] := by
  simp only [storeRefs] at h
  cases h1 : scanInt r1 with
  | none => rw [h1] at h; simp at h
  | some p1 =>
    obtain ⟨v1, q1⟩ := p1
    rw [h1] at h
    simp only at h
    cases s1 : storeRef tri0 0 v1 with
    | error f => rw [s1] at h; simp at h
    | ok a1 =>
      obtain ⟨t1, c1⟩ := a1
      rw [s1] at h
      simp only at h
      obtain ⟨-, rfl, rfl⟩ := storeRef_ok _ _ _ _ _ s1
      cases h2 : scanInt r2 with
      | none => rw [h2] at h; simp at h
      | some p2 =>
        obtain ⟨v2, q2⟩ := p2
        rw [h2] at h
        simp only at h
        cases s2 : storeRef (tri0.setIdx 0 (v1 - 1)) (0 + 1) v2 with
        | error f => rw [s2] at h; simp at h
        | ok a2 =>
          obtain ⟨t2, c2⟩ := a2
          rw [s2] at h
          simp only at h
          obtain ⟨-, rfl, rfl⟩ := storeRef_ok _ _ _ _ _ s2
          cases h3 : scanInt r3 with
          | none => rw [h3] at h; simp at h
          | some p3 =>
            obtain ⟨v3, q3⟩ := p3
            rw [h3] at h
            simp only at h
            cases s3 : storeRef ((tri0.setIdx 0 (v1 - 1)).setIdx (0 + 1) (v2 - 1)) (0 + 1 + 1) v3 with
            | error f => rw [s3] at h; simp at h
            | ok a3 =>
              obtain ⟨t3, c3⟩ := a3
              rw [s3] at h
              obtain ⟨-, rfl, rfl⟩ := storeRef_ok _ _ _ _ _ s3
              simp only [Except.ok.injEq, Prod.mk.injEq, and_true] at h
              rw [← h.1]
              simp [refsTriangle, refIdx, h1, h2, h3, Vector3.setIdx]

theorem triLine_ok_three (ndebug : Bool) (tri0 : Triangle) (b : List Char)
    (tris tris1 : List Triangle)
    (h : triLine ndebug tri0 b tris = .ok (tris1, true))
    (h3 : ∀ refs, faceRefs b = some refs → refs.length = 3) :
    tris1 = tris ++ (if firstWord b = ['f'] then [lineTriangle b] else []) := by
  rw [triLine_eq] at h
  cases hf : faceRefs b with
  | none =>
    rw [hf] at h
    simp only [Except.ok.injEq, Prod.mk.injEq, and_true] at h
    have hnot : firstWord b ≠ ['f'] := by
      intro hw
      have := firstWord_cstr_of_firstWord b hw
      rw [faceRefs_eq, if_pos this] at hf
      simp at hf
    simp [hnot, h]
  | some refs =>
    rw [hf] at h
    simp only at h
    have hlen := h3 refs hf
    obtain ⟨r1, r2, r3, rfl⟩ : ∃ r1 r2 r3, refs = [r1, r2, r3] := by
      match refs, hlen with
      | [a, b2, c], _ => exact ⟨a, b2, c, rfl⟩
    have hw := firstWord_of_faceRefs b _ hf (by simp)
    cases hs : storeRefs [r1, r2, r3] tri0 0 with
    | error f => rw [hs] at h; simp at h
    | ok q =>
      obtain ⟨tri, cnt, ok⟩ := q
      rw [hs] at h
      simp only at h
      cases ha : cAssert ndebug (cnt == 3) with
      | error f => rw [ha] at h; simp at h
      | ok u =>
        rw [ha] at h
        simp only [Except.ok.injEq, Prod.mk.injEq] at h
        obtain ⟨h1, h2⟩ := h
        subst h2
        have := storeRefs_three_ok r1 r2 r3 tri0 tri cnt hs
        simp [hw, ← h1, this, lineTriangle, hf]

theorem triLoop_ok_three (ndebug : Bool) (tri0 : Triangle) (bufs : List (List Char)) :
    ∀ tris tris1 : List Triangle, triLoop ndebug tri0 bufs tris = .ok (tris1, true) →
      (∀ b ∈ bufs, ∀ refs, faceRefs b = some refs → refs.length = 3) →
      tris1 = tris ++ (bufs.filter fun b => decide (firstWord b = ['f'])).map lineTriangle := by
  induction bufs with
  | nil =>
    intro tris tris1 h _
    simp only [triLoop, Except.ok.injEq, Prod.mk.injEq, and_true] at h
    simp [h]
  | cons x xs ih =>
    intro tris tris1 h h3
    rw [triLoop] at h
    cases hx : triLine ndebug tri0 x tris with
    | error f => rw [hx] at h; simp at h
    | ok q =>
      obtain ⟨tris2, ok⟩ := q
      rw [hx] at h
      simp only at h
      cases ok with
      | false => simp at h
      | true =>
        simp only [if_true] at h
        have h1 := triLine_ok_three ndebug tri0 x tris tris2 hx (h3 x (List.mem_cons_self _ _))
        have h2 := ih tris2 tris1 h fun b hb => h3 b (List.mem_cons_of_mem _ hb)
        rw [h2, h1]
        by_cases hw : firstWord x = ['f'] <;> simp [List.filter_cons, hw]

/-! ### C11 -/

/-- C11: when `LoadTri` parses a TRI text with success, every line being
shorter than the 1024-byte line buffer and every face line carrying exactly
three references, the triangle array afterwards is the array held before
followed by exactly one triangle per line whose first white-space delimited
token is exactly `f`, in file order.  Lines with white space before `f` count;
blank lines and lines with any other first token, longer tokens that start
with `f` included, add nothing.  Through `Load`, which clears the array first,
these triangles are the whole array. -/
theorem loadTri_face_lines {T : Type} [LinearOrder T] [Add T] [Mul T] (ndebug : Bool)
    (tri0 : Triangle) (text : List Char) (m m1 : Mesh T)
    (hok : LoadTri ndebug tri0 (some text) m = .ok (m1, 0))
    (hlen : ∀ l ∈ linesOf [] text, l.length < LINE_SIZE)
    (h3 : ∀ l ∈ linesOf [] text, ∀ refs, faceRefs l = some refs → refs.length = 3) :
    m1.tri_ = m.tri_ ++
      ((linesOf [] text).filter fun l => decide (firstWord l = ['f'])).map lineTriangle ∧
    ∀ (lim : Limits T) (ex : Extractors T) (filename : List Char) (pos : Nat) (m0 m2 : Mesh T),
      rfindDot filename = some pos → HashExt (filename.drop (pos + 1)) = FileExt.kTri →
      Load ndebug lim ex filename (some text) m0 = .ok (m2, 0) →
      m2.tri_ =
        ((linesOf [] text).filter fun l => decide (firstWord l = ['f'])).map lineTriangle := by
  have hfg := fgetsAll_eq_linesOf LINE_SIZE text [] hlen
  have key : ∀ (t0 : Triangle) (a b : Mesh T), LoadTri ndebug t0 (some text) a = .ok (b, 0) →
      b.tri_ = a.tri_ ++
        ((linesOf [] text).filter fun l => decide (firstWord l = ['f'])).map lineTriangle := by
    intro t0 a b hab
    obtain ⟨tris, ok, hrun, hb, herr⟩ := loadTri_some ndebug t0 text a b 0 hab
    cases ok with
    | false => simp at herr
    | true =>
      rw [hfg] at hrun
      rw [hb]
      exact triLoop_ok_three ndebug t0 _ _ _ hrun h3
  refine ⟨key tri0 m m1 hok, ?_⟩
  intro lim ex filename pos m0 m2 hdot hext hload
  rw [load_tri_eq ndebug lim ex filename pos _ m0 hdot hext] at hload
  cases hl : LoadTri ndebug ex.tri0 (some text) (clearArrays m0) with
  | error f => rw [hl] at hload; simp at hload
  | ok q =>
    obtain ⟨mx, err⟩ := q
    rw [hl] at hload
    simp only [Except.ok.injEq, Prod.mk.injEq] at hload
    obtain ⟨hm, he⟩ := hload
    subst he
    have := key ex.tri0 _ _ hl
    rw [← hm]
    have hclear : (clearArrays m0).tri_ = [] := rfl
    rw [hclear, List.nil_append] at this
    split
    · exact this
    · exact this

/-- Witness of C11: of six lines, the two whose first token is exactly `f` give
the two triangles, in file order. -/
theorem loadTri_face_lines_witness :
    ({ emptyMesh with tri_ := [⟨0, 1, 2⟩, ⟨3, 4, 5⟩] } : Mesh Int).tri_ =
      emptyMesh.tri_ ++
        ((linesOf [] " f 1 2 3\n\nfx 7 8 9\nv 1 2 3\n \nf 4/1 5/2/3 6".toList).filter
          fun l => decide (firstWord l = ['f'])).map lineTriangle :=
  (loadTri_face_lines false ⟨0, 0, 0⟩ " f 1 2 3\n\nfx 7 8 9\nv 1 2 3\n \nf 4/1 5/2/3 6".toList
    emptyMesh { emptyMesh with tri_ := [⟨0, 1, 2⟩, ⟨3, 4, 5⟩] } (by rfl) (by decide)
    (by decide)).1

/-! ### C12 -/

/-- C12 (defect of the OBJ reader): a line of white space only is not skipped.
The extraction of `key` fails on it and `key` keeps the value of the line
before, so after a `v` line the reader pushes one more vertex (what
`>> vertex` leaves on the failed stream), for every extraction operator; with
CRLF line ends every blank line does so.  After an `f` line it pushes the
triangle of that line decremented once more. -/
theorem loadOBJ_blank_line {T : Type} [LinearOrder T] [Add T] [Mul T] (lim : Limits T)
    (ex : Extractors T) (m : Mesh T) :
    (LoadOBJ lim ex (some "v 1 2 3\n \n".toList) m).1.vertex_ =
      m.vertex_ ++
        [ex.readVertex ⟨" 1 2 3".toList, false⟩ ex.vertex0,
         ex.readVertex ⟨[], true⟩ (ex.readVertex ⟨" 1 2 3".toList, false⟩ ex.vertex0)] ∧
    (LoadOBJ intLimits intExtractors (some "v 1 2 3\r\n\r\nf 1 1 1\r\n\r\n".toList)
        emptyMesh).1.vertex_ = [⟨1, 2, 3⟩, ⟨1, 2, 3⟩] ∧
    (LoadOBJ intLimits intExtractors (some "v 1 2 3\r\n\r\nf 1 1 1\r\n\r\n".toList)
        emptyMesh).1.tri_ = [⟨0, 0, 0⟩, ⟨-1, -1, -1⟩] := by
  refine ⟨?_, by rfl, by rfl⟩
  have h : (LoadOBJ lim ex (some "v 1 2 3\n \n".toList) m).1.vertex_ =
      (m.vertex_ ++ [ex.readVertex ⟨" 1 2 3".toList, false⟩ ex.vertex0]) ++
        [ex.readVertex ⟨[], true⟩ (ex.readVertex ⟨" 1 2 3".toList, false⟩ ex.vertex0)] := by
    rfl
  rw [h, List.append_assoc]
  rfl

/-! ### C13 -/

/-- C13 (defect of the TRI reader): the reference loop takes as many references
as the line holds.  On `f 1 2` no reference fails, two are stored and the
assertion `vertex_cnt == 3` does not hold (under `NDEBUG` the third slot keeps
what the constructor left); on `f 1 2 3 4` no reference fails and the fourth is
written to slot 3, outside the triangle. -/
theorem loadTri_reference_count :
    badLine "f 1 2\n".toList = false ∧ badLine "f 1 2 3 4\n".toList = false ∧
    LoadTri false ⟨7, 7, 7⟩ (some "f 1 2\n".toList) emptyMesh = .error .assertion ∧
    LoadTri true ⟨7, 7, 7⟩ (some "f 1 2\n".toList) emptyMesh =
      .ok ({ emptyMesh with tri_ := [⟨0, 1, 7⟩] }, 0) ∧
    LoadTri false ⟨7, 7, 7⟩ (some "f 1 2 3 4\n".toList) emptyMesh = .error .outOfBounds ∧
    LoadTri true ⟨7, 7, 7⟩ (some "f 1 2 3 4\n".toList) emptyMesh = .error .outOfBounds :=
  ⟨by rfl, by rfl, by rfl, by rfl, by rfl, by rfl⟩

/-! ### C14 -/

/-- C14 (defect of `Load`): the OBJ reader reports success for every file that
opens.  For an empty file, and for a file with vertices and no face, `Load`
then calls `BuildConnectivity` on an empty array and its assertion fails. -/
theorem load_obj_assertion {T : Type} [LinearOrder T] [Add T] [Mul T] (lim : Limits T)
    (ex : Extractors T) (m : Mesh T) :
    (LoadOBJ lim ex (some []) (clearArrays m)).2 = 0 ∧
    Load false lim ex "a.obj".toList (some []) m = .error .assertion ∧
    (LoadOBJ lim ex (some "v 0 0 0\nv 1 0 0\n".toList) (clearArrays m)).2 = 0 ∧
    Load false lim ex "a.obj".toList (some "v 0 0 0\nv 1 0 0\n".toList) m =
      .error .assertion :=
  ⟨by rfl, by rfl, by rfl, by rfl⟩

/-! ### C16 -/

/-- C16 (amended): for a path with extension `ply`, `Load` and `Save` return
-1.  `Save` writes nothing.  `Load` clears the vertex, normal,
texture-coordinate, triangle and connectivity arrays and leaves the bounding
box and the flag `bbox_is_computed` as they were. -/
theorem load_save_ply {T : Type} [LinearOrder T] [Add T] [Mul T] (ndebug : Bool)
    (lim : Limits T) (ex : Extractors T) (pr : Printers T) (opened good : Bool)
    (filename : List Char) (pos : Nat) (file : Option (List Char)) (m : Mesh T)
    (hdot : rfindDot filename = some pos)
    (hext : HashExt (filename.drop (pos + 1)) = FileExt.kPly) :
    Load ndebug lim ex filename file m = .ok (clearArrays m, -1) ∧
    (clearArrays m).bbox_ = m.bbox_ ∧
    (clearArrays m).bbox_is_computed_ = m.bbox_is_computed_ ∧
    Save pr opened good filename m = (-1, none) := by
  refine ⟨load_not_parsed ndebug lim ex filename pos file m hdot (Or.inr (Or.inl hext)),
    rfl, rfl, ?_⟩
  simp [Save, hdot, hext, SavePLY]

/-- Witness of C16 (amended) on the path `a.ply` and a mesh that holds data. -/
theorem load_save_ply_witness :
    Load false intLimits intExtractors "a.ply".toList (some "ply\n".toList) quadMesh =
      .ok (clearArrays quadMesh, -1) ∧
    (clearArrays quadMesh).bbox_ = quadMesh.bbox_ ∧
    (clearArrays quadMesh).bbox_is_computed_ = quadMesh.bbox_is_computed_ ∧
    Save intPrinters true true "a.ply".toList quadMesh = (-1, none) :=
  load_save_ply false intLimits intExtractors intPrinters true true "a.ply".toList 1
    (some "ply\n".toList) quadMesh (by rfl) (by rfl)

/-- Counterexample to C16 as stated: `Load` of a `ply` path over a mesh with
four vertices and two triangles returns -1 and leaves both arrays empty. -/
theorem load_save_ply_counterexample :
    Load false intLimits intExtractors "a.ply".toList (some "ply\n".toList) quadMesh =
      .ok ({ quadMesh with vertex_ := [], tri_ := [] }, -1) ∧
    quadMesh.vertex_.length = 4 ∧ quadMesh.tri_.length = 2 :=
  ⟨by rfl, by rfl, by rfl⟩

/-! ### What a completed `BuildConnectivity` tells about the indices -/

theorem push_back_at_ok (con con1 : List (List Int)) (idx x : Int)
    (h : push_back_at con idx x = .ok con1) :
    (0 ≤ idx ∧ idx < con.length) ∧ con1.length = con.length := by
  unfold push_back_at at h
  split at h
  · next hr =>
    simp only [Except.ok.injEq] at h
    refine ⟨⟨hr.1, by omega⟩, ?_⟩
    rw [← h]; simp
  · simp at h

theorem connCorner_ok (t : Triangle) (con con1 : List (List Int)) (e : Nat)
    (h : connCorner t con e = .ok con1) :
    (0 ≤ t.idx e ∧ t.idx e < con.length) ∧ con1.length = con.length := by
  unfold connCorner at h
  simp only at h
  cases h1 : push_back_at con (t.idx e) (t.idx ((e + 1) % 3)) with
  | error f => rw [h1] at h; simp at h
  | ok c1 =>
    rw [h1] at h
    simp only at h
    obtain ⟨hr, hl⟩ := push_back_at_ok _ _ _ _ h1
    obtain ⟨-, hl2⟩ := push_back_at_ok _ _ _ _ h
    exact ⟨hr, by rw [hl2, hl]⟩

theorem connTri_ok (t : Triangle) (con con1 : List (List Int)) (h : connTri con t = .ok con1) :
    (∀ e, e < 3 → 0 ≤ t.idx e ∧ t.idx e < con.length) ∧ con1.length = con.length := by
  unfold connTri at h
  simp only [List.foldlM, bind, Except.bind, pure, Except.pure] at h
  cases h0 : connCorner t con 0 with
  | error f => rw [h0] at h; simp at h
  | ok c0 =>
    rw [h0] at h
    simp only at h
    cases h1 : connCorner t c0 1 with
    | error f => rw [h1] at h; simp at h
    | ok c1 =>
      rw [h1] at h
      simp only at h
      cases h2 : connCorner t c1 2 with
      | error f => rw [h2] at h; simp at h
      | ok c2 =>
        rw [h2] at h
        simp only [Except.ok.injEq] at h
        obtain ⟨r0, l0⟩ := connCorner_ok _ _ _ _ h0
        obtain ⟨r1, l1⟩ := connCorner_ok _ _ _ _ h1
        obtain ⟨r2, l2⟩ := connCorner_ok _ _ _ _ h2
        rw [l0] at r1
        rw [l1, l0] at r2
        refine ⟨?_, by rw [← h, l2, l1, l0]⟩
        intro e he
        interval_cases e
        · exact r0
        · exact r1
        · exact r2

theorem foldlM_connTri_ok (tris : List Triangle) :
    ∀ con con1 : List (List Int), tris.foldlM connTri con = .ok con1 →
      (∀ t ∈ tris, ∀ e, e < 3 → 0 ≤ t.idx e ∧ t.idx e < con.length) ∧
      con1.length = con.length := by
  induction tris with
  | nil =>
    intro con con1 h
    simp only [List.foldlM, pure, Except.pure, Except.ok.injEq] at h
    exact ⟨by simp, by rw [h]⟩
  | cons t ts ih =>
    intro con con1 h
    simp only [List.foldlM, bind, Except.bind] at h
    cases h0 : connTri con t with
    | error f => rw [h0] at h; simp at h
    | ok c0 =>
      rw [h0] at h
      simp only at h
      obtain ⟨r0, l0⟩ := connTri_ok _ _ _ h0
      obtain ⟨r1, l1⟩ := ih c0 con1 h
      refine ⟨?_, by rw [l1, l0]⟩
      intro t' ht' e he
      rcases List.mem_cons.mp ht' with rfl | ht'
      · exact r0 e he
      · have := r1 t' ht' e he
        rwa [l0] at this

theorem buildConnectivity_ok {T : Type} (ndebug : Bool) (m m1 : Mesh T)
    (h : BuildConnectivity ndebug m = .ok m1) :
    (∃ con, m1 = { m with vertex_con_ := con } ∧ con.length = m.vertex_.length) ∧
    ∀ t ∈ m.tri_, ∀ e, e < 3 → 0 ≤ t.idx e ∧ t.idx e < (m.vertex_.length : Int) := by
  unfold BuildConnectivity at h
  cases ha : cAssert ndebug (m.vertex_.length != 0 && m.tri_.length != 0) with
  | error f => rw [ha] at h; simp at h
  | ok u =>
    rw [ha] at h
    simp only at h
    cases hf : List.foldlM connTri (List.replicate m.vertex_.length []) m.tri_ with
    | error f => rw [hf] at h; simp at h
    | ok con =>
      rw [hf] at h
      simp only [Except.ok.injEq] at h
      obtain ⟨hr, hl⟩ := foldlM_connTri_ok _ _ _ hf
      simp only [List.length_replicate] at hr hl
      exact ⟨⟨con, h.symm, hl⟩, hr⟩

/-! ### C15 -/

/-- C15 (amended): after a `Load` of an OBJ file that returns 0, the run of
`BuildConnectivity` having completed without an access outside the
connectivity, each of the three indices of every triangle lies in
`[0, vertex_count)`.  The indices need not be distinct. -/
theorem load_obj_indices {T : Type} [LinearOrder T] [Add T] [Mul T] (ndebug : Bool)
    (lim : Limits T) (ex : Extractors T) (filename : List Char) (pos : Nat)
    (file : Option (List Char)) (m m1 : Mesh T)
    (hdot : rfindDot filename = some pos)
    (hext : HashExt (filename.drop (pos + 1)) = FileExt.kObj)
    (h : Load ndebug lim ex filename file m = .ok (m1, 0)) :
    ∀ t ∈ m1.tri_, ∀ e, e < 3 → 0 ≤ t.idx e ∧ t.idx e < (m1.vertex_.length : Int) := by
  cases file with
  | none =>
    rw [load_not_parsed ndebug lim ex filename pos none m hdot (Or.inl rfl)] at h
    simp at h
  | some content =>
    rw [load_obj_some ndebug lim ex filename pos content m hdot hext] at h
    cases hb : BuildConnectivity ndebug (LoadOBJ lim ex (some content) (clearArrays m)).1 with
    | error f => rw [hb] at h; simp [Except.map] at h
    | ok m2 =>
      rw [hb] at h
      simp only [Except.map, Except.ok.injEq, Prod.mk.injEq, and_true] at h
      subst h
      obtain ⟨⟨con, hm2, -⟩, hr⟩ := buildConnectivity_ok ndebug _ _ hb
      rw [hm2]
      exact hr

/-- Witness of C15 (amended): three vertices and the face `f 1 2 3`. -/
theorem load_obj_indices_witness :
    Load false intLimits intExtractors "a.obj".toList
        (some "v 0 0 0\nv 2 0 0\nv 0 4 0\nf 1 2 3\n".toList) quadMesh =
      .ok ({ vertex_ := [⟨0, 0, 0⟩, ⟨2, 0, 0⟩, ⟨0, 4, 0⟩]
             normal_ := []
             tex_coord_ := []
             tri_ := [⟨0, 1, 2⟩]
             vertex_con_ := [[1, 2], [2, 0], [0, 1]]
             bbox_ := ⟨⟨0, 0, 0⟩, ⟨2, 4, 0⟩, ⟨0, 0, 0⟩⟩
             bbox_is_computed_ := true }, 0) ∧
    ∀ t ∈ ([⟨0, 1, 2⟩] : List Triangle), ∀ e, e < 3 → 0 ≤ t.idx e ∧ t.idx e < (3 : Int) :=
  ⟨by rfl,
    load_obj_indices false intLimits intExtractors "a.obj".toList 1
      (some "v 0 0 0\nv 2 0 0\nv 0 4 0\nf 1 2 3\n".toList) quadMesh
      { vertex_ := [⟨0, 0, 0⟩, ⟨2, 0, 0⟩, ⟨0, 4, 0⟩]
        normal_ := []
        tex_coord_ := []
        tri_ := [⟨0, 1, 2⟩]
        vertex_con_ := [[1, 2], [2, 0], [0, 1]]
        bbox_ := ⟨⟨0, 0, 0⟩, ⟨2, 4, 0⟩, ⟨0, 0, 0⟩⟩
        bbox_is_computed_ := true } (by rfl) (by rfl) (by rfl)⟩

/-- Counterexample to C15 as stated: an OBJ file with one vertex and the face
`f 1 1 1` loads with status 0 and leaves the triangle `(0, 0, 0)`, whose
indices are not distinct. -/
theorem load_obj_indices_counterexample :
    Load false intLimits intExtractors "a.obj".toList (some "v 5 5 5\nf 1 1 1\n".toList)
        emptyMesh =
      .ok ({ vertex_ := [⟨5, 5, 5⟩]
             normal_ := []
             tex_coord_ := []
             tri_ := [⟨0, 0, 0⟩]
             vertex_con_ := [[0, 0, 0, 0, 0, 0]]
             bbox_ := ⟨⟨5, 5, 5⟩, ⟨5, 5, 5⟩, ⟨0, 0, 0⟩⟩
             bbox_is_computed_ := true }, 0) ∧
    (⟨0, 0, 0⟩ : Triangle).idx 0 = (⟨0, 0, 0⟩ : Triangle).idx 1 :=
  ⟨by rfl, by rfl⟩

/-! ### The extension of a path -/

theorem head_dropWhile_false {p : Char → Bool} (l : List Char) :
    ∀ c, (l.dropWhile p).head? = some c → p c = false := by
  induction l with
  | nil => simp
  | cons a as ih =>
    intro c
    by_cases ha : p a = true
    · simp only [List.dropWhile, ha]; exact ih c
    · have ha' : p a = false := by simpa using ha
      simp only [List.dropWhile, ha', List.head?_cons, Option.some.injEq]
      rintro rfl; exact ha'

theorem drop_after_dot (pre ext : List Char) (n : Nat) (h : pre.length = n) :
    (pre ++ '.' :: ext).drop (n + 1) = ext := by
  subst h
  induction pre with
  | nil => rfl
  | cons a as ih => simp

/-- What `rfind(".")` returns: `npos` when the path has no dot, otherwise the
position of a dot after which no dot follows. -/
theorem rfindDot_spec (filename : List Char) :
    (rfindDot filename = none ∧ '.' ∉ filename) ∨
    ∃ pos pre ext, rfindDot filename = some pos ∧ filename = pre ++ '.' :: ext ∧
      pre.length = pos ∧ '.' ∉ ext ∧ filename.drop (pos + 1) = ext := by
  have hsplit := List.takeWhile_append_dropWhile (fun c => c != '.') filename.reverse
  have htw : ∀ c ∈ filename.reverse.takeWhile (fun c => c != '.'), c ≠ '.' := by
    intro c hc
    have := List.mem_takeWhile_imp hc
    simpa using this
  cases hdw : filename.reverse.dropWhile (fun c => c != '.') with
  | nil =>
    left
    rw [hdw, List.append_nil] at hsplit
    constructor
    · unfold rfindDot
      simp only [hsplit, List.length_reverse, if_true]
    · intro hmem
      have : '.' ∈ filename.reverse := List.mem_reverse.mpr hmem
      rw [← hsplit] at this
      exact htw '.' this rfl
  | cons d dw =>
    right
    have hd : d = '.' := by
      have := head_dropWhile_false (p := fun c => c != '.') filename.reverse d (by rw [hdw]; rfl)
      simpa using this
    subst hd
    rw [hdw] at hsplit
    have hfile : filename =
        dw.reverse ++ '.' :: (filename.reverse.takeWhile (fun c => c != '.')).reverse := by
      have := congrArg List.reverse hsplit
      simp only [List.reverse_append, List.reverse_cons, List.reverse_reverse,
        List.append_assoc, List.singleton_append] at this
      exact this.symm
    have hlen : filename.length =
        dw.length + 1 + (filename.reverse.takeWhile (fun c => c != '.')).length := by
      have := congrArg List.length hfile
      simp only [List.length_append, List.length_cons, List.length_reverse] at this
      omega
    have hpos : rfindDot filename = some dw.length := by
      unfold rfindDot
      simp only
      rw [if_neg (by omega)]
      congr 1
      omega
    refine ⟨dw.length, dw.reverse, (filename.reverse.takeWhile (fun c => c != '.')).reverse,
      hpos, hfile, by simp, ?_, ?_⟩
    · intro hmem
      exact htw '.' (List.mem_reverse.mp hmem) rfl
    · have h1 := congrArg (List.drop (dw.length + 1)) hfile
      rw [h1]
      exact drop_after_dot dw.reverse _ dw.length (by simp)

theorem hashExt_undef (ext : List Char) :
    HashExt ext = FileExt.kUndef ↔
      ext ≠ "obj".toList ∧ ext ≠ "ply".toList ∧ ext ≠ "tri".toList := by
  unfold HashExt
  by_cases h1 : ext = ['o', 'b', 'j']
  · simp [h1]
  · by_cases h2 : ext = ['p', 'l', 'y']
    · simp [h2]
    · by_cases h3 : ext = ['t', 'r', 'i']
      · simp [h3]
      · simp [h1, h2, h3]

/-! ### C18 -/

/-- C18 (amended): `Load` returns only 0 or -1.  It dispatches on the text
after the last dot of the path, compared exactly with `obj`, `ply` and `tri`.
For a path without a dot it returns -1 and touches nothing; for an extension
that is none of the three it returns -1 having cleared the arrays, with no
parser, connectivity or bounding-box pass run.  For an `obj` path it returns -1
when the file cannot be opened; when the file opens, the status is 0 and `Load`
returns it exactly when `BuildConnectivity` completes on the parsed arrays. -/
theorem load_dispatch {T : Type} [LinearOrder T] [Add T] [Mul T] (ndebug : Bool)
    (lim : Limits T) (ex : Extractors T) (filename : List Char) (file : Option (List Char))
    (m : Mesh T) :
    (∀ m1 err, Load ndebug lim ex filename file m = .ok (m1, err) → err = 0 ∨ err = -1) ∧
    ((rfindDot filename = none ∧ '.' ∉ filename) ∨
      ∃ pos pre ext, rfindDot filename = some pos ∧ filename = pre ++ '.' :: ext ∧
        pre.length = pos ∧ '.' ∉ ext ∧ filename.drop (pos + 1) = ext) ∧
    (∀ ext, HashExt ext = FileExt.kUndef ↔
      ext ≠ "obj".toList ∧ ext ≠ "ply".toList ∧ ext ≠ "tri".toList) ∧
    (rfindDot filename = none → Load ndebug lim ex filename file m = .ok (m, -1)) ∧
    (∀ pos, rfindDot filename = some pos →
      HashExt (filename.drop (pos + 1)) = FileExt.kUndef →
      Load ndebug lim ex filename file m = .ok (clearArrays m, -1)) ∧
    (∀ pos, rfindDot filename = some pos →
      HashExt (filename.drop (pos + 1)) = FileExt.kObj →
      (file = none → Load ndebug lim ex filename file m = .ok (clearArrays m, -1)) ∧
      (∀ content, file = some content →
        Load ndebug lim ex filename file m =
          (BuildConnectivity ndebug (LoadOBJ lim ex (some content) (clearArrays m)).1).map
            fun m2 => (m2, 0))) := by
  have hnone : rfindDot filename = none → Load ndebug lim ex filename file m = .ok (m, -1) := by
    intro hdot; unfold Load; simp only [hdot]
  refine ⟨?_, rfindDot_spec filename, hashExt_undef, hnone, ?_, ?_⟩
  · intro m1 err h
    cases hdot : rfindDot filename with
    | none =>
      rw [hnone hdot] at h
      simp only [Except.ok.injEq, Prod.mk.injEq] at h
      exact Or.inr h.2.symm
    | some pos =>
      by_cases hnp : file = none ∨ HashExt (filename.drop (pos + 1)) = FileExt.kPly ∨
          HashExt (filename.drop (pos + 1)) = FileExt.kUndef
      · rw [load_not_parsed ndebug lim ex filename pos file m hdot hnp] at h
        simp only [Except.ok.injEq, Prod.mk.injEq] at h
        exact Or.inr h.2.symm
      · obtain ⟨content, rfl⟩ : ∃ content, file = some content := by
          cases file with
          | none => exact absurd (Or.inl rfl) hnp
          | some c => exact ⟨c, rfl⟩
        cases hext : HashExt (filename.drop (pos + 1)) with
        | kUndef => exact absurd (Or.inr (Or.inr hext)) hnp
        | kPly => exact absurd (Or.inr (Or.inl hext)) hnp
        | kObj =>
          rw [load_obj_some ndebug lim ex filename pos content m hdot hext] at h
          cases hb : BuildConnectivity ndebug (LoadOBJ lim ex (some content) (clearArrays m)).1 with
          | error f => rw [hb] at h; simp [Except.map] at h
          | ok m2 =>
            rw [hb] at h
            simp only [Except.map, Except.ok.injEq, Prod.mk.injEq] at h
            exact Or.inl h.2.symm
        | kTri =>
          rw [load_tri_eq ndebug lim ex filename pos _ m hdot hext] at h
          cases hl : LoadTri ndebug ex.tri0 (some content) (clearArrays m) with
          | error f => rw [hl] at h; simp at h
          | ok q =>
            obtain ⟨m2, err2⟩ := q
            rw [hl] at h
            simp only [Except.ok.injEq, Prod.mk.injEq] at h
            obtain ⟨tris, ok, -, -, herr⟩ := loadTri_some ndebug ex.tri0 content _ m2 err2 hl
            rw [← h.2, herr]
            cases ok <;> simp
  · intro pos hdot hext
    exact load_not_parsed ndebug lim ex filename pos file m hdot (Or.inr (Or.inr hext))
  · intro pos hdot hext
    refine ⟨?_, ?_⟩
    · intro hf
      exact load_not_parsed ndebug lim ex filename pos file m hdot (Or.inl hf)
    · intro content hf
      subst hf
      exact load_obj_some ndebug lim ex filename pos content m hdot hext

/-- Witness of C18 (amended): an upper-case extension is unsupported, and an
`obj` file with three vertices and one face loads with status 0. -/
theorem load_dispatch_witness :
    Load false intLimits intExtractors "a.OBJ".toList (some "v 0 0 0\n".toList) quadMesh =
      .ok (clearArrays quadMesh, -1) ∧
    Load false intLimits intExtractors "dir.d/a.obj".toList
        (some "v 0 0 0\nv 2 0 0\nv 0 4 0\nf 1 2 3\n".toList) quadMesh =
      (BuildConnectivity false (LoadOBJ intLimits intExtractors
        (some "v 0 0 0\nv 2 0 0\nv 0 4 0\nf 1 2 3\n".toList) (clearArrays quadMesh)).1).map
        fun m2 => (m2, 0) :=
  ⟨(load_dispatch false intLimits intExtractors "a.OBJ".toList (some "v 0 0 0\n".toList)
      quadMesh).2.2.2.2.1 1 (by rfl) (by rfl),
   ((load_dispatch false intLimits intExtractors "dir.d/a.obj".toList
      (some "v 0 0 0\nv 2 0 0\nv 0 4 0\nf 1 2 3\n".toList) quadMesh).2.2.2.2.2 7 (by rfl)
      (by rfl)).2 _ rfl⟩

/-- Counterexample to C18 as stated: an `obj` file that opens, with one vertex
and a face that names vertices 2 and 3; `Load` does not return 0 but runs
outside the connectivity array in `BuildConnectivity`. -/
theorem load_dispatch_counterexample :
    (LoadOBJ intLimits intExtractors (some "v 0 0 0\nf 1 2 3\n".toList)
      (clearArrays emptyMesh)).2 = 0 ∧
    Load true intLimits intExtractors "a.obj".toList (some "v 0 0 0\nf 1 2 3\n".toList)
      emptyMesh = .error .outOfBounds ∧
    Load false intLimits intExtractors "a.obj".toList (some "v 0 0 0\nf 1 2 3\n".toList)
      emptyMesh = .error .outOfBounds :=
  ⟨by rfl, by rfl, by rfl⟩

/-! ### The first matching proxy -/

theorem createByExtension_none {Image : Type} (proxies : List (ImageProxy Image))
    (extension : List Char) (h : ∀ p ∈ proxies, p.Extension ≠ extension) :
    ImageFactory.CreateByExtension proxies extension = (none, []) := by
  induction proxies with
  | nil => rfl
  | cons p ps ih =>
    simp only [List.mem_cons, forall_eq_or_imp] at h
    simp only [ImageFactory.CreateByExtension, h.1, if_false]
    exact ih h.2

theorem createByExtension_first {Image : Type} (pre post : List (ImageProxy Image))
    (p : ImageProxy Image) (extension : List Char)
    (hpre : ∀ q ∈ pre, q.Extension ≠ extension) (hp : p.Extension = extension) :
    ImageFactory.CreateByExtension (pre ++ p :: post) extension = (p.Create, [p.addr]) := by
  induction pre with
  | nil => simp [ImageFactory.CreateByExtension, hp]
  | cons q qs ih =>
    simp only [List.mem_cons, forall_eq_or_imp] at hpre
    simp only [List.cons_append, ImageFactory.CreateByExtension, hpre.1, if_false]
    exact ih hpre.2

theorem first_match {Image : Type} (proxies : List (ImageProxy Image)) (extension : List Char)
    (h : ∃ p ∈ proxies, p.Extension = extension) :
    ∃ pre p post, proxies = pre ++ p :: post ∧ (∀ q ∈ pre, q.Extension ≠ extension) ∧
      p.Extension = extension := by
  induction proxies with
  | nil => simp at h
  | cons a as ih =>
    by_cases ha : a.Extension = extension
    · exact ⟨[], a, as, rfl, by simp, ha⟩
    · have h2 : ∃ p ∈ as, p.Extension = extension := by
        obtain ⟨p, hp, he⟩ := h
        rcases List.mem_cons.mp hp with rfl | hp
        · exact absurd he ha
        · exact ⟨p, hp, he⟩
      obtain ⟨pre, p, post, hsplit, hpre, hp⟩ := ih h2
      refine ⟨a :: pre, p, post, by rw [hsplit]; rfl, ?_, hp⟩
      intro q hq
      rcases List.mem_cons.mp hq with rfl | hq
      · exact ha
      · exact hpre q hq

/-! ### C19 -/

/-- C19 (amended): `CreateByExtension` returns `nullptr` without calling any
`Create()` when no registered proxy has the extension; otherwise it returns what
`Create()` of the first proxy with that extension, in iteration order, returns,
and calls `Create()` on that proxy only.  So it returns `nullptr` exactly when
no proxy matches or the `Create()` of that first matching proxy returns
`nullptr`; when no `Create()` returns `nullptr`, exactly when no proxy
matches.  A proxy that `Register` has just added is registered once. -/
theorem createByExtension_spec {Image : Type} (proxies : List (ImageProxy Image))
    (extension : List Char) :
    ((∀ p ∈ proxies, p.Extension ≠ extension) →
      ImageFactory.CreateByExtension proxies extension = (none, [])) ∧
    ((∃ p ∈ proxies, p.Extension = extension) →
      ∃ pre p post, proxies = pre ++ p :: post ∧ (∀ q ∈ pre, q.Extension ≠ extension) ∧
        p.Extension = extension ∧
        ImageFactory.CreateByExtension proxies extension = (p.Create, [p.addr])) ∧
    ((ImageFactory.CreateByExtension proxies extension).1 = none ↔
      (∀ p ∈ proxies, p.Extension ≠ extension) ∨
      ∃ pre p post, proxies = pre ++ p :: post ∧ (∀ q ∈ pre, q.Extension ≠ extension) ∧
        p.Extension = extension ∧ p.Create = none) ∧
    ((∀ p ∈ proxies, p.Create ≠ none) →
      ((ImageFactory.CreateByExtension proxies extension).1 = none ↔
        ∀ p ∈ proxies, p.Extension ≠ extension)) ∧
    (∀ (place : Nat) (object : ImageProxy Image) (p : ImageProxy Image),
      p ∈ ImageFactory.Register place proxies object ↔
        p ∈ proxies ∨ (p = object ∧ ∀ q ∈ proxies, q.addr ≠ object.addr)) := by
  have hsome : (∃ p ∈ proxies, p.Extension = extension) →
      ∃ pre p post, proxies = pre ++ p :: post ∧ (∀ q ∈ pre, q.Extension ≠ extension) ∧
        p.Extension = extension ∧
        ImageFactory.CreateByExtension proxies extension = (p.Create, [p.addr]) := by
    intro h
    obtain ⟨pre, p, post, hsplit, hpre, hp⟩ := first_match proxies extension h
    exact ⟨pre, p, post, hsplit, hpre, hp, by
      rw [hsplit]; exact createByExtension_first pre post p extension hpre hp⟩
  have hiff : (ImageFactory.CreateByExtension proxies extension).1 = none ↔
      (∀ p ∈ proxies, p.Extension ≠ extension) ∨
      ∃ pre p post, proxies = pre ++ p :: post ∧ (∀ q ∈ pre, q.Extension ≠ extension) ∧
        p.Extension = extension ∧ p.Create = none := by
    constructor
    · intro h
      by_cases hm : ∃ p ∈ proxies, p.Extension = extension
      · obtain ⟨pre, p, post, hsplit, hpre, hp, hc⟩ := hsome hm
        rw [hc] at h
        exact Or.inr ⟨pre, p, post, hsplit, hpre, hp, h⟩
      · left
        intro p hp he
        exact hm ⟨p, hp, he⟩
    · rintro (h | ⟨pre, p, post, hsplit, hpre, hp, hc⟩)
      · rw [createByExtension_none proxies extension h]
      · rw [hsplit, createByExtension_first pre post p extension hpre hp]
        exact hc
  refine ⟨createByExtension_none proxies extension, hsome, hiff, ?_, ?_⟩
  · intro hcreate
    rw [hiff]
    constructor
    · rintro (h | ⟨pre, p, post, hsplit, -, -, hc⟩)
      · exact h
      · exact absurd hc (hcreate p (by rw [hsplit]; simp))
    · exact Or.inl
  · intro place object p
    unfold ImageFactory.Register
    by_cases hany : proxies.any (fun p => decide (p.addr = object.addr)) = true
    · rw [if_pos hany]
      constructor
      · exact Or.inl
      · rintro (h | ⟨-, h⟩)
        · exact h
        · simp only [List.any_eq_true, decide_eq_true_eq] at hany
          obtain ⟨q, hq, he⟩ := hany
          exact absurd he (h q hq)
    · rw [if_neg hany]
      simp only [List.any_eq_true, decide_eq_true_eq, not_exists, not_and] at hany
      have hmem : p ∈ proxies ↔ p ∈ proxies.take place ∨ p ∈ proxies.drop place := by
        conv_lhs => rw [← List.take_append_drop place proxies]
        exact List.mem_append
      simp only [List.mem_append, List.mem_cons, hmem]
      constructor
      · rintro (h | rfl | h)
        · exact Or.inl (Or.inl h)
        · exact Or.inr ⟨rfl, hany⟩
        · exact Or.inl (Or.inr h)
      · rintro ((h | h) | ⟨rfl, -⟩)
        · exact Or.inl h
        · exact Or.inr (Or.inr h)
        · exact Or.inr (Or.inl rfl)

/-- Witness of C19 (amended): of two proxies for `jpg` the first one in
iteration order is asked, and only it; an unknown extension gives `nullptr`. -/
theorem createByExtension_spec_witness :
    ImageFactory.CreateByExtension someProxies "jpg".toList = (some 200, [20]) ∧
    ImageFactory.CreateByExtension someProxies "JPG".toList = (none, []) ∧
    ImageFactory.Register 0 someProxies ⟨20, "jpg".toList, some 200⟩ = someProxies ∧
    ((ImageFactory.CreateByExtension someProxies "bmp".toList).1 = none ↔
      ∀ p ∈ someProxies, p.Extension ≠ "bmp".toList) :=
  ⟨by rfl, by rfl, by rfl,
   (createByExtension_spec someProxies "bmp".toList).2.2.2.1 (by decide)⟩

/-- Counterexample to C19 as stated: a registered proxy has the extension, and
`CreateByExtension` returns `nullptr` all the same, since the `Create()` of
that proxy does. -/
theorem createByExtension_spec_counterexample :
    ImageFactory.Register 0 [] nullProxy = [nullProxy] ∧
    (∃ p ∈ [nullProxy], p.Extension = "jpg".toList) ∧
    ImageFactory.CreateByExtension [nullProxy] "jpg".toList = (none, [1]) :=
  ⟨by rfl, ⟨nullProxy, by simp, by rfl⟩, by rfl⟩

/-! ### The box that `LoadOBJ` accumulates -/

theorem objLine_bbox {T : Type} [LinearOrder T] (ex : Extractors T) (b0 : BBox T)
    (st : ObjState T) (line : List Char)
    (h : st.mesh.bbox_ = st.mesh.vertex_.foldl bboxStep b0) :
    (objLine ex st line).mesh.bbox_ = (objLine ex st line).mesh.vertex_.foldl bboxStep b0 := by
  unfold objLine
  split
  · exact h
  · simp only
    split
    · simp only [List.foldl_append, List.foldl_cons, List.foldl_nil, h]
    · split
      · exact h
      · split
        · exact h
        · split
          · exact h
          · exact h

theorem foldl_objLine_bbox {T : Type} [LinearOrder T] (ex : Extractors T) (b0 : BBox T)
    (lines : List (List Char)) (st : ObjState T)
    (h : st.mesh.bbox_ = st.mesh.vertex_.foldl bboxStep b0) :
    (lines.foldl (objLine ex) st).mesh.bbox_ =
      (lines.foldl (objLine ex) st).mesh.vertex_.foldl bboxStep b0 := by
  induction lines generalizing st with
  | nil => exact h
  | cons l ls ih => exact ih _ (objLine_bbox ex b0 st l h)

theorem loadOBJ_box {T : Type} [LinearOrder T] [Add T] [Mul T] (lim : Limits T)
    (ex : Extractors T) (content : List Char) (m : Mesh T) (hv : m.vertex_ = []) :
    ComputeBoundingBox lim (LoadOBJ lim ex (some content) m).1 =
      (LoadOBJ lim ex (some content) m).1 := by
  have h := foldl_objLine_bbox ex (bboxInit lim m.bbox_) (getlineAll [] content)
    (objInit lim ex m) (by simp [objInit, hv])
  simp only [LoadOBJ, ComputeBoundingBox]
  have hb : ∀ b : BBox T, bboxInit lim (bboxCenter lim b) =
      { bboxInit lim m.bbox_ with center_ := (bboxCenter lim b).center_ } := fun _ => rfl
  rw [hb, foldl_bboxStep_center, ← h]
  rfl

theorem buildConnectivity_box {T : Type} [LinearOrder T] [Add T] [Mul T] (ndebug : Bool)
    (lim : Limits T) (m m1 : Mesh T) (h : BuildConnectivity ndebug m = .ok m1)
    (hb : ComputeBoundingBox lim m = m) : ComputeBoundingBox lim m1 = m1 := by
  obtain ⟨⟨con, rfl, -⟩, -⟩ := buildConnectivity_ok ndebug m m1 h
  have h1 : ComputeBoundingBox lim { m with vertex_con_ := con } =
      { ComputeBoundingBox lim m with vertex_con_ := con } := rfl
  rw [h1, hb]

/-! ### C20 -/

/-- C20: the box that `LoadOBJ` accumulates while it reads is the box of the
separate pass.  On the cleared arrays that `Load` hands to it, for every text of
a file that opens, `LoadOBJ` returns 0 and leaves a mesh that
`ComputeBoundingBox` maps to itself: min, max and center are those the pass
computes from the vertex array just read, and `bbox_is_computed_` is set.  For
an `obj` path, `Load` is then the connectivity builder on that mesh with no
second pass, and a mesh it returns with status 0 carries that same box. -/
theorem loadOBJ_bbox_inline {T : Type} [LinearOrder T] [Add T] [Mul T] (ndebug : Bool)
    (lim : Limits T) (ex : Extractors T) (content : List Char) (m : Mesh T)
    (hv : m.vertex_ = []) :
    (LoadOBJ lim ex (some content) m).2 = 0 ∧
    (LoadOBJ lim ex (some content) m).1.bbox_ =
      (ComputeBoundingBox lim (LoadOBJ lim ex (some content) m).1).bbox_ ∧
    (LoadOBJ lim ex (some content) m).1.bbox_is_computed_ = true ∧
    ComputeBoundingBox lim (LoadOBJ lim ex (some content) m).1 =
      (LoadOBJ lim ex (some content) m).1 ∧
    ∀ (filename : List Char) (pos : Nat) (m0 : Mesh T), rfindDot filename = some pos →
      HashExt (filename.drop (pos + 1)) = FileExt.kObj →
      Load ndebug lim ex filename (some content) m0 =
        (BuildConnectivity ndebug (LoadOBJ lim ex (some content) (clearArrays m0)).1).map
          (fun m2 => (m2, 0)) ∧
      ∀ m1, Load ndebug lim ex filename (some content) m0 = .ok (m1, 0) →
        m1.vertex_ = (LoadOBJ lim ex (some content) (clearArrays m0)).1.vertex_ ∧
        m1.bbox_ = (LoadOBJ lim ex (some content) (clearArrays m0)).1.bbox_ ∧
        m1.bbox_ = (ComputeBoundingBox lim m1).bbox_ ∧
        m1.bbox_is_computed_ = true := by
  have hbox := loadOBJ_box lim ex content m hv
  refine ⟨rfl, by rw [hbox], rfl, hbox, ?_⟩
  intro filename pos m0 hdot hext
  have hl := load_obj_some ndebug lim ex filename pos content m0 hdot hext
  refine ⟨hl, ?_⟩
  intro m1 h
  rw [hl] at h
  cases hb : BuildConnectivity ndebug (LoadOBJ lim ex (some content) (clearArrays m0)).1 with
  | error f => rw [hb] at h; simp [Except.map] at h
  | ok m2 =>
    rw [hb] at h
    simp only [Except.map, Except.ok.injEq, Prod.mk.injEq, and_true] at h
    subst h
    have hfix := buildConnectivity_box ndebug lim _ m2 hb
      (loadOBJ_box lim ex content (clearArrays m0) rfl)
    obtain ⟨⟨con, rfl, -⟩, -⟩ := buildConnectivity_ok ndebug _ m2 hb
    exact ⟨rfl, rfl, by rw [hfix], rfl⟩

/-- Witness of C20: three vertex lines, a blank line that repeats the last
vertex, and a face; the box read inline is min (-1, 0, -3), max (2, 4, 5). -/
theorem loadOBJ_bbox_inline_witness :
    (clearArrays quadMesh).vertex_ = [] ∧
    (LoadOBJ intLimits intExtractors (some "v 2 0 5\nv -1 4 0\nv 0 1 -3\n \nf 1 2 3\n".toList)
      (clearArrays quadMesh)).1.bbox_ = ⟨⟨-1, 0, -3⟩, ⟨2, 4, 5⟩, ⟨0, 0, 0⟩⟩ ∧
    (LoadOBJ intLimits intExtractors (some "v 2 0 5\nv -1 4 0\nv 0 1 -3\n \nf 1 2 3\n".toList)
      (clearArrays quadMesh)).1.bbox_ =
      (ComputeBoundingBox intLimits (LoadOBJ intLimits intExtractors
        (some "v 2 0 5\nv -1 4 0\nv 0 1 -3\n \nf 1 2 3\n".toList) (clearArrays quadMesh)).1).bbox_ :=
  ⟨rfl, by rfl,
   (loadOBJ_bbox_inline false intLimits intExtractors
     "v 2 0 5\nv -1 4 0\nv 0 1 -3\n \nf 1 2 3\n".toList (clearArrays quadMesh) rfl).2.1⟩

/-! ### What `LoadTri` leaves alone -/

theorem loadTri_frame {T : Type} (ndebug : Bool) (tri0 : Triangle) (file : Option (List Char))
    (m m1 : Mesh T) (err : Int) (h : LoadTri ndebug tri0 file m = .ok (m1, err)) :
    ∃ tris, m1 = { m with tri_ := tris } := by
  cases file with
  | none =>
    simp only [LoadTri, Except.ok.injEq, Prod.mk.injEq] at h
    exact ⟨m.tri_, h.1.symm⟩
  | some content =>
    obtain ⟨tris, ok, -, hm, -⟩ := loadTri_some ndebug tri0 content m m1 err h
    exact ⟨tris, hm⟩

/-! ### C21 -/

/-- C21 (amended): a `Load` of a `tri` file that returns 0 leaves in the
triangle array the faces that the reader parsed from the file, starting from an
empty array, and does not run the connectivity builder: the connectivity is
empty.  The vertex, normal and texture-coordinate arrays are empty as well,
whatever they held before, since `Load` clears them first.  The reader
`LoadTri` itself changes the triangle array only. -/
theorem load_tri_frame {T : Type} [LinearOrder T] [Add T] [Mul T] (ndebug : Bool)
    (lim : Limits T) (ex : Extractors T) (filename : List Char) (pos : Nat)
    (file : Option (List Char)) (m m1 : Mesh T)
    (hdot : rfindDot filename = some pos)
    (hext : HashExt (filename.drop (pos + 1)) = FileExt.kTri)
    (h : Load ndebug lim ex filename file m = .ok (m1, 0)) :
    (∃ content tris, file = some content ∧
      triLoop ndebug ex.tri0 (fgetsAll LINE_SIZE [] content) [] = .ok (tris, true) ∧
      m1.tri_ = tris) ∧
    m1.vertex_con_ = [] ∧ m1.vertex_ = [] ∧ m1.normal_ = [] ∧ m1.tex_coord_ = [] ∧
    ∀ (m0 m2 : Mesh T) (err : Int), LoadTri ndebug ex.tri0 file m0 = .ok (m2, err) →
      m2.vertex_ = m0.vertex_ ∧ m2.normal_ = m0.normal_ ∧ m2.tex_coord_ = m0.tex_coord_ ∧
      m2.vertex_con_ = m0.vertex_con_ ∧ m2.bbox_ = m0.bbox_ ∧
      m2.bbox_is_computed_ = m0.bbox_is_computed_ := by
  have hmain : (∃ content tris, file = some content ∧
      triLoop ndebug ex.tri0 (fgetsAll LINE_SIZE [] content) [] = .ok (tris, true) ∧
      m1.tri_ = tris) ∧
      m1.vertex_con_ = [] ∧ m1.vertex_ = [] ∧ m1.normal_ = [] ∧ m1.tex_coord_ = [] := by
    rw [load_tri_eq ndebug lim ex filename pos file m hdot hext] at h
    cases hl : LoadTri ndebug ex.tri0 file (clearArrays m) with
    | error f => rw [hl] at h; simp at h
    | ok q =>
      obtain ⟨m2, err2⟩ := q
      rw [hl] at h
      simp only [Except.ok.injEq, Prod.mk.injEq] at h
      obtain ⟨hm, herr⟩ := h
      subst herr
      cases file with
      | none => simp [LoadTri] at hl
      | some content =>
        obtain ⟨tris, ok, hloop, hm2, hok⟩ := loadTri_some ndebug ex.tri0 content _ m2 0 hl
        have hok2 : ok = true := by
          cases ok with
          | true => rfl
          | false => simp at hok
        subst hok2
        subst hm2
        have hparts : ∀ x : Mesh T,
            (x = ComputeBoundingBox lim { clearArrays m with tri_ := tris } ∨
              x = { clearArrays m with tri_ := tris }) →
            x.tri_ = tris ∧ x.vertex_con_ = [] ∧ x.vertex_ = [] ∧ x.normal_ = [] ∧
              x.tex_coord_ = [] := by
          rintro x (rfl | rfl) <;> exact ⟨rfl, rfl, rfl, rfl, rfl⟩
        have hx := hparts m1 (by
          rw [← hm]
          split
          · exact Or.inl rfl
          · exact Or.inr rfl)
        exact ⟨⟨content, tris, rfl, hloop, hx.1⟩, hx.2⟩
  refine ⟨hmain.1, hmain.2.1, hmain.2.2.1, hmain.2.2.2.1, hmain.2.2.2.2, ?_⟩
  intro m0 m2 err hl
  obtain ⟨tris, rfl⟩ := loadTri_frame ndebug ex.tri0 file m0 m2 err hl
  exact ⟨rfl, rfl, rfl, rfl, rfl, rfl⟩

/-- Witness of C21 (amended): the path `a.tri`, a file with two faces, over a
mesh that holds four vertices and two triangles. -/
theorem load_tri_frame_witness :
    Load false intLimits intExtractors "a.tri".toList (some "f 1 2 3\nf 2 4 3\n".toList)
      quadMesh = .ok (ComputeBoundingBox intLimits
        { emptyMesh with tri_ := [⟨0, 1, 2⟩, ⟨1, 3, 2⟩] }, 0) ∧
    (ComputeBoundingBox intLimits
      { emptyMesh with tri_ := [⟨0, 1, 2⟩, ⟨1, 3, 2⟩] }).vertex_con_ = [] ∧
    (ComputeBoundingBox intLimits
      { emptyMesh with tri_ := [⟨0, 1, 2⟩, ⟨1, 3, 2⟩] }).vertex_ = [] :=
  ⟨by rfl,
   (load_tri_frame false intLimits intExtractors "a.tri".toList 1
     (some "f 1 2 3\nf 2 4 3\n".toList) quadMesh _ (by rfl) (by rfl) (by rfl)).2.1,
   (load_tri_frame false intLimits intExtractors "a.tri".toList 1
     (some "f 1 2 3\nf 2 4 3\n".toList) quadMesh _ (by rfl) (by rfl) (by rfl)).2.2.1⟩

/-- Counterexample to C21 as stated: the mesh holds four vertices, and after a
`Load` of a `tri` file that returns 0 the vertex array is empty. -/
theorem load_tri_frame_counterexample :
    quadMesh.vertex_ = [⟨0, 0, 0⟩, ⟨1, 0, 0⟩, ⟨0, 1, 0⟩, ⟨1, 1, 0⟩] ∧
    (Load false intLimits intExtractors "a.tri".toList (some "f 1 2 3\n".toList) quadMesh).map
      (fun r => (r.1.vertex_, r.1.tri_, r.2)) = .ok ([], [⟨0, 1, 2⟩], 0) :=
  ⟨by rfl, by rfl⟩

/-! ### The accesses of `ComputeVertexNormal` -/

theorem vecAt_ok {α : Type} (v : List α) (i : Int) (h0 : 0 ≤ i) (h1 : i < (v.length : Int)) :
    ∃ a, vecAt v i = .ok a := by
  have hlt : i.toNat < v.length := by omega
  refine ⟨v[i.toNat], ?_⟩
  simp [vecAt, h0, List.getElem?_eq_getElem hlt]

theorem normalLoop_ok {T : Type} (ops : NormalOps T) (vertex_ : List (Vector3 T))
    (A : Vector3 T) :
    ∀ (conn : List Int) (w : Vector3 T), conn.length % 2 = 0 →
      (∀ x ∈ conn, 0 ≤ x ∧ x < (vertex_.length : Int)) →
      ∃ w1, normalLoop ops vertex_ A conn w = .ok w1
  | [], w, _, _ => ⟨w, rfl⟩
  | [b], _, h, _ => by simp at h
  | b :: c :: rest, w, h, hr => by
    obtain ⟨B, hB⟩ := vecAt_ok vertex_ b (hr b (by simp)).1 (hr b (by simp)).2
    obtain ⟨C, hC⟩ := vecAt_ok vertex_ c (hr c (by simp)).1 (hr c (by simp)).2
    have hlen : rest.length % 2 = 0 := by
      simp only [List.length_cons] at h
      omega
    obtain ⟨w1, hw⟩ := normalLoop_ok ops vertex_ A rest
      (ops.addAssign w (ops.scale (ops.normalize (ops.cross (ops.sub B A) (ops.sub C A)))
        (ops.acos (ops.dot (ops.normalize (ops.sub B A)) (ops.normalize (ops.sub C A))))))
      hlen (fun x hx => hr x (by simp [hx]))
    exact ⟨w1, by simp only [normalLoop, hB, hC]; exact hw⟩

theorem resize_length {α : Type} (v : List α) (n : Nat) (a : α) : (resize v n a).length = n := by
  simp only [resize, List.length_append, List.length_take, List.length_replicate]
  omega

theorem normalAt_ok {T : Type} (ops : NormalOps T) (m : Mesh T) (normal_ : List (Vector3 T))
    (v : Nat) (hv : v < m.vertex_.length) (hn : normal_.length = m.vertex_.length)
    (hlen : m.vertex_con_.length = m.vertex_.length)
    (hlists : ∀ l ∈ m.vertex_con_, l.length % 2 = 0 ∧
      ∀ x ∈ l, 0 ≤ x ∧ x < (m.vertex_.length : Int)) :
    ∃ n1, normalAt ops m normal_ v = .ok n1 ∧ n1.length = m.vertex_.length := by
  have hvc : v < m.vertex_con_.length := by omega
  have hc : vecAt m.vertex_con_ (v : Int) = .ok m.vertex_con_[v] := by
    simp [vecAt, List.getElem?_eq_getElem hvc]
  have hA : vecAt m.vertex_ (v : Int) = .ok m.vertex_[v] := by
    simp [vecAt, List.getElem?_eq_getElem hv]
  have hl := hlists m.vertex_con_[v] (List.getElem_mem _)
  obtain ⟨w1, hw⟩ := normalLoop_ok ops m.vertex_ m.vertex_[v] _ ops.normal0 hl.1 hl.2
  refine ⟨normal_.set v (ops.normalize w1), ?_, by simp [hn]⟩
  simp only [normalAt, hc, hA, hw]
  rw [if_pos (by omega)]

theorem foldlM_normalAt_ok {T : Type} (ops : NormalOps T) (m : Mesh T)
    (hlen : m.vertex_con_.length = m.vertex_.length)
    (hlists : ∀ l ∈ m.vertex_con_, l.length % 2 = 0 ∧
      ∀ x ∈ l, 0 ≤ x ∧ x < (m.vertex_.length : Int))
    (vs : List Nat) (hvs : ∀ v ∈ vs, v < m.vertex_.length) (normal_ : List (Vector3 T))
    (hn : normal_.length = m.vertex_.length) :
    ∃ n1, vs.foldlM (normalAt ops m) normal_ = .ok n1 ∧ n1.length = m.vertex_.length := by
  induction vs generalizing normal_ with
  | nil => exact ⟨normal_, rfl, hn⟩
  | cons v vs ih =>
    obtain ⟨n1, h1, hl1⟩ := normalAt_ok ops m normal_ v (hvs v (by simp)) hn hlen hlists
    obtain ⟨n2, h2, hl2⟩ := ih (fun x hx => hvs x (by simp [hx])) n1 hl1
    refine ⟨n2, ?_, hl2⟩
    rw [List.foldlM_cons, h1]
    exact h2

theorem computeVertexNormal_ok {T : Type} (ndebug : Bool) (ops : NormalOps T) (m : Mesh T)
    (hne : ndebug = true ∨ m.vertex_con_ ≠ [])
    (hlen : m.vertex_con_.length = m.vertex_.length)
    (hlists : ∀ l ∈ m.vertex_con_, l.length % 2 = 0 ∧
      ∀ x ∈ l, 0 ≤ x ∧ x < (m.vertex_.length : Int)) :
    ∃ normal_, ComputeVertexNormal ndebug ops m = .ok { m with normal_ := normal_ } ∧
      normal_.length = m.vertex_.length := by
  obtain ⟨n1, h1, hl1⟩ := foldlM_normalAt_ok ops m hlen hlists (List.range m.vertex_.length)
    (fun v hv => List.mem_range.mp hv) (resize m.normal_ m.vertex_.length ops.normal0)
    (resize_length _ _ _)
  have ha : cAssert ndebug (decide (m.vertex_con_.length > 0)) = .ok () := by
    rcases hne with h | h
    · simp [cAssert, h]
    · have : 0 < m.vertex_con_.length := List.length_pos.mpr h
      simp [cAssert, this]
  exact ⟨n1, by simp only [ComputeVertexNormal, ha, h1], hl1⟩

/-! ### The connectivity after a load of an OBJ file -/

theorem cornerPairs_mem (v : Int) (t : Triangle) (x : Int) (h : x ∈ cornerPairs v t) :
    ∃ e, e < 3 ∧ x = t.idx e := by
  simp only [cornerPairs, List.mem_flatMap] at h
  obtain ⟨e, he, hx⟩ := h
  split at hx
  · simp only [List.mem_cons, List.mem_singleton, List.not_mem_nil, or_false] at hx
    rcases hx with rfl | rfl
    · exact ⟨(e + 1) % 3, Nat.mod_lt _ (by decide), rfl⟩
    · exact ⟨(e + 2) % 3, Nat.mod_lt _ (by decide), rfl⟩
  · simp at hx

theorem connSpec_mem (tris : List Triangle) (v x : Int) (h : x ∈ connSpec tris v) :
    ∃ t ∈ tris, ∃ e, e < 3 ∧ x = t.idx e := by
  simp only [connSpec, List.mem_flatMap] at h
  obtain ⟨t, ht, hx⟩ := h
  exact ⟨t, ht, cornerPairs_mem v t x hx⟩

theorem buildConnectivity_safe {T : Type} (ndebug : Bool) (m m1 : Mesh T)
    (h : BuildConnectivity ndebug m = .ok m1) :
    m1.vertex_ = m.vertex_ ∧ m1.vertex_con_.length = m1.vertex_.length ∧
    (∀ l ∈ m1.vertex_con_, l.length % 2 = 0 ∧
      ∀ x ∈ l, 0 ≤ x ∧ x < (m1.vertex_.length : Int)) ∧
    (ndebug = false → m1.vertex_con_ ≠ []) ∧ (m1.vertex_ ≠ [] → m1.vertex_con_ ≠ []) := by
  obtain ⟨⟨con, rfl, hl⟩, hidx⟩ := buildConnectivity_ok ndebug m m1 h
  have heq := buildConnectivity_eq ndebug m hidx
  rw [heq] at h
  split at h
  · next hc =>
    simp only [Except.ok.injEq] at h
    have hcon : (List.range m.vertex_.length).map (fun v : Nat => connSpec m.tri_ (v : Int)) =
        con := congrArg Mesh.vertex_con_ h
    refine ⟨rfl, hl, ?_, ?_, ?_⟩
    · intro l hmem
      change l ∈ con at hmem
      rw [← hcon, List.mem_map] at hmem
      obtain ⟨v, -, rfl⟩ := hmem
      refine ⟨by rw [connSpec_length]; omega, ?_⟩
      intro x hx
      obtain ⟨t, ht, e, he, rfl⟩ := connSpec_mem m.tri_ v x hx
      exact hidx t ht e he
    · intro hnd hnil
      change con = [] at hnil
      subst hnd
      subst hnil
      simp only [List.length_nil] at hl
      simp [← hl] at hc
    · intro hv hnil
      change m.vertex_ ≠ [] at hv
      change con = [] at hnil
      subst hnil
      simp only [List.length_nil] at hl
      exact hv (List.length_eq_zero.mp hl.symm)
  · simp at h

theorem load_obj_safe {T : Type} [LinearOrder T] [Add T] [Mul T] (ndebug : Bool)
    (lim : Limits T) (ex : Extractors T) (filename : List Char) (pos : Nat)
    (file : Option (List Char)) (m m1 : Mesh T)
    (hdot : rfindDot filename = some pos)
    (hext : HashExt (filename.drop (pos + 1)) = FileExt.kObj)
    (h : Load ndebug lim ex filename file m = .ok (m1, 0)) :
    m1.vertex_con_.length = m1.vertex_.length ∧
    (∀ l ∈ m1.vertex_con_, l.length % 2 = 0 ∧
      ∀ x ∈ l, 0 ≤ x ∧ x < (m1.vertex_.length : Int)) ∧
    (ndebug = false → m1.vertex_con_ ≠ []) ∧ (m1.vertex_ ≠ [] → m1.vertex_con_ ≠ []) := by
  cases file with
  | none =>
    rw [load_not_parsed ndebug lim ex filename pos none m hdot (Or.inl rfl)] at h
    simp at h
  | some content =>
    rw [load_obj_some ndebug lim ex filename pos content m hdot hext] at h
    cases hb : BuildConnectivity ndebug (LoadOBJ lim ex (some content) (clearArrays m)).1 with
    | error f => rw [hb] at h; simp [Except.map] at h
    | ok m2 =>
      rw [hb] at h
      simp only [Except.map, Except.ok.injEq, Prod.mk.injEq, and_true] at h
      subst h
      exact (buildConnectivity_safe ndebug _ m2 hb).2

/-! ### C22 -/

/-- C22 (defect of `Load`, the one of C14): after a `Load` of an OBJ file that
returns 0 the connectivity has one list per vertex, every list has even length
and every entry lies in `[0, vertex_count)`, and `ComputeVertexNormal` runs to
its end with one normal per vertex: no access of it leaves its container and
its assertion does not fail.  With assertions compiled in, and whenever the file
has a vertex, the connectivity is non-empty.  Under `NDEBUG` the empty file
loads with status 0 and leaves the connectivity empty. -/
theorem load_obj_normal_safety {T : Type} [LinearOrder T] [Add T] [Mul T] (ndebug : Bool)
    (lim : Limits T) (ex : Extractors T) (ops : NormalOps T) (filename : List Char) (pos : Nat)
    (file : Option (List Char)) (m m1 : Mesh T)
    (hdot : rfindDot filename = some pos)
    (hext : HashExt (filename.drop (pos + 1)) = FileExt.kObj)
    (h : Load ndebug lim ex filename file m = .ok (m1, 0)) :
    m1.vertex_con_.length = m1.vertex_.length ∧
    (∀ l ∈ m1.vertex_con_, l.length % 2 = 0 ∧
      ∀ x ∈ l, 0 ≤ x ∧ x < (m1.vertex_.length : Int)) ∧
    (ndebug = false → m1.vertex_con_ ≠ []) ∧
    (m1.vertex_ ≠ [] → m1.vertex_con_ ≠ []) ∧
    (∃ normal_, ComputeVertexNormal ndebug ops m1 = .ok { m1 with normal_ := normal_ } ∧
      normal_.length = m1.vertex_.length) ∧
    Load true intLimits intExtractors "a.obj".toList (some []) emptyMesh =
      .ok ({ emptyMesh with
        bbox_ := ⟨⟨intLimits.max, intLimits.max, intLimits.max⟩,
          ⟨intLimits.lowest, intLimits.lowest, intLimits.lowest⟩, ⟨0, 0, 0⟩⟩
        bbox_is_computed_ := true }, 0) ∧
    emptyMesh.vertex_con_ = [] := by
  obtain ⟨hlen, hlists, hnd, hv⟩ :=
    load_obj_safe ndebug lim ex filename pos file m m1 hdot hext h
  refine ⟨hlen, hlists, hnd, hv, ?_, by rfl, rfl⟩
  apply computeVertexNormal_ok ndebug ops m1 _ hlen hlists
  cases ndebug with
  | true => exact Or.inl rfl
  | false => exact Or.inr (hnd rfl)

/-- Witness of C22: the OBJ text of one triangle loads with status 0, its
connectivity is non-empty, and `ComputeVertexNormal` with exact integer
operations leaves three normals. -/
theorem load_obj_normal_safety_witness :
    Load false intLimits intExtractors "a.obj".toList
      (some "v 0 0 0\nv 2 0 0\nv 0 4 0\nvn 0 0 1\nf 1 2 3\n".toList) quadMesh =
      .ok (triangleMesh, 0) ∧
    ComputeVertexNormal false intOps triangleMesh =
      .ok { triangleMesh with normal_ := [⟨0, 0, 8⟩, ⟨0, 0, 8⟩, ⟨0, 0, 8⟩] } ∧
    triangleMesh.vertex_con_ ≠ [] :=
  ⟨by rfl, by rfl,
   (load_obj_normal_safety false intLimits intExtractors intOps "a.obj".toList 1
     (some "v 0 0 0\nv 2 0 0\nv 0 4 0\nvn 0 0 1\nf 1 2 3\n".toList) quadMesh triangleMesh
     (by rfl) (by rfl) (by rfl)).2.2.1 rfl⟩

/-! ### Malformed face lines as the text shows them -/

theorem cstr_of_no_nul (l : List Char) (h : Char.ofNat 0 ∉ l) : cstr l = l := by
  unfold cstr
  rw [List.takeWhile_eq_self_iff]
  intro c hc
  simp only [bne_iff_ne, ne_eq]
  rintro rfl
  exact h hc

theorem badLine_text (b : List Char) :
    badLine b = true ↔
      firstWord (cstr b) = ['f'] ∧ ∃ tok ∈ restWords (cstr b), scanInt tok = none := by
  unfold badLine restWords
  rw [faceRefs_eq]
  by_cases hf : firstWord (cstr b) = ['f']
  · simp only [hf, if_true, List.any_eq_true, Option.isNone_iff_eq_none, true_and]
  · simp [hf]

theorem badLine_no_nul (l : List Char) (h : Char.ofNat 0 ∉ l) :
    badLine l = true ↔ firstWord l = ['f'] ∧ ∃ tok ∈ restWords l, scanInt tok = none := by
  rw [badLine_text, cstr_of_no_nul l h]

theorem words_first_rest (l : List Char) (h : firstWord l ≠ []) :
    words [] l = firstWord l :: restWords l := by
  unfold firstWord restWords at *
  rw [← words_dropWhile l]
  cases hd : l.dropWhile isspace with
  | nil => rw [hd] at h; simp at h
  | cons c cs =>
    have hc : isspace c = false := by
      have := head_dropWhile_isspace l c (by rw [hd]; rfl)
      simpa using this
    exact words_nonspace c cs hc

theorem linesOf_line (body : List Char) :
    ∀ cur : List Char, (∀ c ∈ body, c ≠ '\n') →
      linesOf cur (body ++ ['\n']) = [cur ++ (body ++ ['\n'])] := by
  induction body with
  | nil => intro cur _; simp [linesOf]
  | cons c cs ih =>
    intro cur h
    have hc : c ≠ '\n' := h c (List.mem_cons_self _ _)
    rw [List.cons_append, linesOf, if_neg hc, ih _ fun x hx => h x (List.mem_cons_of_mem _ hx)]
    simp

set_option maxRecDepth 100000 in
theorem longBadLine_lines : linesOf [] longBadLine = [longBadLine] :=
  linesOf_line ("f 1 2 3".toList ++ (List.replicate 1100 ' ' ++ ['x'])) []
    (by
      intro c hc
      simp only [List.mem_append, List.mem_replicate, List.mem_singleton] at hc
      rcases hc with hc | ⟨-, rfl⟩ | rfl
      · revert c; decide
      · decide
      · decide)

/-! ### C7 -/

/-- C7 (amended): when every line of a TRI file is shorter than the line buffer
and the file contains a face line with a reference that does not begin with a
decimal integer, wherever that line stands, a `Load` of the file that returns,
returns failure (-1); the triangle array is not emptied: the triangles read
from the lines before the first malformed line are still its leading entries.
A line is read up to its first NUL character; for a line without one, malformed
means that its first token is exactly `f` and that one of the tokens after it
does not begin with a decimal integer. -/
theorem load_tri_malformed {T : Type} [LinearOrder T] [Add T] [Mul T] (ndebug : Bool)
    (lim : Limits T) (ex : Extractors T) (filename : List Char) (pos : Nat)
    (content : List Char) (m m1 : Mesh T) (err : Int)
    (hdot : rfindDot filename = some pos)
    (hext : HashExt (filename.drop (pos + 1)) = FileExt.kTri)
    (hlen : ∀ l ∈ linesOf [] content, l.length < LINE_SIZE)
    (hbad : ∃ l ∈ linesOf [] content, badLine l = true)
    (h : Load ndebug lim ex filename (some content) m = .ok (m1, err)) :
    err = -1 ∧
    (∃ pre line post trisPre,
      linesOf [] content = pre ++ line :: post ∧ badLine line = true ∧
      (∀ l ∈ pre, badLine l = false) ∧
      triLoop ndebug ex.tri0 pre [] = .ok (trisPre, true) ∧
      ∃ more, m1.tri_ = trisPre ++ more) ∧
    ∀ l : List Char, Char.ofNat 0 ∉ l →
      (badLine l = true ↔ firstWord l = ['f'] ∧ ∃ tok ∈ restWords l, scanInt tok = none) := by
  have hf := fgetsAll_eq_linesOf LINE_SIZE content [] hlen
  rw [← hf] at hbad ⊢
  obtain ⟨he, hrest⟩ :=
    load_tri_buffers ndebug lim ex filename pos content m m1 err hdot hext hbad h
  exact ⟨he, hrest, badLine_no_nul⟩

/-- Witness of C7 (amended): a malformed second line; the load fails and the
triangle of the first line is still in the array. -/
theorem load_tri_malformed_witness :
    (-1 : Int) = -1 ∧
    ∃ pre line post trisPre,
      linesOf [] "f 1 2 3\nf 4 5 6 x\nf 7 8 9\n".toList = pre ++ line :: post ∧
      badLine line = true ∧ (∀ l ∈ pre, badLine l = false) ∧
      triLoop false intExtractors.tri0 pre [] = .ok (trisPre, true) ∧
      ∃ more, ({ clearArrays quadMesh with tri_ := [⟨0, 1, 2⟩, ⟨3, 4, 5⟩] } : Mesh Int).tri_ =
        trisPre ++ more :=
  let h := load_tri_malformed false intLimits intExtractors "a.tri".toList 1
    "f 1 2 3\nf 4 5 6 x\nf 7 8 9\n".toList quadMesh
    { clearArrays quadMesh with tri_ := [⟨0, 1, 2⟩, ⟨3, 4, 5⟩] } (-1) (by rfl) (by rfl)
    (by decide) ⟨"f 4 5 6 x\n".toList, by decide, by rfl⟩ (by rfl)
  ⟨h.1, h.2.1⟩

set_option maxRecDepth 100000 in
/-- Counterexample to C7 as stated: the face line `f 1 2 3 x` has a
non-numeric reference; `Load` returns failure and the triangle array holds the
triangle `(0, 1, 2)` just pushed, with and without `NDEBUG`.  And a face line
longer than the line buffer whose non-numeric reference lies beyond the cut of
`fgets` does not make `Load` fail: it returns 0. -/
theorem load_tri_malformed_counterexample :
    Load false intLimits intExtractors "a.tri".toList (some "f 1 2 3 x\n".toList) emptyMesh =
      .ok ({ emptyMesh with tri_ := [⟨0, 1, 2⟩] }, -1) ∧
    Load true intLimits intExtractors "a.tri".toList (some "f 1 2 3 x\n".toList) emptyMesh =
      .ok ({ emptyMesh with tri_ := [⟨0, 1, 2⟩] }, -1) ∧
    linesOf [] longBadLine = [longBadLine] ∧ badLine longBadLine = true ∧
    (Load false intLimits intExtractors "a.tri".toList (some longBadLine) emptyMesh).map
      (fun r => (r.1.tri_, r.2)) = .ok ([⟨0, 1, 2⟩], 0) ∧
    (Load true intLimits intExtractors "a.tri".toList (some longBadLine) emptyMesh).map
      (fun r => (r.1.tri_, r.2)) = .ok ([⟨0, 1, 2⟩], 0) :=
  ⟨by rfl, by rfl, longBadLine_lines, by rfl, by rfl, by rfl⟩

/-! ### C10 -/

/-- C10 (amended): `LoadTri` returns -1 when the file cannot be opened.  On an
opened file whose lines are all shorter than the line buffer, a run that
returns gives 0 or -1; it gives 0 exactly when no face line has a reference
that fails to begin with a decimal integer, and -1 exactly when some face line
has one.  In that case the loop stopped at the first such line: whatever
follows that line does not enter the result.  A line is read up to its first
NUL character; for a line without one, malformed means that its first token is
exactly `f` and that one of the tokens after it does not begin with a decimal
integer. -/
theorem loadTri_status {T : Type} (ndebug : Bool) (tri0 : Triangle) (content : List Char)
    (m m1 : Mesh T) (err : Int)
    (hlen : ∀ l ∈ linesOf [] content, l.length < LINE_SIZE)
    (h : LoadTri ndebug tri0 (some content) m = .ok (m1, err)) :
    LoadTri ndebug tri0 none m = .ok (m, -1) ∧
    (err = 0 ∨ err = -1) ∧
    (err = 0 ↔ ∀ l ∈ linesOf [] content, badLine l = false) ∧
    (err = -1 ↔ ∃ l ∈ linesOf [] content, badLine l = true) ∧
    (err = -1 → ∃ pre line post,
      linesOf [] content = pre ++ line :: post ∧ badLine line = true ∧
      (∀ l ∈ pre, badLine l = false) ∧
      ∀ post2, triLoop ndebug tri0 (pre ++ line :: post2) m.tri_ = .ok (m1.tri_, false)) ∧
    ∀ l : List Char, Char.ofNat 0 ∉ l →
      (badLine l = true ↔ firstWord l = ['f'] ∧ ∃ tok ∈ restWords l, scanInt tok = none) := by
  have hf := fgetsAll_eq_linesOf LINE_SIZE content [] hlen
  rw [← hf]
  obtain ⟨h1, h2, h3, h4, h5⟩ := loadTri_buffers ndebug tri0 content m m1 err h
  exact ⟨h1, h2, h3, h4, h5, badLine_no_nul⟩

/-- Witness of C10 (amended): the third line is malformed, the load returns -1
and the line after it is not read. -/
theorem loadTri_status_witness :
    ((-1 : Int) = 0 ↔
      ∀ l ∈ linesOf [] "f 1 2 3\n# x\nf 4 5 6 x\nf 7 8 9\n".toList, badLine l = false) ∧
    ((-1 : Int) = -1 ↔
      ∃ l ∈ linesOf [] "f 1 2 3\n# x\nf 4 5 6 x\nf 7 8 9\n".toList, badLine l = true) :=
  let h := loadTri_status false ⟨0, 0, 0⟩ "f 1 2 3\n# x\nf 4 5 6 x\nf 7 8 9\n".toList emptyMesh
    { emptyMesh with tri_ := [⟨0, 1, 2⟩, ⟨3, 4, 5⟩] } (-1) (by decide) (by rfl)
  ⟨h.2.2.1, h.2.2.2.1⟩

set_option maxRecDepth 100000 in
/-- Counterexample to C10 as stated: the references `1x`, `2/` and `3/4/z` have
none of the three forms as whole tokens, yet `LoadTri` returns 0 and stores the
triangle `(0, 1, 2)`.  And on a face line longer than the line buffer a
reference that begins with no integer at all, beyond the cut of `fgets`, goes
unseen: `LoadTri` returns 0. -/
theorem loadTri_status_counterexample :
    refForm "1x".toList = none ∧ refForm "2/".toList = none ∧ refForm "3/4/z".toList = none ∧
    LoadTri false ⟨0, 0, 0⟩ (some "f 1x 2/ 3/4/z\n".toList) emptyMesh =
      .ok ({ emptyMesh with tri_ := [⟨0, 1, 2⟩] }, 0) ∧
    linesOf [] longBadLine = [longBadLine] ∧ badLine longBadLine = true ∧
    LoadTri false ⟨0, 0, 0⟩ (some longBadLine) emptyMesh =
      .ok ({ emptyMesh with tri_ := [⟨0, 1, 2⟩] }, 0) :=
  ⟨by rfl, by rfl, by rfl, by rfl, longBadLine_lines, by rfl, by rfl⟩

/-! ### The normals that `ComputeVertexNormal` leaves -/

end CHLib
